import Mathlib

/-!
# PFTIII validation driver: partitioning, permutation and log sanitising

A shallow embedding of `pftiii_validation.cpp` (`splitSet`,
`randomizeIndicies`, `sanitizeMessage`, `create`, `compare`, the two workers,
`waitForExit`, the parent side of `testOperation`, `parseArguments` and
`main`) and of the comparison of the sample implementation, followed by the
properties proved about them.

Conventions of the embedding:

* `std::vector<uint64_t>` is `List Nat`, `std::string` is `List Char` (one
  `Char` per `char`), `uint8_t` and `uint64_t` parameters are `Nat` and the
  theorems carry the range of the type as a hypothesis where it matters;
* a C++ exception is an `Except` error, and a library call whose
  precondition is violated is the error `Fault.undefined`;
* the one place where the source computes in `float` (the partition size of
  `splitSet`) is embedded with exact IEEE-754 binary32 round-to-nearest-even
  arithmetic on fractions of natural numbers;
* products in `size_type` are reduced modulo `2 ^ 64`, and an increment of
  the 32 bit `int` counter of `std::iota` past `INT_MAX` is undefined.
-/

namespace PFTIII
namespace Validation

/-! ## IEEE-754 binary32, restricted to the operations `splitSet` uses -/

/-- Nearest natural number to the fraction `a / d`, a tie going to the even
neighbour (the default IEEE-754 rounding direction). -/
def roundHalfEven (a d : Nat) : Nat :=
  if 2 * (a % d) < d then a / d
  else if d < 2 * (a % d) then a / d + 1
  else if (a / d) % 2 = 0 then a / d
  else a / d + 1

/-- Least `s` with `a < t * 2 ^ s`, found by doubling `t` at most `fuel`
times. -/
def shiftDown : Nat → Nat → Nat → Nat
  | 0, _, _ => 0
  | fuel + 1, a, t => if a < t then 0 else shiftDown fuel a (2 * t) + 1

/-- Least `k` with `t ≤ a * 2 ^ k`, found by doubling `a` at most `fuel`
times. -/
def shiftUp : Nat → Nat → Nat → Nat
  | 0, _, _ => 0
  | fuel + 1, a, t => if t ≤ a then 0 else shiftUp fuel (2 * a) t + 1

/-- A finite non-negative binary32 value, kept as the exact fraction
`num / den`. -/
structure Float32 where
  num : Nat
  den : Nat
  deriving DecidableEq, Repr

/-- The binary32 value nearest to the positive fraction `a / b`: the
fraction is scaled by a power of two so that its integer part has exactly 24
bits (the width of the binary32 significand), rounded there half-to-even, and
scaled back.  Exponent overflow and subnormal results are out of range for
the operands `splitSet` produces (quotients between `1 / 255` and `2 ^ 64`)
and are not represented. -/
def fround (a b : Nat) : Float32 :=
  if a = 0 then ⟨0, 1⟩
  else if 2 ^ 24 * b ≤ a then
    let s := shiftDown 64 a (2 ^ 24 * b)
    ⟨roundHalfEven a (b * 2 ^ s) * 2 ^ s, 1⟩
  else
    let k := shiftUp 64 a (2 ^ 23 * b)
    ⟨roundHalfEven (a * 2 ^ k) b, 2 ^ k⟩

/-- The conversion `static_cast<float>(n)` of an unsigned integer. -/
def toFloat (n : Nat) : Float32 := fround n 1

/-- The binary32 quotient `x / y`. -/
def fdiv (x y : Float32) : Float32 := fround (x.num * y.den) (x.den * y.num)

/-- The call `std::ceil(x)` followed by the conversion of its (integral)
result to `size_type`. -/
def fceil (x : Float32) : Nat := (x.num + x.den - 1) / x.den

/-! ## `splitSet` -/

/-- What can go wrong in the embedded code: a thrown `std::invalid_argument`,
`std::runtime_error`, `std::out_of_range` or `std::logic_error`, or a
standard-library call made outside its precondition. -/
inductive Fault where
  | invalidArgument (what : String)
  | runtimeError (what : String)
  | outOfRange (what : String)
  | logicError (what : String)
  | undefined
  deriving DecidableEq, Repr

/-- The constant `std::numeric_limits<diff_t>::max()` for the 64 bit iterator
difference type. -/
def diffMax : Nat := 2 ^ 63 - 1

/-- The iterator `std::next(v.begin(), static_cast<diff_t>(off))`, as a
position in `v`: defined when the converted offset is not negative and not
past the end. -/
def nextFromBegin (v : List Nat) (off : Nat) : Except Fault Nat :=
  if off ≤ diffMax ∧ off ≤ v.length then .ok off else .error .undefined

/-- The range constructor `std::vector<uint64_t>(first, last)` over positions
of `v`: defined when `[first, last)` is a valid range. -/
def vectorFromRange (v : List Nat) (first last : Nat) : Except Fault (List Nat) :=
  if first ≤ last then .ok ((v.take last).drop first) else .error .undefined

/-- The partition size computed by `splitSet`:
`std::ceil(static_cast<float>(size) / static_cast<float>(numSets))`. -/
def partitionSize (len numSets : Nat) : Nat :=
  fceil (fdiv (toFloat len) (toFloat numSets))

/-- The `for (uint8_t i{0}; i < numSets; ++i)` loop of `splitSet`, with
`remaining` iterations left at counter `i`; the products are taken in the 64
bit `size_type`. -/
def splitSetLoop (combinedSet : List Nat) (size : Nat) :
    Nat → Nat → Except Fault (List (List Nat))
  | 0, _ => .ok []
  | remaining + 1, i => do
    let first ← nextFromBegin combinedSet (size * i % 2 ^ 64)
    let last ← nextFromBegin combinedSet
      (min (size * (i + 1) % 2 ^ 64) combinedSet.length)
    let set ← vectorFromRange combinedSet first last
    let rest ← splitSetLoop combinedSet size remaining (i + 1)
    pure (set :: rest)

/-- The function `PFTIII::Validation::splitSet`. -/
def splitSet (combinedSet : List Nat) (numSets : Nat) :
    Except Fault (List (List Nat)) :=
  if numSets = 0 then .ok []
  else if numSets = 1 then .ok [combinedSet]
  else if combinedSet.length > diffMax then .ok [combinedSet]
  else
    let size := partitionSize combinedSet.length numSets
    if size < numSets then .error (.invalidArgument "Too many sets.")
    else splitSetLoop combinedSet size numSets 0


/-! ## `randomizeIndicies` -/

/-- The call `std::iter_swap` on the positions `i` and `j` of a vector (both
inside it). -/
def iterSwap (xs : List Nat) (i j : Nat) : List Nat :=
  match xs[i]?, xs[j]? with
  | some a, some b => (xs.set i b).set j a
  | _, _ => xs

/-- Modelled from the spec: `std::shuffle` is library code outside the
repository, and the spec describes it as a Fisher–Yates shuffle driven by the
seeded generator.  The loop visits the positions `i = 1, 2, ...` and swaps
position `i` with a position drawn from `[0, i]`; `draw i g` is what the
generator in state `g` delivers for that draw (any value: it is reduced into
`[0, i]` here) together with the generator's next state. -/
def shuffleLoop {σ : Type} (draw : Nat → σ → Nat × σ) :
    Nat → Nat → List Nat → σ → List Nat
  | 0, _, xs, _ => xs
  | remaining + 1, i, xs, g =>
    shuffleLoop draw remaining (i + 1) (iterSwap xs i ((draw i g).1 % (i + 1))) (draw i g).2

/-- Modelled from the spec: `std::shuffle(first, last, g)` over a whole
vector, one draw for each position after the first. -/
def shuffle {σ : Type} (draw : Nat → σ → Nat × σ) (xs : List Nat) (g : σ) : List Nat :=
  shuffleLoop draw (xs.length - 1) 1 xs g

/-- The constant `INT_MAX` of the 32 bit `int`. -/
def INT_MAX : Nat := 2 ^ 31 - 1

/-- The loop of `std::iota(first, last, 0)` with `remaining` positions left
and the counter at `value`: each round stores the counter (converted to
`uint64_t`) and increments it.  The counter takes the type of the literal
`0`, which is the 32 bit `int`, so incrementing it at `INT_MAX` is a signed
overflow, which is undefined in C++. -/
def iotaLoop : Nat → Nat → Except Fault (List Nat)
  | 0, _ => .ok []
  | remaining + 1, value =>
    if value < INT_MAX then
      match iotaLoop remaining (value + 1) with
      | .error e => .error e
      | .ok rest => .ok (value :: rest)
    else .error .undefined

/-- The vector `indicies(size)` after `std::iota(indicies.begin(),
indicies.end(), 0)`. -/
def iota (size : Nat) : Except Fault (List Nat) := iotaLoop size 0

/-- The function `PFTIII::Validation::randomizeIndicies`: `std::iota` over
`size` elements, then `std::shuffle` with the temporary
`std::mt19937_64(seed)`, here `engine seed`. -/
def randomizeIndicies {σ : Type} (engine : Nat → σ) (draw : Nat → σ → Nat × σ)
    (size seed : Nat) : Except Fault (List Nat) :=
  match iota size with
  | .error e => .error e
  | .ok indicies => .ok (shuffle draw indicies (engine seed))

/-! ## `sanitizeMessage` -/

/-- The function `std::isgraph` in the "C" locale (the driver never changes the locale):
the visible ASCII characters; no byte outside ASCII is graphic. -/
def isgraph (c : Char) : Bool := 0x21 ≤ c.toNat && c.toNat ≤ 0x7E

/-- The predicate of the `std::find_if_not` call in `sanitizeMessage`. -/
def allowed (c : Char) : Bool := isgraph c || c == ' '

/-- The call `std::find_if_not(s.begin(), s.end(), p)`, as a position: that of the
first character failing `p`, or the length of `s` for `s.end()`. -/
def findIfNot (p : Char → Bool) : List Char → Nat
  | [] => 0
  | c :: cs => if p c then findIfNot p cs + 1 else 0

/-- The call `std::string::replace` of the `count` characters at `pos` by `by_`. -/
def replaceRange (s : List Char) (pos count : Nat) (by_ : List Char) : List Char :=
  s.take pos ++ by_ ++ s.drop (pos + count)

/-- The first `while` loop of `sanitizeMessage`: each round searches from the
start of the string for a character that is neither graphic nor a space and
replaces it by a space.  `fuel` bounds the number of rounds. -/
def replaceLoop : Nat → List Char → List Char
  | 0, sanitized => sanitized
  | fuel + 1, sanitized =>
    let it := findIfNot allowed sanitized
    if it ≠ sanitized.length then replaceLoop fuel (replaceRange sanitized it 1 [' '])
    else sanitized

/-- The call `std::string::find` for the one-character string `"\""`, from `position`;
`none` is `npos`. -/
def findQuote (s : List Char) (position : Nat) : Option Nat :=
  let k := findIfNot (fun c => c != '"') (s.drop position)
  if k < (s.drop position).length then some (position + k) else none

/-- The second `while` loop of `sanitizeMessage`: each quote found at or
after `position` is replaced by backslash, quote, and the search resumes
behind the pair.  `fuel` bounds the number of rounds. -/
def escapeLoop : Nat → List Char → Nat → List Char
  | 0, sanitized, _ => sanitized
  | fuel + 1, sanitized, position =>
    match findQuote sanitized position with
    | none => sanitized
    | some found => escapeLoop fuel (replaceRange sanitized found 1 ['\\', '"']) (found + 2)

/-- The function `PFTIII::Validation::sanitizeMessage`.  The first loop gets one round per
character of the message and the second one round per character of its
input, which is as many as either can use. -/
def sanitizeMessage (message : List Char) (escapeQuotes wrapInQuotes : Bool) :
    List Char :=
  if message.isEmpty then (if wrapInQuotes then ['"', '"'] else message)
  else
    let replaced := replaceLoop message.length message
    let sanitized := if escapeQuotes then escapeLoop replaced.length replaced 0 else replaced
    if wrapInQuotes then ['"'] ++ sanitized ++ ['"'] else sanitized

/-! ## The interface of `pftiii.h` -/

/-- The contents of an image or template file, `std::vector<uint8_t>`. -/
abbrev Bytes := List Nat

/-- The enumeration `FingerImageStatus::Code`. -/
inductive FingerImageStatus.Code where
  | Supported
  | InvalidImageData
  | VendorDefined
  deriving DecidableEq, Repr

/-- The structure `PFTIII::FingerImageStatus`. -/
structure FingerImageStatus where
  code : FingerImageStatus.Code
  message : List Char
  deriving DecidableEq, Repr

/-- The enumeration `PFTIII::Result`. -/
inductive Result where
  | Success
  | Failure
  deriving DecidableEq, Repr

/-- The structure `PFTIII::CreateProprietaryTemplateResult`. -/
structure CreateProprietaryTemplateResult where
  result : Result
  proprietaryTemplate : Bytes
  message : List Char
  deriving DecidableEq, Repr

/-- The structure `PFTIII::CompareProprietaryTemplatesStatus`. -/
structure CompareProprietaryTemplatesStatus where
  result : Result
  message : List Char
  deriving DecidableEq, Repr

/-- The structure `PFTIII::Validation::ImageMetadata`, its enumerations by
their integral values. -/
structure ImageMetadata where
  width : Nat
  height : Nat
  ppi : Nat
  imp : Nat
  frct : Nat
  frgp : Nat
  deriving DecidableEq, Repr

/-- The structure `PFTIII::FingerImage`. -/
structure FingerImage where
  width : Nat
  height : Nat
  ppi : Nat
  pixels : Bytes
  imp : Nat
  frct : Nat
  frgp : Nat
  deriving DecidableEq, Repr

/-- A similarity score, the `double` of `compareProprietaryTemplates`, as
`std::to_string` sees it: `std::to_string(double)` prints with `%f`, so a
finite value by its sign, its integer part and its six decimals, and an
infinity or a NaN by its sign. -/
inductive Score where
  | finite (negative : Bool) (whole : Nat) (decimals : Nat)
  | infinite (negative : Bool)
  | nan (negative : Bool)
  deriving DecidableEq, Repr

/-- What a call into the implementation threw: a `std::exception` with its
`what()`, or anything else. -/
inductive Thrown where
  | exception (what : List Char)
  | unknown
  deriving DecidableEq, Repr

/-- The class `PFTIII::Interface`, by the two methods the driver times: each
returns its tuple or throws. -/
structure Interface where
  createProprietaryTemplate :
    FingerImage → Except Thrown (FingerImageStatus × CreateProprietaryTemplateResult)
  compareProprietaryTemplates :
    Bytes → Bytes → Except Thrown (CompareProprietaryTemplatesStatus × Score)

/-! ## Log records -/

/-- The helper `ts`, `std::to_string` of a non-negative integer. -/
def ts (n : Nat) : List Char := Nat.toDigits 10 n

/-- The helper `e2i` on `FingerImageStatus::Code`. -/
def FingerImageStatus.Code.e2i : FingerImageStatus.Code → Nat
  | .Supported => 0
  | .InvalidImageData => 1
  | .VendorDefined => 2

/-- The helper `e2i` on `Result`. -/
def Result.e2i : Result → Nat
  | .Success => 0
  | .Failure => 1

/-- The six decimals of `%f`, padded with zeros on the left. -/
def sixDecimals (decimals : Nat) : List Char :=
  List.replicate (6 - (ts (decimals % 1000000)).length) '0' ++ ts (decimals % 1000000)

/-- The call `std::to_string` on a `double` (`%f` in the "C" locale). -/
def Score.toString : Score → List Char
  | .finite negative whole decimals =>
    (if negative then ['-'] else []) ++ ts whole ++ ['.'] ++ sixDecimals decimals
  | .infinite negative => (if negative then ['-'] else []) ++ ['i', 'n', 'f']
  | .nan negative => (if negative then ['-'] else []) ++ ['n', 'a', 'n']

/-- The token written for a numeric field without a value. -/
def NA : List Char := ['N', 'A']

/-- The log line `create` builds from the name of the image, the elapsed
microseconds and the tuple the implementation returned. -/
def createLogLine (name : List Char) (elapsed : Nat) (status : FingerImageStatus)
    (result : CreateProprietaryTemplateResult) : List Char :=
  let logLine := ['"'] ++ name ++ ['"', ','] ++ ts elapsed ++ [','] ++
    ts status.code.e2i ++ [','] ++ sanitizeMessage status.message true true ++ [',']
  if status.code = .Supported then
    let logLine := logLine ++ ts result.result.e2i ++ [','] ++
      sanitizeMessage result.message true true ++ [',']
    if result.result = .Success then logLine ++ ts result.proprietaryTemplate.length
    else logLine ++ NA
  else logLine ++ NA ++ [',', '"', '"', ','] ++ NA

/-- The template `create` hands to `writeFile`. -/
def createTemplate (status : FingerImageStatus)
    (result : CreateProprietaryTemplateResult) : Bytes :=
  if status.code = .Supported ∧ result.result = .Success then result.proprietaryTemplate
  else []

/-- The log line `compare` returns. -/
def compareLogLine (probeName referenceName : List Char) (elapsed : Nat)
    (status : CompareProprietaryTemplatesStatus) (score : Score) : List Char :=
  ['"'] ++ probeName ++ ['"', ',', '"'] ++ referenceName ++ ['"', ','] ++ ts elapsed ++
    [','] ++ ts status.result.e2i ++ [','] ++ sanitizeMessage status.message true true ++
    [','] ++ (if status.result = .Success then score.toString else NA)

/-- The last field of a comma separated record: what follows its last comma. -/
def trailingField (line : List Char) : List Char :=
  (line.reverse.takeWhile (fun c => c != ',')).reverse

/-! ## The driver and what it meets outside itself -/

/-- The enumeration `PFTIII::Validation::Operation`. -/
inductive Operation where
  | Create
  | Compare
  | Identify
  | Usage
  deriving DecidableEq, Repr

/-- The structure `PFTIII::Validation::Arguments`. -/
structure Arguments where
  randomSeed : Nat
  operation : Operation
  numProcs : Nat
  deriving Repr

/-- The steps of `testOperation` that reach outside the function. -/
inductive Action where
  | runCreate (indicies : List Nat)
  | runCompare (indicies : List Nat)
  | fork (operation : Operation) (set : List Nat)
  | waitForExit (numChildren : Nat)
  deriving DecidableEq, Repr

/-- What a call of `::wait` gives back: the identifier and the status of a
child that terminated, 0, or -1 with a value of `errno`. -/
inductive WaitResult where
  | exited (pid status : Nat)
  | noStatus
  | failed (errno : Nat)
  deriving DecidableEq, Repr

/-- What the driver meets outside itself.  For the parent: the version the
linked library reports, the result of `mkdir` on the output directory, the
loaded implementation, the random engine, whether the `k`-th `fork` fails, and
the results of the successive calls of `::wait`, of which the embedding
follows at most `patience`.  For a worker: the two data tables, its process
identifier, the result of `mkdir` on the template directory, the files that
can be read with their contents, whether a file can be opened for writing and
written, whether the log can be created and whether its `k`-th line can be
written, and the microseconds measured around the call for an item. -/
structure Host (σ : Type) where
  apiVersion : Nat × Nat × Nat
  getIdentificationString : Except Fault Unit
  mkdirErrno : Option Nat
  getImplementation : Except Fault Interface
  engine : Nat → σ
  draw : Nat → σ → Nat × σ
  forkFails : Nat → Bool
  wait : Nat → WaitResult
  patience : Nat
  images : List (List Char × ImageMetadata)
  pairs : List (List Char × List Char)
  pid : Nat
  templateDirErrno : Option Nat
  disk : List Char → Option Bytes
  opensForWriting : List Char → Bool
  writes : List Char → Bool
  logOpens : Bool
  logAccepts : Nat → Bool
  elapsed : Nat → Nat

/-- The size `Data::Images.size()` of the image table. -/
def Host.imagesSize {σ : Type} (host : Host σ) : Nat := host.images.length

/-- The size `Data::Pairs.size()` of the table of pairs. -/
def Host.pairsSize {σ : Type} (host : Host σ) : Nat := host.pairs.length

/-- The value of `EEXIST`. -/
def EEXIST : Nat := 17

/-- The value of `ECHILD`. -/
def ECHILD : Nat := 10

/-- The value of `EINTR`. -/
def EINTR : Nat := 4

/-- The constant `OutputDir`. -/
def OutputDir : List Char := ['o', 'u', 't', 'p', 'u', 't']

/-- The constant `ImageDir`. -/
def ImageDir : List Char := ['i', 'm', 'a', 'g', 'e', 's']

/-- The constant `TemplateDir`. -/
def TemplateDir : List Char := OutputDir ++ ['/', 't', 'e', 'm', 'p', 'l', 'a', 't', 'e', 's']

/-- The constant `TemplateSuffix`. -/
def TemplateSuffix : List Char := ['.', 't', 'm', 'p', 'l']

/-- The function `PFTIII::Validation::readFile`. -/
def readFile {σ : Type} (host : Host σ) (pathName : List Char) : Except Fault Bytes :=
  match host.disk pathName with
  | none => .error (.runtimeError ("Could not open " ++ String.mk pathName))
  | some buf => .ok buf

/-- The function `PFTIII::Validation::writeFile`. -/
def writeFile {σ : Type} (host : Host σ) (data : Bytes) (pathName : List Char) :
    Except Fault Unit :=
  if ¬ host.opensForWriting pathName then
    .error (.runtimeError ("Could not open " ++ String.mk pathName))
  else if data.length > 2 ^ 63 - 1 ∨ ¬ host.writes pathName then
    .error (.runtimeError ("Could not write " ++ String.mk (ts data.length) ++
      " bytes to " ++ String.mk pathName))
  else .ok ()

/-- What a call of `create` did: the template files it wrote in full, and the
log line it returned or the exception it threw. -/
structure Created where
  templates : List (List Char × Bytes)
  result : Except Fault (List Char)

/-- The function `PFTIII::Validation::create`. -/
def create {σ : Type} (host : Host σ) (impl : Interface) (imageIndex : Nat) : Created :=
  match host.images[imageIndex]? with
  | none => ⟨[], .error (.outOfRange "vector::at")⟩
  | some (name, md) =>
    match readFile host (ImageDir ++ ['/'] ++ name) with
    | .error e => ⟨[], .error e⟩
    | .ok pixels =>
      match impl.createProprietaryTemplate
        ⟨md.width, md.height, md.ppi, pixels, md.imp, md.frct, md.frgp⟩ with
      | .error (.exception what) =>
        ⟨[], .error (.runtimeError ("Exception while creating template from " ++
          String.mk name ++ " (" ++ String.mk what ++ ")"))⟩
      | .error .unknown =>
        ⟨[], .error (.runtimeError ("Unknown exception while creating template from " ++
          String.mk name))⟩
      | .ok rv =>
        let logLine := createLogLine name (host.elapsed imageIndex) rv.1 rv.2
        let pathName := TemplateDir ++ ['/'] ++ name ++ TemplateSuffix
        match writeFile host (createTemplate rv.1 rv.2) pathName with
        | .error e => ⟨[], .error e⟩
        | .ok _ => ⟨[(pathName, createTemplate rv.1 rv.2)], .ok logLine⟩

/-- The function `PFTIII::Validation::compare`. -/
def compare {σ : Type} (host : Host σ) (impl : Interface) (pairsIndex : Nat) :
    Except Fault (List Char) :=
  match host.pairs[pairsIndex]? with
  | none => .error (.outOfRange "vector::at")
  | some (probeName, referenceName) =>
    match readFile host (TemplateDir ++ ['/'] ++ probeName ++ TemplateSuffix) with
    | .error e => .error e
    | .ok probe =>
      match readFile host (TemplateDir ++ ['/'] ++ referenceName ++ TemplateSuffix) with
      | .error e => .error e
      | .ok reference =>
        match impl.compareProprietaryTemplates probe reference with
        | .error (.exception what) =>
          .error (.runtimeError ("Exception while comparing " ++ String.mk probeName ++
            " to " ++ String.mk referenceName ++ " (" ++ String.mk what ++ ")"))
        | .error .unknown =>
          .error (.runtimeError ("Unknown exception while comparing " ++
            String.mk probeName ++ " to " ++ String.mk referenceName))
        | .ok rv =>
          .ok (compareLogLine probeName referenceName (host.elapsed pairsIndex) rv.1 rv.2)

/-- What a worker did: the contents of its log file, the template files it
wrote, and whether it returned or threw. -/
structure Worked where
  log : List Char
  templates : List (List Char × Bytes)
  outcome : Except Fault Unit

/-- The header line of the log of `runCreate`. -/
def createHeader : List Char :=
  "name,elapsed,fisCode,".toList ++ ['"'] ++ "fisMessage".toList ++ ['"'] ++
    ",cptrResult,".toList ++ ['"'] ++ "cptrMessage".toList ++ ['"'] ++ ",size".toList

/-- The header line of the log of `runCompare`. -/
def compareHeader : List Char :=
  ['"'] ++ "probeName".toList ++ ['"', ',', '"'] ++ "referenceName".toList ++ ['"'] ++
    ",elapsed,rCode,".toList ++ ['"'] ++ "rMessage".toList ++ ['"'] ++ ",similarity".toList

/-- The `for (const auto &n : indicies)` loop of `runCreate`, about to write
line `k` of the log. -/
def runCreateLoop {σ : Type} (host : Host σ) (impl : Interface) :
    List Nat → Nat → Worked
  | [], _ => ⟨[], [], .ok ()⟩
  | n :: rest, k =>
    match (create host impl n).result with
    | .error e => ⟨[], (create host impl n).templates, .error e⟩
    | .ok line =>
      if host.logAccepts k then
        let r := runCreateLoop host impl rest (k + 1)
        ⟨line ++ ['\n'] ++ r.log, (create host impl n).templates ++ r.templates, r.outcome⟩
      else
        ⟨[], (create host impl n).templates,
          .error (.runtimeError (String.mk (ts host.pid) ++ ": Error writing to log"))⟩

/-- The function `PFTIII::Validation::runCreate`. -/
def runCreate {σ : Type} (host : Host σ) (impl : Interface) (indicies : List Nat) :
    Worked :=
  if host.templateDirErrno.isSome ∧ host.templateDirErrno ≠ some EEXIST then
    ⟨[], [], .error (.runtimeError "Could not create directory")⟩
  else if ¬ host.logOpens then
    ⟨[], [], .error (.runtimeError (String.mk (ts host.pid) ++ ": Error creating log file"))⟩
  else if ¬ host.logAccepts 0 then
    ⟨[], [], .error (.runtimeError (String.mk (ts host.pid) ++ ": Error writing to log"))⟩
  else
    let r := runCreateLoop host impl indicies 1
    ⟨createHeader ++ ['\n'] ++ r.log, r.templates, r.outcome⟩

/-- The `for (const auto &n : indicies)` loop of `runCompare`, about to write
line `k` of the log. -/
def runCompareLoop {σ : Type} (host : Host σ) (impl : Interface) :
    List Nat → Nat → Worked
  | [], _ => ⟨[], [], .ok ()⟩
  | n :: rest, k =>
    match compare host impl n with
    | .error e => ⟨[], [], .error e⟩
    | .ok line =>
      if host.logAccepts k then
        let r := runCompareLoop host impl rest (k + 1)
        ⟨line ++ ['\n'] ++ r.log, r.templates, r.outcome⟩
      else
        ⟨[], [], .error (.runtimeError (String.mk (ts host.pid) ++ ": Error writing to log"))⟩

/-- The function `PFTIII::Validation::runCompare`. -/
def runCompare {σ : Type} (host : Host σ) (impl : Interface) (indicies : List Nat) :
    Worked :=
  if ¬ host.logOpens then
    ⟨[], [], .error (.runtimeError (String.mk (ts host.pid) ++ ": Error creating log file"))⟩
  else if ¬ host.logAccepts 0 then
    ⟨[], [], .error (.runtimeError (String.mk (ts host.pid) ++ ": Error writing to log"))⟩
  else
    let r := runCompareLoop host impl indicies 1
    ⟨compareHeader ++ ['\n'] ++ r.log, r.templates, r.outcome⟩

/-- The loops of `waitForExit`, about to call `::wait` for the `k`-th time
with `exitedChildren` counted so far (in `uint8_t`): a terminated child is
counted, `ECHILD` leaves the inner loop, and the outer loop returns when the
count equals `numChildren` and enters the inner loop again otherwise.  The
result is `none` when the function has not returned after `fuel` calls. -/
def waitForExitFrom (wait : Nat → WaitResult) (numChildren : Nat) :
    Nat → Nat → Nat → Option (Except Fault Unit)
  | 0, _, _ => none
  | fuel + 1, k, exitedChildren =>
    match wait k with
    | .exited _ _ => waitForExitFrom wait numChildren fuel (k + 1) ((exitedChildren + 1) % 256)
    | .noStatus => waitForExitFrom wait numChildren fuel (k + 1) exitedChildren
    | .failed errno =>
      if errno = ECHILD then
        if exitedChildren ≠ numChildren then
          waitForExitFrom wait numChildren fuel (k + 1) exitedChildren
        else some (.ok ())
      else if errno = EINTR then waitForExitFrom wait numChildren fuel (k + 1) exitedChildren
      else some (.error (.runtimeError "Error while reaping"))

/-- The function `PFTIII::Validation::waitForExit`, followed for at most
`fuel` calls of `::wait`. -/
def waitForExit (wait : Nat → WaitResult) (numChildren fuel : Nat) :
    Option (Except Fault Unit) :=
  if 0 ≠ numChildren then waitForExitFrom wait numChildren fuel 0 0 else some (.ok ())

/-- What a call of `testOperation` did and how it ended; `none` when it has
not returned within the patience of the host. -/
structure Run where
  actions : List Action
  outcome : Option (Except Fault Unit)

/-- The `for (const auto &set : sets)` loop of `testOperation` in the parent:
one `fork` per set, stopping with an exception at the first `fork` that
returns -1; `k` counts the calls made so far. -/
def forkLoop {σ : Type} (host : Host σ) (operation : Operation) :
    List (List Nat) → Nat → List Action × Bool
  | [], _ => ([], true)
  | set :: rest, k =>
    if host.forkFails k then ([], false)
    else
      let r := forkLoop host operation rest (k + 1)
      (Action.fork operation set :: r.1, r.2)

/-- The function `PFTIII::Validation::testOperation`, as the parent process
runs it. -/
def testOperation {σ : Type} (host : Host σ) (args : Arguments) : Run :=
  if args.operation ≠ .Create ∧ args.operation ≠ .Compare then
    ⟨[], some (.error (.runtimeError "Unsupported operation was sent to testOperation()"))⟩
  else if host.mkdirErrno.isSome ∧ host.mkdirErrno ≠ some EEXIST then
    ⟨[], some (.error (.runtimeError "Could not create directory"))⟩
  else
    match host.getImplementation with
    | .error e => ⟨[], some (.error e)⟩
    | .ok impl =>
      let containerSize :=
        if args.operation = .Create then host.imagesSize else host.pairsSize
      match randomizeIndicies host.engine host.draw containerSize args.randomSeed with
      | .error e => ⟨[], some (.error e)⟩
      | .ok indicies =>
        if args.numProcs ≤ 1 then
          match args.operation with
          | .Create => ⟨[.runCreate indicies], some (runCreate host impl indicies).outcome⟩
          | .Compare => ⟨[.runCompare indicies], some (runCompare host impl indicies).outcome⟩
          | _ =>
            ⟨[], some (.error (.runtimeError "Unsupported operation was sent to testOperation()"))⟩
        else
          match splitSet indicies args.numProcs with
          | .error e => ⟨[], some (.error e)⟩
          | .ok sets =>
            let forked := forkLoop host args.operation sets 0
            if forked.2 then
              ⟨forked.1 ++ [.waitForExit args.numProcs],
                waitForExit host.wait args.numProcs host.patience⟩
            else ⟨forked.1, some (.error (.runtimeError "Error during fork()"))⟩

/-- The value of `EXIT_SUCCESS`. -/
def EXIT_SUCCESS : Nat := 0

/-- The value of `EXIT_FAILURE`. -/
def EXIT_FAILURE : Nat := 1

/-- The function `main`, from the result of `parseArguments` on: its return
value, or `none` when the operation does not return or leaves defined
behaviour. -/
def main {σ : Type} (host : Host σ) (parsed : Except Fault Arguments) : Option Nat :=
  if host.apiVersion ≠ (1, 0, 0) then some EXIT_FAILURE
  else
    match parsed with
    | .error _ => some EXIT_FAILURE
    | .ok args =>
      match args.operation with
      | .Identify =>
        match host.getIdentificationString with
        | .ok _ => some EXIT_SUCCESS
        | .error _ => some EXIT_FAILURE
      | .Usage => some EXIT_SUCCESS
      | _ =>
        match (testOperation host args).outcome with
        | none => none
        | some (.ok _) => some EXIT_SUCCESS
        | some (.error .undefined) => none
        | some (.error _) => some EXIT_FAILURE

/-- Whether an action is a `fork`. -/
def Action.isFork : Action → Bool
  | .fork _ _ => true
  | _ => false

/-- What `sanitizeMessage` leaves at the place of the character `c`: `c`
itself when it is graphic or a space, and a space otherwise. -/
def blank (c : Char) : Char := if allowed c then c else ' '

/-- What `sanitizeMessage` leaves at the place of the character `c` when it
escapes quotes: backslash, quote for a quote, and `c` otherwise. -/
def escaped (c : Char) : List Char := if c = '"' then ['\\', '"'] else [c]

/-- An implementation that supports every image, returns the three bytes 1,
2, 3 as its template, and scores every comparison 0.5. -/
def quietImplementation : Interface where
  createProprietaryTemplate := fun _ => .ok (⟨.Supported, []⟩, ⟨.Success, [1, 2, 3], []⟩)
  compareProprietaryTemplates := fun _ _ => .ok (⟨.Success, []⟩, .finite false 0 500000)

/-- A host in which every call succeeds, over a corpus of six images and six
pairs, with a counter in place of the random engine and two children to
reap. -/
def quietHost : Host Nat where
  apiVersion := (1, 0, 0)
  getIdentificationString := .ok ()
  mkdirErrno := none
  getImplementation := .ok quietImplementation
  engine := fun seed => seed
  draw := fun i g => (g + i, g + 1)
  forkFails := fun _ => false
  wait := fun k => if k < 2 then .exited (100 + k) 0 else .failed ECHILD
  patience := 8
  images := (List.range 6).map (fun k => (['i', 'm', 'g'] ++ ts k, ⟨256, 360, 500, 0, 0, 0⟩))
  pairs := (List.range 6).map (fun k => (['i', 'm', 'g'] ++ ts k, ['i', 'm', 'g'] ++ ts (5 - k)))
  pid := 4242
  templateDirErrno := none
  disk := fun _ => some [0, 1, 2, 3]
  opensForWriting := fun _ => true
  writes := fun _ => true
  logOpens := true
  logAccepts := fun _ => true
  elapsed := fun n => 1000 + n

/-- An implementation that supports every image but fails to create a
template, and returns the three bytes 7, 8, 9 as template all the same. -/
def failingImplementation : Interface where
  createProprietaryTemplate := fun _ =>
    .ok (⟨.Supported, []⟩, ⟨.Failure, [7, 8, 9], ['b', 'a', 'd']⟩)
  compareProprietaryTemplates := fun _ _ => .ok (⟨.Failure, ['b', 'a', 'd']⟩, .finite false 0 0)

/-- An implementation that supports every image and returns `result` as its
creation result. -/
def supportingImplementation (result : CreateProprietaryTemplateResult) : Interface where
  createProprietaryTemplate := fun _ => .ok (⟨.Supported, []⟩, result)
  compareProprietaryTemplates := fun _ _ => .ok (⟨.Failure, []⟩, .finite false 0 0)

/-- An implementation that supports no image: it reports the code
`InvalidImageData` and returns `result` as its creation result. -/
def refusingImplementation (result : CreateProprietaryTemplateResult) : Interface where
  createProprietaryTemplate := fun _ => .ok (⟨.InvalidImageData, ['n', 'o']⟩, result)
  compareProprietaryTemplates := fun _ _ => .ok (⟨.Failure, []⟩, .finite false 0 0)

/-- The host `quietHost` with a disk on which every file whose path holds the
digit 2 is empty. -/
def patchyHost : Host Nat :=
  { quietHost with disk := fun path => if path.contains '2' then some [] else some [0, 1, 2, 3] }

/-- An implementation that throws on an image without pixels and on an empty
probe template, and otherwise does as `quietImplementation`. -/
def pickyImplementation : Interface where
  createProprietaryTemplate := fun image =>
    if image.pixels = [] then .error (.exception ['e', 'm', 'p', 't', 'y'])
    else quietImplementation.createProprietaryTemplate image
  compareProprietaryTemplates := fun probe reference =>
    if probe = [] then .error .unknown
    else quietImplementation.compareProprietaryTemplates probe reference

/-- The result of `::wait` without what it stored in `status`. -/
def WaitResult.forget : WaitResult → WaitResult
  | .exited pid _ => .exited pid 0
  | .noStatus => .noStatus
  | .failed errno => .failed errno

/-- The host `host` with the calls of `::wait` returning as `wait` says. -/
def Host.withWait {σ : Type} (host : Host σ) (wait : Nat → WaitResult) : Host σ :=
  { host with wait := wait }

/-- The host `quietHost` with two children that terminate by
`exit(EXIT_FAILURE)`: `::wait` stores the status 256 for both. -/
def failedWorkerHost : Host Nat :=
  quietHost.withWait (fun k => if k < 2 then .exited (100 + k) 256 else .failed ECHILD)


/-- Whether a result of `::wait` is the identifier of a terminated child. -/
def WaitResult.isExited : WaitResult → Bool
  | .exited _ _ => true
  | _ => false

/-- Calls of `::wait` that report 258 terminated children and then fail with
`ECHILD`. -/
def crowdedWait : Nat → WaitResult :=
  fun k => if k < 258 then .exited (k + 1) 0 else .failed ECHILD

/-! ## The log files of the workers -/

/-- The name of the log file `runCreate` opens, `getpid()` being `pid`. -/
def createLogPath (pid : Nat) : List Char :=
  OutputDir ++ "/createProprietaryTemplate-".toList ++ ts pid ++ ".log".toList

/-- The name of the log file `runCompare` opens, `getpid()` being `pid`. -/
def compareLogPath (pid : Nat) : List Char :=
  OutputDir ++ "/compareProprietaryTemplates-".toList ++ ts pid ++ ".log".toList

/-- The number a string of decimal digits stands for. -/
def decimalValue (digits : List Char) : Nat :=
  digits.foldl (fun value c => 10 * value + (c.toNat - 48)) 0

/-! ## The sample implementation over a MINEX III library -/

/-- What the call `match_templates` of the MINEX III library gave back:
`MINEX_RET_SUCCESS` together with the similarity it stored, or another return
value. -/
inductive MatchResult where
  | success (similarity : Score)
  | returned (rv : Int)

/-- The call `std::to_string` on an `int`. -/
def tsInt (n : Int) : List Char :=
  if n < 0 then '-' :: ts n.natAbs else ts n.natAbs

/-- The function `PFTIII::MINEXImplementation::compareSuccess`. -/
def MINEXImplementation.compareSuccess (similarity : Score) (message : List Char) :
    CompareProprietaryTemplatesStatus × Score :=
  (⟨.Success, message⟩, similarity)

/-- The function `PFTIII::MINEXImplementation::compareFailure`: the score of
the tuple is the `int` 0, converted to `double`. -/
def MINEXImplementation.compareFailure (message : List Char) :
    CompareProprietaryTemplatesStatus × Score :=
  (⟨.Failure, message⟩, .finite false 0 0)

/-- The function `PFTIII::MINEXImplementation::compareProprietaryTemplates`
over the matcher `match_templates` of the library. -/
def MINEXImplementation.compareProprietaryTemplates
    (match_templates : Bytes → Bytes → MatchResult)
    (probeTemplate referenceTemplate : Bytes) :
    Except Thrown (CompareProprietaryTemplatesStatus × Score) :=
  if probeTemplate.length = 0 ∨ referenceTemplate.length = 0 then
    .ok (MINEXImplementation.compareFailure "Empty template".toList)
  else
    match match_templates probeTemplate referenceTemplate with
    | .returned rv =>
      .ok (MINEXImplementation.compareFailure ("Returned ".toList ++ tsInt rv))
    | .success similarity => .ok (MINEXImplementation.compareSuccess similarity [])

/-- A matcher that scores every pair of templates 0.25. -/
def quietMatcher : Bytes → Bytes → MatchResult :=
  fun _ _ => .success (.finite false 0 250000)

/-- An implementation that creates templates as `quietImplementation` and
compares them as the sample implementation does over `quietMatcher`. -/
def sampleImplementation : Interface where
  createProprietaryTemplate := quietImplementation.createProprietaryTemplate
  compareProprietaryTemplates :=
    MINEXImplementation.compareProprietaryTemplates quietMatcher

/-! ## `parseArguments` -/

/-- The constant `UINT8_MAX`. -/
def UINT8_MAX : Nat := 255

/-- The local state of `parseArguments`: the arguments read so far, whether
an operation was seen, and the configuration directory. -/
structure Parsing where
  args : Arguments
  seenOperation : Bool
  configDir : List Char

/-- One round of the `while ((c = getopt(argc, argv, options)) != -1)` loop
of `parseArguments`: the `switch` on the option character `c`, with `optarg`.
Here `stoul` is `std::stoul` (`none` when it throws) and `threadCount` is
what `std::thread::hardware_concurrency()` returns. -/
def parseOption (stoul : List Char → Option Nat) (threadCount : Nat) (st : Parsing)
    (c : Char) (optarg : List Char) : Except Fault Parsing :=
  if c = 'c' then
    if st.seenOperation then .error (.logicError "Multiple operations specified")
    else .ok { st with seenOperation := true, args := { st.args with operation := .Compare } }
  else if c = 'e' then
    if st.seenOperation then .error (.logicError "Multiple operations specified")
    else .ok { st with seenOperation := true, args := { st.args with operation := .Create } }
  else if c = 'f' then
    match stoul optarg with
    | none =>
      .error (.invalidArgument ("Number of processes (-f): an error occurred when parsing " ++
        String.mk (['"'] ++ optarg ++ ['"'])))
    | some numProcs =>
      if numProcs > UINT8_MAX then
        .error (.invalidArgument ("Number of processes (-f): an error occurred when parsing " ++
          String.mk (['"'] ++ optarg ++ ['"'])))
      else if (threadCount = 0 ∧ numProcs > 4) ∨ numProcs > threadCount then
        .error (.invalidArgument ("Number of processes (-f): Asked to spawn " ++
          String.mk (ts numProcs) ++ " processes, but refusing"))
      else .ok { st with args := { st.args with numProcs := numProcs } }
  else if c = 'i' then
    if st.seenOperation then .error (.logicError "Multiple operations specified")
    else .ok { st with seenOperation := true, args := { st.args with operation := .Identify } }
  else if c = 'r' then
    match stoul optarg with
    | none =>
      .error (.invalidArgument ("Random seed (-r): an error occurred when parsing " ++
        String.mk (['"'] ++ optarg ++ ['"'])))
    | some seed => .ok { st with args := { st.args with randomSeed := seed } }
  else if c = 'z' then .ok { st with configDir := optarg }
  else .ok st

/-- The `while` loop of `parseArguments` over the options `getopt` delivers,
each with its `optarg`. -/
def parseLoop (stoul : List Char → Option Nat) (threadCount : Nat) :
    List (Char × List Char) → Parsing → Except Fault Parsing
  | [], st => .ok st
  | (c, optarg) :: rest, st =>
    match parseOption stoul threadCount st c optarg with
    | .error e => .error e
    | .ok st => parseLoop stoul threadCount rest st

/-- The function `PFTIII::Validation::parseArguments`, over the options
`getopt` delivers; `randomSeed` is what `std::random_device()()` gives for the
default seed. -/
def parseArguments (stoul : List Char → Option Nat) (threadCount randomSeed : Nat)
    (options : List (Char × List Char)) : Except Fault Arguments :=
  match parseLoop stoul threadCount options ⟨⟨randomSeed, .Create, 1⟩, false, []⟩ with
  | .error e => .error e
  | .ok st =>
    let args : Arguments := if st.seenOperation then st.args else { st.args with operation := .Usage }
    if st.configDir.isEmpty ∧ args.operation ≠ .Usage then
      .error (.invalidArgument "Must provide path to configuration directory")
    else .ok args

/-! ### Rounding lemmas -/

theorem roundHalfEven_ge (a d : Nat) : a / d ≤ roundHalfEven a d := by
  unfold roundHalfEven
  split_ifs <;> omega

theorem roundHalfEven_le_succ (a d : Nat) : roundHalfEven a d ≤ a / d + 1 := by
  unfold roundHalfEven
  split_ifs <;> omega

theorem roundHalfEven_of_dvd (a d : Nat) (hd : 0 < d) (h : a % d = 0) :
    roundHalfEven a d = a / d := by
  unfold roundHalfEven
  rw [h]
  simp [hd]

theorem roundHalfEven_one (a : Nat) : roundHalfEven a 1 = a := by
  rw [roundHalfEven_of_dvd a 1 (by decide) (Nat.mod_one a), Nat.div_one]

/-- Rounding never crosses an integer lying above the fraction. -/
theorem roundHalfEven_le_of_le (a d n : Nat) (hd : 0 < d) (h : a ≤ n * d) :
    roundHalfEven a d ≤ n := by
  by_cases hlt : a / d < n
  · have := roundHalfEven_le_succ a d
    omega
  · have hq : n ≤ a / d := by omega
    have h1 : n * d ≤ a := (Nat.le_div_iff_mul_le hd).mp hq
    have h2 : a = n * d := by omega
    subst h2
    rw [roundHalfEven_of_dvd _ _ hd (Nat.mul_mod_left n d), Nat.mul_div_cancel _ hd]

/-- A fraction lying more than one half above the integer `n` rounds to at
least `n + 1`. -/
theorem succ_le_roundHalfEven (a d n h : Nat) (hd : 0 < d) (ha : n * d + h ≤ a)
    (hh : d < 2 * h) : n + 1 ≤ roundHalfEven a d := by
  have hq : n ≤ a / d := (Nat.le_div_iff_mul_le hd).mpr (by omega)
  by_cases hlt : n + 1 ≤ a / d
  · exact le_trans hlt (roundHalfEven_ge a d)
  · have hq2 : a / d = n := by omega
    have hmod : a % d = a - n * d := by
      have := Nat.div_add_mod a d
      rw [hq2] at this
      have h3 : d * n = n * d := Nat.mul_comm d n
      omega
    unfold roundHalfEven
    have : d < 2 * (a % d) := by omega
    rw [if_neg (by omega), if_pos this]
    omega

theorem roundHalfEven_scale (c a d : Nat) (hc : 0 < c) :
    roundHalfEven (c * a) (c * d) = roundHalfEven a d := by
  unfold roundHalfEven
  rw [Nat.mul_div_mul_left a d hc, Nat.mul_mod_mul_left]
  have e1 : (2 * (c * (a % d)) < c * d) ↔ (2 * (a % d) < d) := by
    rw [show 2 * (c * (a % d)) = c * (2 * (a % d)) by ring]
    exact Nat.mul_lt_mul_left hc
  have e2 : (c * d < 2 * (c * (a % d))) ↔ (d < 2 * (a % d)) := by
    rw [show 2 * (c * (a % d)) = c * (2 * (a % d)) by ring]
    exact Nat.mul_lt_mul_left hc
  simp only [e1, e2]

theorem shiftUp_scale (c : Nat) (hc : 0 < c) :
    ∀ fuel a t, shiftUp fuel (c * a) (c * t) = shiftUp fuel a t := by
  intro fuel
  induction fuel with
  | zero => intro a t; rfl
  | succ f ih =>
    intro a t
    simp only [shiftUp]
    have e : (c * t ≤ c * a) ↔ (t ≤ a) :=
      ⟨fun h => Nat.le_of_mul_le_mul_left h hc, fun h => Nat.mul_le_mul_left c h⟩
    rw [show 2 * (c * a) = c * (2 * a) by ring, ih]
    simp only [e]

theorem shiftDown_scale (c : Nat) (hc : 0 < c) :
    ∀ fuel a t, shiftDown fuel (c * a) (c * t) = shiftDown fuel a t := by
  intro fuel
  induction fuel with
  | zero => intro a t; rfl
  | succ f ih =>
    intro a t
    simp only [shiftDown]
    have e : (c * a < c * t) ↔ (a < t) :=
      ⟨fun h => Nat.lt_of_mul_lt_mul_left h, fun h => Nat.mul_lt_mul_of_pos_left h hc⟩
    rw [show 2 * (c * t) = c * (2 * t) by ring, ih]
    simp only [e]

/-- The doubling search of `shiftUp` reaches its target when the fuel allows
it. -/
theorem shiftUp_spec : ∀ fuel a t, 0 < a → t ≤ a * 2 ^ fuel →
    t ≤ a * 2 ^ shiftUp fuel a t := by
  intro fuel
  induction fuel with
  | zero => intro a t _ h; simpa [shiftUp] using h
  | succ f ih =>
    intro a t ha h
    simp only [shiftUp]
    split_ifs with hta
    · simpa using hta
    · have := ih (2 * a) t (by omega) (by rw [pow_succ] at h; linarith)
      rw [pow_succ]
      linarith

/-- The shift found by `shiftDown` is minimal: one doubling less does not
exceed `a`. -/
theorem shiftDown_min : ∀ fuel a t,
    shiftDown fuel a t = 0 ∨ t * 2 ^ (shiftDown fuel a t - 1) ≤ a := by
  intro fuel
  induction fuel with
  | zero => intro a t; left; rfl
  | succ f ih =>
    intro a t
    simp only [shiftDown]
    split_ifs with hat
    · left; rfl
    · right
      rcases Nat.eq_zero_or_pos (shiftDown f a (2 * t)) with h0 | hpos
      · rw [h0]; simp; omega
      · rcases ih a (2 * t) with h0 | h1
        · omega
        · have e : shiftDown f a (2 * t) + 1 - 1 = (shiftDown f a (2 * t) - 1) + 1 := by omega
          rw [e, pow_succ]
          linarith

theorem fround_scale (c a b : Nat) (hc : 0 < c) :
    fround (c * a) (c * b) = fround a b := by
  unfold fround
  have e0 : (c * a = 0) ↔ (a = 0) := by
    constructor
    · intro h
      rcases Nat.mul_eq_zero.mp h with h | h
      · omega
      · exact h
    · intro h; simp [h]
  have e1 : (2 ^ 24 * (c * b) ≤ c * a) ↔ (2 ^ 24 * b ≤ a) := by
    rw [show 2 ^ 24 * (c * b) = c * (2 ^ 24 * b) by ring]
    exact ⟨fun h => Nat.le_of_mul_le_mul_left h hc, fun h => Nat.mul_le_mul_left c h⟩
  simp only [e0, e1]
  rw [show 2 ^ 24 * (c * b) = c * (2 ^ 24 * b) by ring,
    show 2 ^ 23 * (c * b) = c * (2 ^ 23 * b) by ring,
    shiftDown_scale c hc, shiftUp_scale c hc]
  simp only [Nat.mul_assoc, roundHalfEven_scale c _ _ hc]

/-- Integers below `2 ^ 24` convert to binary32 without rounding. -/
theorem toFloat_exact (n : Nat) (h0 : 0 < n) (h : n < 2 ^ 24) :
    toFloat n = ⟨n * 2 ^ shiftUp 64 n (2 ^ 23 * 1), 2 ^ shiftUp 64 n (2 ^ 23 * 1)⟩ := by
  unfold toFloat fround
  rw [if_neg (by omega), if_neg (by omega)]
  simp only [roundHalfEven_one]

theorem fceil_zero : fceil ⟨0, 1⟩ = 0 := rfl

/-- For operands below `2 ^ 24` and divisors below `2 ^ 8` the binary32
quotient, once passed through `std::ceil`, is the exact ceiling. -/
theorem fceil_fround_exact (a b : Nat) (ha : a < 2 ^ 24) (hb : 0 < b) (hb8 : b < 2 ^ 8) :
    fceil (fround a b) = (a + b - 1) / b := by
  rcases Nat.eq_zero_or_pos a with h0 | hpos
  · subst h0
    have : (0 + b - 1) / b = 0 := Nat.div_eq_of_lt (by omega)
    rw [this]
    simp [fround, fceil]
  · unfold fround
    rw [if_neg (by omega), if_neg (by omega)]
    dsimp only
    have hk : 2 ^ 23 * b ≤ a * 2 ^ shiftUp 64 a (2 ^ 23 * b) :=
      shiftUp_spec 64 a (2 ^ 23 * b) hpos (by
        have : 1 * 2 ^ 64 ≤ a * 2 ^ 64 := Nat.mul_le_mul_right _ hpos
        omega)
    generalize shiftUp 64 a (2 ^ 23 * b) = k at hk
    have hP : 0 < 2 ^ k := Nat.two_pow_pos _
    generalize 2 ^ k = P at hk hP
    have hbP : b < 2 * P := by
      have h1 : a * P < 2 ^ 24 * P := Nat.mul_lt_mul_of_pos_right ha hP
      have h2 : 2 ^ 23 * b < 2 ^ 23 * (2 * P) := by omega
      exact Nat.lt_of_mul_lt_mul_left h2
    have hc1 : a ≤ (a + b - 1) / b * b := by
      have := Nat.div_add_mod (a + b - 1) b
      have := Nat.mod_lt (a + b - 1) hb
      have e : (a + b - 1) / b * b = b * ((a + b - 1) / b) := Nat.mul_comm _ _
      omega
    have hc2 : (a + b - 1) / b * b < a + b := by
      have := Nat.div_mul_le_self (a + b - 1) b
      omega
    have hcpos : 0 < (a + b - 1) / b := Nat.div_pos (by omega) hb
    generalize (a + b - 1) / b = c at hc1 hc2 hcpos
    obtain ⟨c', rfl⟩ : ∃ c', c = c' + 1 := ⟨c - 1, by omega⟩
    have hup : roundHalfEven (a * P) b ≤ (c' + 1) * P :=
      roundHalfEven_le_of_le _ _ _ hb (by
        calc a * P ≤ (c' + 1) * b * P := Nat.mul_le_mul_right _ hc1
          _ = (c' + 1) * P * b := by ring)
    have hlo : c' * P + 1 ≤ roundHalfEven (a * P) b :=
      succ_le_roundHalfEven (a * P) b (c' * P) P hb (by
        have h3 : c' * b + 1 ≤ a := by
          have : (c' + 1) * b = c' * b + b := by ring
          omega
        calc c' * P * b + P = (c' * b + 1) * P := by ring
          _ ≤ a * P := Nat.mul_le_mul_right _ h3) hbP
    show (roundHalfEven (a * P) b + P - 1) / P = c' + 1
    apply Nat.div_eq_of_lt_le
    · have : (c' + 1) * P = c' * P + P := by ring
      omega
    · have : (c' + 1 + 1) * P = (c' + 1) * P + P := by ring
      omega

/-- The partition size of `splitSet` is the exact ceiling of the quotient
whenever the length is below `2 ^ 24`. -/
theorem partitionSize_exact (len numSets : Nat) (hlen : len < 2 ^ 24)
    (h0 : 0 < numSets) (h8 : numSets < 2 ^ 8) :
    partitionSize len numSets = (len + numSets - 1) / numSets := by
  unfold partitionSize fdiv
  rw [toFloat_exact numSets h0 (by omega)]
  rcases Nat.eq_zero_or_pos len with hz | hpos
  · subst hz
    have e : toFloat 0 = ⟨0, 1⟩ := rfl
    rw [e]
    have e2 : fround (0 * 2 ^ shiftUp 64 numSets (2 ^ 23 * 1))
        (1 * (numSets * 2 ^ shiftUp 64 numSets (2 ^ 23 * 1))) = ⟨0, 1⟩ := by
      unfold fround
      simp
    simp only [e2]
    have : (0 + numSets - 1) / numSets = 0 := Nat.div_eq_of_lt (by omega)
    rw [this]
    rfl
  · rw [toFloat_exact len hpos hlen]
    simp only []
    generalize shiftUp 64 numSets (2 ^ 23 * 1) = j
    generalize shiftUp 64 len (2 ^ 23 * 1) = k
    have hc : 0 < 2 ^ k * 2 ^ j := Nat.mul_pos (Nat.two_pow_pos _) (Nat.two_pow_pos _)
    rw [show len * 2 ^ k * 2 ^ j = (2 ^ k * 2 ^ j) * len by ring,
      show 2 ^ k * (numSets * 2 ^ j) = (2 ^ k * 2 ^ j) * numSets by ring,
      fround_scale _ _ _ hc]
    exact fceil_fround_exact len numSets hlen h0 h8

/-- A binary32 quotient never rounds below both its integer part and
`2 ^ 23`. -/
theorem fceil_fround_ge (a b : Nat) (hb : 0 < b) :
    min (a / b) (2 ^ 23) ≤ fceil (fround a b) := by
  unfold fround
  split_ifs with h0 h1
  · subst h0
    simp
  · show min (a / b) (2 ^ 23) ≤
      (roundHalfEven a (b * 2 ^ shiftDown 64 a (2 ^ 24 * b)) *
        2 ^ shiftDown 64 a (2 ^ 24 * b) + 1 - 1) / 1
    rw [Nat.div_one, Nat.add_sub_cancel]
    rcases Nat.eq_zero_or_pos (shiftDown 64 a (2 ^ 24 * b)) with hs | hs
    · rw [hs]
      simp only [pow_zero, Nat.mul_one]
      exact le_trans (min_le_left _ _) (roundHalfEven_ge a b)
    · rcases shiftDown_min 64 a (2 ^ 24 * b) with hz | hmin
      · omega
      · obtain ⟨s, hs'⟩ : ∃ s, shiftDown 64 a (2 ^ 24 * b) = s + 1 :=
          ⟨shiftDown 64 a (2 ^ 24 * b) - 1, by omega⟩
        rw [hs'] at hmin ⊢
        simp only [Nat.add_sub_cancel] at hmin
        have hP : 0 < 2 ^ s := Nat.two_pow_pos _
        rw [pow_succ 2 s]
        generalize 2 ^ s = P at hmin hP
        have hq : 2 ^ 23 ≤ a / (b * (P * 2)) := by
          rw [Nat.le_div_iff_mul_le (by positivity)]
          calc 2 ^ 23 * (b * (P * 2)) = 2 ^ 24 * b * P := by ring
            _ ≤ a := hmin
        have hr := roundHalfEven_ge a (b * (P * 2))
        have h2 : 2 ^ 23 * 1 ≤ roundHalfEven a (b * (P * 2)) * (P * 2) :=
          Nat.mul_le_mul (le_trans hq hr) (by omega)
        exact le_trans (min_le_right _ _) (by omega)
  · show min (a / b) (2 ^ 23) ≤
      (roundHalfEven (a * 2 ^ shiftUp 64 a (2 ^ 23 * b)) b +
        2 ^ shiftUp 64 a (2 ^ 23 * b) - 1) / 2 ^ shiftUp 64 a (2 ^ 23 * b)
    have hP : 0 < 2 ^ shiftUp 64 a (2 ^ 23 * b) := Nat.two_pow_pos _
    generalize 2 ^ shiftUp 64 a (2 ^ 23 * b) = P at hP
    have hr := roundHalfEven_ge (a * P) b
    have h3 : a / b * P ≤ a * P / b := by
      rw [Nat.le_div_iff_mul_le hb]
      calc a / b * P * b = a / b * b * P := by ring
        _ ≤ a * P := Nat.mul_le_mul_right _ (Nat.div_mul_le_self a b)
    have h4 : a / b ≤ (roundHalfEven (a * P) b + P - 1) / P := by
      rw [Nat.le_div_iff_mul_le hP]
      omega
    exact le_trans (min_le_left _ _) h4

/-- From `2 ^ 24` items on, the computed partition size is at least `2 ^ 8`,
so more than any `uint8_t` number of sets. -/
theorem partitionSize_large (len numSets : Nat) (hlen : 2 ^ 24 ≤ len)
    (h0 : 0 < numSets) (h8 : numSets < 2 ^ 8) :
    2 ^ 8 ≤ partitionSize len numSets := by
  unfold partitionSize fdiv
  rw [toFloat_exact numSets h0 (by omega)]
  have hX : 2 ^ 23 ≤ (toFloat len).num ∧ (toFloat len).den = 1 := by
    unfold toFloat fround
    rw [if_neg (by omega), if_pos (by omega)]
    refine ⟨?_, rfl⟩
    show 2 ^ 23 ≤ roundHalfEven len (1 * 2 ^ shiftDown 64 len (2 ^ 24 * 1)) *
      2 ^ shiftDown 64 len (2 ^ 24 * 1)
    rcases Nat.eq_zero_or_pos (shiftDown 64 len (2 ^ 24 * 1)) with hs | hs
    · rw [hs]
      simp only [pow_zero, Nat.mul_one, roundHalfEven_one]
      omega
    · rcases shiftDown_min 64 len (2 ^ 24 * 1) with hz | hmin
      · omega
      · obtain ⟨s, hs'⟩ : ∃ s, shiftDown 64 len (2 ^ 24 * 1) = s + 1 :=
          ⟨shiftDown 64 len (2 ^ 24 * 1) - 1, by omega⟩
        rw [hs'] at hmin ⊢
        simp only [Nat.add_sub_cancel] at hmin
        have hP : 0 < 2 ^ s := Nat.two_pow_pos _
        rw [pow_succ 2 s]
        generalize 2 ^ s = P at hmin hP
        have hq : 2 ^ 23 ≤ len / (1 * (P * 2)) := by
          rw [Nat.le_div_iff_mul_le (by positivity)]
          omega
        have hr := roundHalfEven_ge len (1 * (P * 2))
        have h2 : 2 ^ 23 * 1 ≤ roundHalfEven len (1 * (P * 2)) * (P * 2) :=
          Nat.mul_le_mul (le_trans hq hr) (by omega)
        omega
  obtain ⟨hnum, hden⟩ := hX
  rw [hden]
  simp only []
  generalize (toFloat len).num = X at hnum
  generalize shiftUp 64 numSets (2 ^ 23 * 1) = j
  have hj : 0 < 2 ^ j := Nat.two_pow_pos _
  rw [show X * 2 ^ j = 2 ^ j * X by ring,
    show 1 * (numSets * 2 ^ j) = 2 ^ j * numSets by ring, fround_scale _ _ _ hj]
  have hge := fceil_fround_ge X numSets h0
  have hq : 2 ^ 8 ≤ X / numSets := by
    rw [Nat.le_div_iff_mul_le h0]
    have : 2 ^ 8 * numSets ≤ 2 ^ 8 * 2 ^ 8 := Nat.mul_le_mul_left _ (by omega)
    omega
  have : 2 ^ 8 ≤ min (X / numSets) (2 ^ 23) := le_min hq (by norm_num)
  omega

/-! ### The slicing loop -/

theorem drop_take_append_drop_take (v : List Nat) (a b c : Nat) (hab : a ≤ b)
    (hbc : b ≤ c) (hc : c ≤ v.length) :
    (v.take b).drop a ++ (v.take c).drop b = (v.take c).drop a := by
  have h1 : v.take c = v.take b ++ (v.take c).drop b := by
    have := (List.take_append_drop b (v.take c)).symm
    rwa [List.take_take, min_eq_left hbc] at this
  have h2 : ((v.take b) ++ (v.take c).drop b).drop a = (v.take b).drop a ++ (v.take c).drop b := by
    apply List.drop_append_of_le_length
    rw [List.length_take]
    omega
  rw [← h2, ← h1]

/-- The loop of `splitSet` produces exactly as many sets as it has
iterations. -/
theorem splitSetLoop_length (v : List Nat) (size : Nat) :
    ∀ remaining i sets, splitSetLoop v size remaining i = .ok sets →
      sets.length = remaining := by
  intro remaining
  induction remaining with
  | zero =>
    intro i sets h
    simp only [splitSetLoop, Except.ok.injEq] at h
    subst h
    rfl
  | succ r ih =>
    intro i sets h
    simp only [splitSetLoop, bind, Except.bind, pure, Except.pure] at h
    split at h
    · cases h
    · split at h
      · cases h
      · split at h
        · cases h
        · split at h
          · cases h
          · rename_i rest hrest
            simp only [Except.ok.injEq] at h
            subst h
            simp [ih _ _ hrest]

/-- The loop of `splitSet` never throws: its only failure is a library call
outside its precondition. -/
theorem splitSetLoop_no_throw (v : List Nat) (size : Nat) :
    ∀ remaining i what,
      splitSetLoop v size remaining i ≠ .error (.invalidArgument what) := by
  intro remaining
  induction remaining with
  | zero => intro i what h; simp [splitSetLoop] at h
  | succ r ih =>
    intro i what h
    simp only [splitSetLoop, bind, Except.bind, pure, Except.pure] at h
    split at h
    · rename_i e he
      simp only [nextFromBegin] at he
      split at he <;> simp_all
    · split at h
      · rename_i e he
        simp only [nextFromBegin] at he
        split at he <;> simp_all
      · split at h
        · rename_i e he
          simp only [vectorFromRange] at he
          split at he <;> simp_all
        · split at h
          · rename_i e he
            simp only [Except.error.injEq] at h
            subst h
            exact ih _ _ he
          · cases h

/-- When every slice start lies within the vector and no product leaves the
64 bit range, the loop returns the consecutive slices of width `size`, and
their concatenation is the part of the vector the slices span. -/
theorem splitSetLoop_ok (v : List Nat) (size : Nat) (hlen : v.length ≤ diffMax) :
    ∀ remaining i, (∀ j, j < remaining → size * (i + j) ≤ v.length) →
      size * (i + remaining) < 2 ^ 64 →
      ∃ sets, splitSetLoop v size remaining i = .ok sets ∧
        sets = (List.range remaining).map (fun j =>
          (v.take (min (size * (i + j + 1)) v.length)).drop (size * (i + j))) ∧
        sets.flatten = (v.take (min (size * (i + remaining)) v.length)).drop (size * i) := by
  intro remaining
  induction remaining with
  | zero =>
    intro i _ _
    refine ⟨[], rfl, rfl, ?_⟩
    simp only [List.flatten_nil, Nat.add_zero]
    symm
    apply List.drop_eq_nil_of_le
    rw [List.length_take]
    omega
  | succ r ih =>
    intro i hstart hov
    have hi : size * i ≤ v.length := by simpa using hstart 0 (by omega)
    have hle1 : size * i ≤ size * (i + 1) := Nat.mul_le_mul_left _ (by omega)
    have hle2 : size * (i + 1) ≤ size * (i + (r + 1)) := Nat.mul_le_mul_left _ (by omega)
    obtain ⟨rest, hrest, hmap, hflat⟩ := ih (i + 1)
      (fun j hj => by
        have := hstart (j + 1) (by omega)
        rwa [show i + 1 + j = i + (j + 1) by omega])
      (by rwa [show i + 1 + r = i + (r + 1) by omega])
    have hm1 : size * i % 2 ^ 64 = size * i := Nat.mod_eq_of_lt (by omega)
    have hm2 : size * (i + 1) % 2 ^ 64 = size * (i + 1) := Nat.mod_eq_of_lt (by omega)
    have hd : diffMax = 2 ^ 63 - 1 := rfl
    refine ⟨(v.take (min (size * (i + 1)) v.length)).drop (size * i) :: rest, ?_, ?_, ?_⟩
    · simp only [splitSetLoop, bind, Except.bind, pure, Except.pure, hm1, hm2,
        nextFromBegin, vectorFromRange, hrest]
      rw [if_pos ⟨by omega, hi⟩, if_pos ⟨by omega, by omega⟩]
      simp only []
      rw [if_pos (by omega)]
    · rw [hmap, List.range_succ_eq_map, List.map_cons, List.map_map]
      simp only [Nat.add_zero, List.cons.injEq, true_and]
      apply List.map_congr_left
      intro j _
      simp only [Function.comp, show i + 1 + j = i + (j + 1) by omega]
    · rw [List.flatten_cons, hflat, show i + 1 + r = i + (r + 1) by omega]
      by_cases hr : r = 0
      · subst hr
        have : (v.take (min (size * (i + (0 + 1))) v.length)).drop (size * (i + 1)) = [] := by
          apply List.drop_eq_nil_of_le
          rw [List.length_take]
          simp only [Nat.zero_add]
          omega
        rw [this, List.append_nil]
      · have h1 : size * (i + 1) ≤ v.length := hstart 1 (by omega)
        rw [min_eq_left h1]
        exact drop_take_append_drop_take v _ _ _ hle1 (le_min hle2 h1) (min_le_right _ _)

/-! ### `splitSet` as a whole -/

/-- Past its three early exits `splitSet` is its slicing loop. -/
theorem splitSet_eq_loop (items : List Nat) (numSets : Nat) (h2 : 2 ≤ numSets)
    (hlen : items.length ≤ diffMax)
    (hsize : numSets ≤ partitionSize items.length numSets) :
    splitSet items numSets =
      splitSetLoop items (partitionSize items.length numSets) numSets 0 := by
  unfold splitSet
  rw [if_neg (by omega), if_neg (by omega), if_neg (by omega)]
  simp only []
  rw [if_neg (by omega)]

/-- The function `splitSet` throws exactly when its guard on the partition size fires. -/
theorem splitSet_throws_iff (items : List Nat) (numSets : Nat) (what : String) :
    splitSet items numSets = .error (.invalidArgument what) ↔
      (2 ≤ numSets ∧ items.length ≤ diffMax ∧
        partitionSize items.length numSets < numSets ∧ what = "Too many sets.") := by
  unfold splitSet
  by_cases h0 : numSets = 0
  · simp [h0]
  by_cases h1 : numSets = 1
  · simp [h1]
  by_cases hl : items.length > diffMax
  · rw [if_neg h0, if_neg h1, if_pos hl]
    constructor
    · intro h; cases h
    · rintro ⟨_, h, _⟩; omega
  rw [if_neg h0, if_neg h1, if_neg hl]
  dsimp only
  by_cases hs : partitionSize items.length numSets < numSets
  · rw [if_pos hs]
    constructor
    · intro h
      simp only [Except.error.injEq, Fault.invalidArgument.injEq] at h
      exact ⟨by omega, by omega, hs, h.symm⟩
    · rintro ⟨_, _, _, h⟩
      rw [h]
  · rw [if_neg hs]
    constructor
    · intro h
      exact absurd h (splitSetLoop_no_throw _ _ _ _ _)
    · rintro ⟨_, _, h, _⟩
      omega

/-- Below `2 ^ 24` items, a split that passes the guard returns the
consecutive slices of width `ceil(len / numSets)`, and they concatenate to the
input. -/
theorem splitSet_ok_of_small (items : List Nat) (numSets : Nat) (h2 : 2 ≤ numSets)
    (h8 : numSets ≤ 255) (hlen : items.length < 2 ^ 24)
    (hguard : numSets ≤ (items.length + numSets - 1) / numSets) :
    ∃ sets, splitSet items numSets = .ok sets ∧
      sets = (List.range numSets).map (fun j =>
        (items.take (min ((items.length + numSets - 1) / numSets * (j + 1)) items.length)).drop
          ((items.length + numSets - 1) / numSets * j)) ∧
      sets.flatten = items := by
  have hps := partitionSize_exact items.length numSets hlen (by omega) (by omega)
  have hd : diffMax = 2 ^ 63 - 1 := rfl
  have hpos : 0 < numSets := by omega
  have hc1 : items.length ≤ (items.length + numSets - 1) / numSets * numSets := by
    have := Nat.div_add_mod (items.length + numSets - 1) numSets
    have := Nat.mod_lt (items.length + numSets - 1) hpos
    have e : (items.length + numSets - 1) / numSets * numSets =
      numSets * ((items.length + numSets - 1) / numSets) := Nat.mul_comm _ _
    omega
  have hc2 : (items.length + numSets - 1) / numSets * numSets < items.length + numSets := by
    have := Nat.div_mul_le_self (items.length + numSets - 1) numSets
    omega
  have hc3 : (items.length + numSets - 1) / numSets ≤ items.length + numSets - 1 :=
    Nat.div_le_self _ _
  rw [splitSet_eq_loop items numSets h2 (by omega) (by omega), hps]
  generalize (items.length + numSets - 1) / numSets = c at hguard hc1 hc2 hc3
  have hlast : c * (numSets - 1) ≤ items.length := by
    obtain ⟨m, rfl⟩ : ∃ m, numSets = m + 1 := ⟨numSets - 1, by omega⟩
    have e1 : c * (m + 1) = c * m + c := by ring
    simp only [Nat.add_sub_cancel]
    omega
  obtain ⟨sets, hok, hmap, hflat⟩ := splitSetLoop_ok items c (by omega) numSets 0
    (fun j hj => by
      have : c * (0 + j) ≤ c * (numSets - 1) := Nat.mul_le_mul_left _ (by omega)
      omega)
    (by
      have h1 : c * (0 + numSets) = c * numSets := by rw [Nat.zero_add]
      have h3 : items.length + numSets < 2 ^ 64 := by omega
      omega)
  refine ⟨sets, hok, ?_, ?_⟩
  · rw [hmap]
    apply List.map_congr_left
    intro j _
    simp only [Nat.zero_add]
  · rw [hflat, Nat.zero_add, Nat.mul_zero, List.drop_zero, min_eq_right hc1, List.take_length]

/-! ### `randomizeIndicies` -/

theorem iterSwap_length (xs : List Nat) (i j : Nat) : (iterSwap xs i j).length = xs.length := by
  unfold iterSwap
  split <;> simp

theorem iterSwap_perm (xs : List Nat) (i j : Nat) : (iterSwap xs i j).Perm xs := by
  unfold iterSwap
  split
  · rename_i a b ha hb
    obtain ⟨hi, hia⟩ := List.getElem?_eq_some_iff.mp ha
    obtain ⟨hj, hjb⟩ := List.getElem?_eq_some_iff.mp hb
    rw [List.perm_iff_count]
    intro c
    have hj' : j < (xs.set i b).length := by simpa using hj
    rw [List.count_set _ _ _ _ hj', List.count_set _ _ _ _ hi]
    have hget : (xs.set i b)[j] = b := by
      rw [List.getElem_set]
      split
      · rfl
      · exact hjb
    rw [hget, hia]
    have hle : (if (a == c) = true then 1 else 0) ≤ List.count c xs := by
      split
      · rename_i hac
        have hac' : a = c := by simpa using hac
        have : a ∈ xs := hia ▸ List.getElem_mem hi
        exact List.count_pos_iff.mpr (hac' ▸ this)
      · exact Nat.zero_le _
    omega
  · exact List.Perm.refl _

theorem shuffleLoop_perm {σ : Type} (draw : Nat → σ → Nat × σ) :
    ∀ remaining i xs g, (shuffleLoop draw remaining i xs g).Perm xs := by
  intro remaining
  induction remaining with
  | zero => intro i xs g; exact List.Perm.refl _
  | succ r ih =>
    intro i xs g
    simp only [shuffleLoop]
    exact (ih _ _ _).trans (iterSwap_perm _ _ _)

/-- While the counter stays within `int`, the loop of `std::iota` stores
`value, value + 1, ...`. -/
theorem iotaLoop_ok : ∀ remaining value, value + remaining ≤ INT_MAX →
    iotaLoop remaining value = .ok (List.range' value remaining) := by
  intro remaining
  induction remaining with
  | zero => intro value _; rfl
  | succ r ih =>
    intro value h
    rw [iotaLoop, if_pos (by omega), ih (value + 1) (by omega), List.range'_succ]

/-- A loop of `std::iota` that has to increment the counter at `INT_MAX`
leaves defined behaviour. -/
theorem iotaLoop_undefined : ∀ remaining value, value ≤ INT_MAX →
    INT_MAX < value + remaining → iotaLoop remaining value = .error .undefined := by
  intro remaining
  induction remaining with
  | zero => intro value h1 h2; omega
  | succ r ih =>
    intro value h1 h2
    rw [iotaLoop]
    by_cases hv : value < INT_MAX
    · rw [if_pos hv, ih (value + 1) (by omega) (by omega)]
    · rw [if_neg hv]

/-- Up to `INT_MAX` elements the `int` counter of `std::iota` does not
overflow, and the vector holds `0, ..., size - 1`. -/
theorem iota_eq_range (size : Nat) (h : size ≤ INT_MAX) : iota size = .ok (List.range size) := by
  unfold iota
  rw [iotaLoop_ok size 0 (by omega), List.range_eq_range']

/-- From `2 ^ 31` elements on, `std::iota` increments its `int` counter at
`INT_MAX`. -/
theorem iota_undefined (size : Nat) (h : INT_MAX < size) : iota size = .error .undefined :=
  iotaLoop_undefined size 0 (Nat.zero_le _) (by omega)

/-- Up to `INT_MAX` elements `randomizeIndicies` returns the shuffle of
`0, ..., size - 1`. -/
theorem randomizeIndicies_eq {σ : Type} (engine : Nat → σ) (draw : Nat → σ → Nat × σ)
    (size seed : Nat) (h : size ≤ INT_MAX) :
    randomizeIndicies engine draw size seed =
      .ok (shuffle draw (List.range size) (engine seed)) := by
  unfold randomizeIndicies
  rw [iota_eq_range size h]

theorem randomizeIndicies_undefined {σ : Type} (engine : Nat → σ)
    (draw : Nat → σ → Nat × σ) (size seed : Nat) (h : INT_MAX < size) :
    randomizeIndicies engine draw size seed = .error .undefined := by
  unfold randomizeIndicies
  rw [iota_undefined size h]

/-- Whatever `randomizeIndicies` returns is a rearrangement of
`0, ..., size - 1`, whatever the generator delivers. -/
theorem randomizeIndicies_perm {σ : Type} (engine : Nat → σ) (draw : Nat → σ → Nat × σ)
    (size seed : Nat) (indicies : List Nat)
    (h : randomizeIndicies engine draw size seed = .ok indicies) :
    indicies.Perm (List.range size) := by
  by_cases hs : size ≤ INT_MAX
  · rw [randomizeIndicies_eq engine draw size seed hs] at h
    injection h with h
    rw [← h]
    exact shuffleLoop_perm draw _ _ _ _
  · rw [randomizeIndicies_undefined engine draw size seed (by omega)] at h
    cases h

theorem randomizeIndicies_length {σ : Type} (engine : Nat → σ) (draw : Nat → σ → Nat × σ)
    (size seed : Nat) (indicies : List Nat)
    (h : randomizeIndicies engine draw size seed = .ok indicies) : indicies.length = size := by
  rw [(randomizeIndicies_perm engine draw size seed indicies h).length_eq, List.length_range]

/-- Up to `INT_MAX` elements `randomizeIndicies` returns, and its result is a
rearrangement of `0, ..., size - 1`, whatever the generator delivers. -/
theorem randomizeIndicies_perm_range {σ : Type} (engine : Nat → σ)
    (draw : Nat → σ → Nat × σ) (size seed : Nat) (h : size ≤ INT_MAX) :
    ∃ indicies, randomizeIndicies engine draw size seed = .ok indicies ∧
      indicies.Perm (List.range size) :=
  ⟨_, randomizeIndicies_eq engine draw size seed h,
    randomizeIndicies_perm engine draw size seed _ (randomizeIndicies_eq engine draw size seed h)⟩

/-! ### The fork loop of `testOperation` -/

theorem forkLoop_ok {σ : Type} (host : Host σ) (operation : Operation) :
    ∀ sets k, (forkLoop host operation sets k).2 = true →
      (forkLoop host operation sets k).1 = sets.map (Action.fork operation) := by
  intro sets
  induction sets with
  | nil => intro k _; rfl
  | cons set rest ih =>
    intro k h
    simp only [forkLoop] at h ⊢
    split_ifs at h ⊢ with hf
    show Action.fork operation set :: (forkLoop host operation rest (k + 1)).1 = _
    rw [ih _ h, List.map_cons]

theorem forkLoop_all_fork {σ : Type} (host : Host σ) (operation : Operation) :
    ∀ sets k a, a ∈ (forkLoop host operation sets k).1 → a.isFork = true := by
  intro sets
  induction sets with
  | nil => intro k a h; simp [forkLoop] at h
  | cons set rest ih =>
    intro k a h
    simp only [forkLoop] at h
    split_ifs at h with hf
    · simp at h
    · simp only [List.mem_cons] at h
      rcases h with h | h
      · subst h; rfl
      · exact ih _ _ h

/-- Either `testOperation` never calls `waitForExit`, or the split of the
permutation returned, one child was forked for each of its sets, and the last
action is `waitForExit(numProcs)`. -/
theorem testOperation_forks {σ : Type} (host : Host σ) (args : Arguments) :
    (∀ k, Action.waitForExit k ∉ (testOperation host args).actions) ∨
      ∃ indicies sets,
        randomizeIndicies host.engine host.draw
          (if args.operation = .Create then host.imagesSize else host.pairsSize)
          args.randomSeed = .ok indicies ∧
        splitSet indicies args.numProcs = .ok sets ∧
        (testOperation host args).actions =
          sets.map (Action.fork args.operation) ++ [Action.waitForExit args.numProcs] := by
  unfold testOperation
  by_cases hop : args.operation ≠ .Create ∧ args.operation ≠ .Compare
  · left
    rw [if_pos hop]
    simp
  rw [if_neg hop]
  by_cases hmk : host.mkdirErrno.isSome ∧ host.mkdirErrno ≠ some EEXIST
  · left
    rw [if_pos hmk]
    simp
  rw [if_neg hmk]
  cases host.getImplementation with
  | error e => left; simp
  | ok u =>
    dsimp only
    cases hr : randomizeIndicies host.engine host.draw
        (if args.operation = .Create then host.imagesSize else host.pairsSize)
        args.randomSeed with
    | error e => left; simp
    | ok indicies =>
      dsimp only
      by_cases hp : args.numProcs ≤ 1
      · left
        rw [if_pos hp]
        cases args.operation <;> simp
      · rw [if_neg hp]
        cases hs : splitSet indicies args.numProcs with
        | error e => left; simp
        | ok sets =>
          dsimp only
          by_cases hf : (forkLoop host args.operation sets 0).2 = true
          · right
            rw [if_pos hf]
            exact ⟨indicies, sets, rfl, hs, by rw [forkLoop_ok host args.operation sets 0 hf]⟩
          · left
            rw [if_neg hf]
            intro k hk
            have := forkLoop_all_fork host args.operation sets 0 _ hk
            cases this

/-- A result of `splitSet` over an input the iterator difference type can
index has `numSets` collections. -/
theorem splitSet_length (v : List Nat) (n : Nat) (sets : List (List Nat))
    (hv : v.length ≤ diffMax) (h : splitSet v n = .ok sets) : sets.length = n := by
  unfold splitSet at h
  by_cases h0 : n = 0
  · rw [if_pos h0] at h
    cases h
    simp [h0]
  rw [if_neg h0] at h
  by_cases h1 : n = 1
  · rw [if_pos h1] at h
    cases h
    simp [h1]
  rw [if_neg h1, if_neg (by omega)] at h
  dsimp only at h
  by_cases hs : partitionSize v.length n < n
  · rw [if_pos hs] at h
    cases h
  · rw [if_neg hs] at h
    exact splitSetLoop_length _ _ _ _ _ h

/-- With `2 ^ 24 + 1` items and two sets the last item is in no partition. -/
theorem splitSet_two_pow_24_succ (items : List Nat) (hlen : items.length = 16777217) :
    ∃ sets, splitSet items 2 = .ok sets ∧ sets.flatten = items.take 16777216 := by
  have hsize : partitionSize 16777217 2 = 8388608 := by decide
  have hloop := splitSet_eq_loop items 2 (by decide)
    (by rw [hlen]; decide) (by rw [hlen, hsize]; decide)
  rw [hlen, hsize] at hloop
  obtain ⟨sets, hok, _, hflat⟩ := splitSetLoop_ok items 8388608
    (by rw [hlen]; decide) 2 0
    (fun j hj => by rw [hlen]; omega) (by decide)
  refine ⟨sets, hloop.trans hok, ?_⟩
  rw [hflat, hlen, Nat.mul_zero, List.drop_zero]
  rfl

/-! ### The two loops of `sanitizeMessage` -/

/-- The position returned by `findIfNot` cuts the string into a prefix whose
characters all pass and a rest that is empty or starts with a character that
fails. -/
theorem findIfNot_split (p : Char → Bool) :
    ∀ s : List Char, ∃ a b, s = a ++ b ∧ a.length = findIfNot p s ∧
      (∀ c ∈ a, p c = true) ∧ (b = [] ∨ ∃ c t, b = c :: t ∧ p c = false) := by
  intro s
  induction s with
  | nil => exact ⟨[], [], rfl, rfl, by simp, Or.inl rfl⟩
  | cons c cs ih =>
    by_cases hc : p c = true
    · obtain ⟨a, b, hs, hl, ha, hb⟩ := ih
      refine ⟨c :: a, b, by rw [hs]; rfl, ?_, ?_, hb⟩
      · simp only [findIfNot, hc, if_true, List.length_cons, hl]
      · intro x hx
        rcases List.mem_cons.mp hx with h | h
        · rw [h]; exact hc
        · exact ha x h
    · refine ⟨[], c :: cs, rfl, ?_, by simp, Or.inr ⟨c, cs, rfl, by simpa using hc⟩⟩
      simp only [findIfNot, hc, List.length_nil]
      rfl

theorem replaceRange_at (a t r : List Char) (c : Char) :
    replaceRange (a ++ c :: t) a.length 1 r = a ++ r ++ t := by
  unfold replaceRange
  rw [List.take_left' rfl]
  have : a ++ c :: t = (a ++ [c]) ++ t := by simp
  rw [this, List.drop_left' (by simp)]

theorem map_blank_of_allowed (a : List Char) (h : ∀ c ∈ a, allowed c = true) :
    a.map blank = a := by
  induction a with
  | nil => rfl
  | cons c cs ih =>
    rw [List.map_cons, ih (fun x hx => h x (List.mem_cons_of_mem _ hx))]
    have : blank c = c := by
      unfold blank
      rw [if_pos (h c (List.mem_cons_self _ _))]
    rw [this]

/-- The first loop replaces every character that is neither graphic nor a
space by a space, once it is given as many rounds as there are such
characters. -/
theorem replaceLoop_eq_map : ∀ fuel s,
    s.countP (fun c => !allowed c) ≤ fuel → replaceLoop fuel s = s.map blank := by
  intro fuel
  induction fuel with
  | zero =>
    intro s h
    have h0 : s.countP (fun c => !allowed c) = 0 := by omega
    rw [List.countP_eq_zero] at h0
    rw [map_blank_of_allowed s (fun c hc => by simpa using h0 c hc)]
    rfl
  | succ fuel ih =>
    intro s h
    obtain ⟨a, b, hs, hl, ha, hb⟩ := findIfNot_split allowed s
    simp only [replaceLoop]
    rw [← hl]
    rcases hb with hb | ⟨c, t, hb, hc⟩
    · subst hb
      rw [List.append_nil] at hs
      subst hs
      rw [if_neg (by simp), map_blank_of_allowed _ ha]
    · subst hb
      subst hs
      rw [if_pos (by simp), replaceRange_at]
      have hbad : (a ++ [' '] ++ t).countP (fun c => !allowed c) ≤ fuel := by
        have hsp : allowed ' ' = true := by decide
        simp only [List.countP_append, List.countP_cons, List.countP_nil, hc, hsp] at h ⊢
        simp at h ⊢
        omega
      rw [ih _ hbad]
      have hbc : blank c = ' ' := by
        unfold blank
        rw [if_neg (by simp [hc])]
      have hbs : blank ' ' = ' ' := by decide
      simp [hbc, hbs]

theorem flatMap_escaped_of_no_quote (a : List Char) (h : ∀ c ∈ a, (c != '"') = true) :
    a.flatMap escaped = a := by
  induction a with
  | nil => rfl
  | cons c cs ih =>
    have hc : c ≠ '"' := by simpa using h c (List.mem_cons_self _ _)
    rw [List.flatMap_cons, ih (fun x hx => h x (List.mem_cons_of_mem _ hx))]
    unfold escaped
    rw [if_neg hc]
    rfl

/-- The second loop, started behind a prefix it has dealt with, leaves the
prefix alone and escapes every quote of the rest, once it is given as many
rounds as the rest has quotes. -/
theorem escapeLoop_eq_flatMap : ∀ fuel (pre suf : List Char),
    suf.count '"' ≤ fuel →
      escapeLoop fuel (pre ++ suf) pre.length = pre ++ suf.flatMap escaped := by
  intro fuel
  induction fuel with
  | zero =>
    intro pre suf h
    have h0 : suf.count '"' = 0 := by omega
    rw [List.count_eq_zero] at h0
    rw [flatMap_escaped_of_no_quote suf (fun c hc => by
      simp only [bne_iff_ne, ne_eq]
      intro hq
      exact h0 (hq ▸ hc))]
    rfl
  | succ fuel ih =>
    intro pre suf h
    obtain ⟨a, b, hs, hl, ha, hb⟩ := findIfNot_split (fun c => c != '"') suf
    simp only [escapeLoop, findQuote]
    rw [List.drop_left' rfl, ← hl]
    rcases hb with hb | ⟨c, t, hb, hc⟩
    · subst hb
      rw [List.append_nil] at hs
      subst hs
      rw [if_neg (by simp), flatMap_escaped_of_no_quote _ ha]
    · subst hb
      subst hs
      have hq : c = '"' := by simpa using hc
      subst hq
      rw [if_pos (by simp)]
      simp only []
      have e1 : pre ++ (a ++ '"' :: t) = (pre ++ a) ++ '"' :: t := by simp
      have e2 : pre.length + a.length = (pre ++ a).length := by simp
      rw [e1, e2, replaceRange_at]
      have e3 : (pre ++ a).length + 2 = (pre ++ a ++ ['\\', '"']).length := by
        simp only [List.length_append, List.length_cons, List.length_nil]
      have hcount : t.count '"' ≤ fuel := by
        simp only [List.count_append, List.count_cons_self] at h
        omega
      rw [e3, ih _ _ hcount, List.flatMap_append, flatMap_escaped_of_no_quote _ ha,
        List.flatMap_cons]
      simp [escaped]

/-! ## Properties of `splitSet` -/

/-- What C1 states fails at two inputs: with the 895 items of the image table
and 31 workers, and with ten items and four workers, the input is not empty
and the worker count lies between 1 and the number of items, yet `splitSet`
returns no partitions and throws `std::invalid_argument("Too many sets.")`,
because the partition size (29, respectively 3) is smaller than the worker
count. -/
theorem splitSet_throws_with_fewer_workers_than_items :
    (List.range 895 ≠ [] ∧ 1 ≤ 31 ∧ 31 ≤ (List.range 895).length ∧
        splitSet (List.range 895) 31 = .error (.invalidArgument "Too many sets.")) ∧
      (List.range 10 ≠ [] ∧ 1 ≤ 4 ∧ 4 ≤ (List.range 10).length ∧
        splitSet (List.range 10) 4 = .error (.invalidArgument "Too many sets.")) := by
  have hlen : (List.range 895).length = 895 := List.length_range 895
  refine ⟨⟨?_, by decide, by rw [hlen]; decide, ?_⟩, by decide, by decide, by decide, rfl⟩
  · intro h
    rw [h] at hlen
    cases hlen
  · exact (splitSet_throws_iff _ _ _).mpr
      ⟨by decide, by rw [hlen]; decide, by rw [hlen]; decide, rfl⟩

/-- C1, amended: for every non-empty sequence of fewer than `2 ^ 24` items and
every worker count between 1 and the number of items (at most 255, the range
of `uint8_t`) that is 1 or satisfies `numWorkers * (numWorkers - 1) <
len(items)`, `splitSet` succeeds and the concatenation of the returned
partitions in order is the input. -/
theorem splitSet_concatenation (items : List Nat) (numWorkers : Nat)
    (_hne : items ≠ []) (hlen : items.length < 2 ^ 24) (h1 : 1 ≤ numWorkers)
    (hle : numWorkers ≤ items.length) (h8 : numWorkers ≤ 255)
    (hguard : numWorkers = 1 ∨ numWorkers * (numWorkers - 1) < items.length) :
    ∃ sets, splitSet items numWorkers = .ok sets ∧ sets.flatten = items := by
  by_cases hone : numWorkers = 1
  · subst hone
    exact ⟨[items], rfl, by simp⟩
  · have hg : numWorkers * (numWorkers - 1) < items.length := by
      rcases hguard with h | h
      · exact absurd h hone
      · exact h
    have hceil : numWorkers ≤ (items.length + numWorkers - 1) / numWorkers := by
      rw [Nat.le_div_iff_mul_le (by omega)]
      obtain ⟨m, rfl⟩ : ∃ m, numWorkers = m + 1 := ⟨numWorkers - 1, by omega⟩
      simp only [Nat.add_sub_cancel] at hg
      have : (m + 1) * (m + 1) = (m + 1) * m + (m + 1) := by ring
      omega
    obtain ⟨sets, hok, _, hflat⟩ :=
      splitSet_ok_of_small items numWorkers (by omega) h8 hlen hceil
    exact ⟨sets, hok, hflat⟩

theorem splitSet_concatenation_witness :
    (List.range 10 ≠ [] ∧ (List.range 10).length < 2 ^ 24 ∧ 1 ≤ 3 ∧
        3 ≤ (List.range 10).length ∧ 3 ≤ 255 ∧ (3 = 1 ∨ 3 * (3 - 1) < (List.range 10).length)) ∧
      ∃ sets, splitSet (List.range 10) 3 = .ok sets ∧ sets.flatten = List.range 10 :=
  ⟨⟨by decide, by decide, by decide, by decide, by decide, by decide⟩,
    splitSet_concatenation (List.range 10) 3 (by decide) (by decide) (by decide)
      (by decide) (by decide) (by decide)⟩

/-- C2: for the `2 ^ 24 + 1` items `0, ..., 16777216` and two sets, `splitSet`
returns, but its partitions concatenate to `0, ..., 16777215` only: the
conversion of the length to `float` rounds it to `2 ^ 24`, the partition size
becomes `2 ^ 23`, and the last item is in no partition. -/
theorem splitSet_omits_item_past_float_precision :
    ∃ sets, splitSet (List.range 16777217) 2 = .ok sets ∧
      sets.flatten = List.range 16777216 ∧
      (sets.map List.length).sum = 16777216 ∧
      16777216 ∈ List.range 16777217 ∧ 16777216 ∉ sets.flatten := by
  obtain ⟨sets, hok, hflat⟩ :=
    splitSet_two_pow_24_succ (List.range 16777217) (List.length_range _)
  have hflat' : sets.flatten = List.range 16777216 := by
    rw [hflat, List.take_range]
    rfl
  refine ⟨sets, hok, hflat', ?_, List.mem_range.mpr (by decide), ?_⟩
  · rw [← List.length_flatten, hflat', List.length_range]
  · rw [hflat', List.mem_range]
    decide

/-- C3: with one set `splitSet` returns the input as the only partition, and
with no set it returns no partition; neither call fails, whatever the input. -/
theorem splitSet_one_and_zero (items : List Nat) :
    splitSet items 1 = .ok [items] ∧ splitSet items 0 = .ok [] :=
  ⟨rfl, rfl⟩

/-- C4: for two or more sets (at most 255, the range of `uint8_t`), `splitSet`
throws `std::invalid_argument("Too many sets.")`, and so returns no partition,
exactly when the exact ceiling of `len / numSets` is smaller than `numSets`.
The partition size is the one the source computes in `float`; its rounding
never changes the outcome of the guard. -/
theorem splitSet_too_many_sets_iff (items : List Nat) (numSets : Nat)
    (h2 : 2 ≤ numSets) (h8 : numSets ≤ 255) :
    (splitSet items numSets = .error (.invalidArgument "Too many sets.") ∧
        ∀ sets, splitSet items numSets ≠ .ok sets) ↔
      (items.length + numSets - 1) / numSets < numSets := by
  have hd : diffMax = 2 ^ 63 - 1 := rfl
  have hbig : 2 ^ 24 ≤ items.length →
      ¬ (items.length + numSets - 1) / numSets < numSets := by
    intro hl
    have : numSets ≤ (items.length + numSets - 1) / numSets := by
      rw [Nat.le_div_iff_mul_le (by omega)]
      have : numSets * numSets ≤ 255 * 255 := Nat.mul_le_mul h8 h8
      omega
    omega
  constructor
  · rintro ⟨h, _⟩
    obtain ⟨_, hlen, hs, _⟩ := (splitSet_throws_iff items numSets _).mp h
    by_cases hsmall : items.length < 2 ^ 24
    · rwa [partitionSize_exact _ _ hsmall (by omega) (by omega)] at hs
    · have := partitionSize_large items.length numSets (by omega) (by omega) (by omega)
      omega
  · intro h
    have hsmall : items.length < 2 ^ 24 := by
      by_contra hcon
      exact hbig (by omega) h
    have hthrow : splitSet items numSets = .error (.invalidArgument "Too many sets.") :=
      (splitSet_throws_iff items numSets _).mpr
        ⟨h2, by omega, by rwa [partitionSize_exact _ _ hsmall (by omega) (by omega)], rfl⟩
    refine ⟨hthrow, ?_⟩
    intro sets hok
    rw [hthrow] at hok
    cases hok

theorem splitSet_too_many_sets_iff_witness :
    splitSet (List.range 10) 4 = .error (.invalidArgument "Too many sets.") ∧
      ∀ sets, splitSet (List.range 10) 4 ≠ .ok sets :=
  (splitSet_too_many_sets_iff (List.range 10) 4 (by decide) (by decide)).mpr (by decide)

/-- What C5 states fails in both directions: for no item and one set `splitSet`
returns normally although one is greater than the number of items, and for six
items and three sets it throws although three is not greater than the number
of items. -/
theorem splitSet_throw_differs_from_documented :
    (splitSet [] 1 = .ok [[]] ∧ 1 > ([] : List Nat).length) ∧
      (splitSet (List.range 6) 3 = .error (.invalidArgument "Too many sets.") ∧
        ¬ 3 > (List.range 6).length) :=
  ⟨⟨rfl, by decide⟩, rfl, by decide⟩

/-- C5, amended: `splitSet` throws only if `numSets` is at least 2, and for
`numSets` of at least 2 (at most 255, the range of `uint8_t`) it throws
whenever `numSets` is greater than the number of items. -/
theorem splitSet_throws_when_more_sets_than_items (combinedSet : List Nat)
    (numSets : Nat) (h8 : numSets ≤ 255) :
    ((∃ what, splitSet combinedSet numSets = .error (.invalidArgument what)) →
        2 ≤ numSets) ∧
      (2 ≤ numSets → numSets > combinedSet.length →
        splitSet combinedSet numSets = .error (.invalidArgument "Too many sets.")) := by
  constructor
  · rintro ⟨what, h⟩
    exact ((splitSet_throws_iff _ _ _).mp h).1
  · intro h2 hgt
    have hd : diffMax = 2 ^ 63 - 1 := rfl
    refine (splitSet_throws_iff _ _ _).mpr ⟨h2, by omega, ?_, rfl⟩
    rw [partitionSize_exact _ _ (by omega) (by omega) (by omega),
      Nat.div_lt_iff_lt_mul (by omega)]
    obtain ⟨m, rfl⟩ : ∃ m, numSets = m + 2 := ⟨numSets - 2, by omega⟩
    have : (m + 2) * (m + 2) = m * m + 4 * m + 4 := by ring
    omega

theorem splitSet_throws_when_more_sets_than_items_witness :
    (3 ≤ 255 ∧ 2 ≤ 3 ∧ 3 > (List.range 2).length) ∧
      splitSet (List.range 2) 3 = .error (.invalidArgument "Too many sets.") :=
  ⟨⟨by decide, by decide, by decide⟩,
    (splitSet_throws_when_more_sets_than_items (List.range 2) 3 (by decide)).2
      (by decide) (by decide)⟩

/-- C6: when the input is short enough to be indexed by the iterator
difference type, every result `splitSet` returns has exactly `numSets`
collections; and whenever `testOperation` gets as far as calling
`waitForExit`, it has forked exactly `numProcs` children before and passes
`numProcs` to `waitForExit`. -/
theorem splitSet_returns_numSets_collections {σ : Type} (host : Host σ)
    (args : Arguments) (combinedSet : List Nat) (numSets : Nat)
    (hlen : combinedSet.length ≤ diffMax)
    (himages : host.imagesSize ≤ diffMax) (hpairs : host.pairsSize ≤ diffMax) :
    (∀ sets, splitSet combinedSet numSets = .ok sets → sets.length = numSets) ∧
      (∀ k, Action.waitForExit k ∈ (testOperation host args).actions →
        k = args.numProcs ∧
          ((testOperation host args).actions.filter Action.isFork).length =
            args.numProcs) := by
  refine ⟨fun sets h => splitSet_length _ _ _ hlen h, ?_⟩
  intro k hk
  rcases testOperation_forks host args with hno | ⟨indicies, sets, hind, hsets, hacts⟩
  · exact absurd hk (hno k)
  · have hsl : sets.length = args.numProcs := by
      refine splitSet_length _ _ _ ?_ hsets
      rw [randomizeIndicies_length _ _ _ _ _ hind]
      split_ifs <;> assumption
    rw [hacts] at hk ⊢
    simp only [List.mem_append, List.mem_map, List.mem_singleton,
      Action.waitForExit.injEq] at hk
    rcases hk with ⟨_, _, h⟩ | h
    · cases h
    · refine ⟨h, ?_⟩
      rw [List.filter_append, List.length_append]
      have h1 : (sets.map (Action.fork args.operation)).filter Action.isFork =
          sets.map (Action.fork args.operation) := by
        rw [List.filter_eq_self]
        intro a ha
        obtain ⟨s, _, rfl⟩ := List.mem_map.mp ha
        rfl
      rw [h1, List.length_map, hsl]
      rfl

theorem splitSet_returns_numSets_collections_witness :
    ((List.range 7).length ≤ diffMax ∧ quietHost.imagesSize ≤ diffMax ∧
        quietHost.pairsSize ≤ diffMax) ∧
      ([[0, 1, 2], [3, 4, 5], [6]] : List (List Nat)).length = 3 ∧
      (2 = (Arguments.mk 42 .Create 2).numProcs ∧
        ((testOperation quietHost (Arguments.mk 42 .Create 2)).actions.filter
          Action.isFork).length = (Arguments.mk 42 .Create 2).numProcs) :=
  ⟨⟨by decide, by decide, by decide⟩,
    (splitSet_returns_numSets_collections quietHost (Arguments.mk 42 .Create 2)
      (List.range 7) 3 (by decide) (by decide) (by decide)).1 _ rfl,
    (splitSet_returns_numSets_collections quietHost (Arguments.mk 42 .Create 2)
      (List.range 7) 3 (by decide) (by decide) (by decide)).2 2 (by decide)⟩

/-! ## Properties of `randomizeIndicies` -/

/-- C7 fails in the code: for `2 ^ 31 + 1` elements, whatever the seed and
whatever the generator delivers, the call of `randomizeIndicies` leaves
defined behaviour, because `std::iota` increments its `int` counter at
`INT_MAX`, and the value stored at position `2 ^ 31` is not determined by the
source.  For `2 ^ 31 - 1` elements the call returns a rearrangement of the
indices, and for no element the empty sequence. -/
theorem randomizeIndicies_undefined_past_int_max {σ : Type} (engine : Nat → σ)
    (draw : Nat → σ → Nat × σ) (seed : Nat) :
    randomizeIndicies engine draw 2147483649 seed = .error .undefined ∧
      (∃ indicies, randomizeIndicies engine draw 2147483647 seed = .ok indicies ∧
        indicies.length = 2147483647 ∧ indicies.Perm (List.range 2147483647)) ∧
      randomizeIndicies engine draw 0 seed = .ok [] := by
  have hmax : INT_MAX = 2147483647 := by decide
  refine ⟨randomizeIndicies_undefined engine draw 2147483649 seed (by rw [hmax]; norm_num),
    ?_, rfl⟩
  obtain ⟨indicies, hok, hperm⟩ :=
    randomizeIndicies_perm_range engine draw 2147483647 seed (by rw [hmax])
  exact ⟨indicies, hok, randomizeIndicies_length engine draw _ seed indicies hok, hperm⟩

/-! ## Properties of `sanitizeMessage` -/

/-- Without escaping and wrapping, `sanitizeMessage` maps `blank` over the
message. -/
theorem sanitizeMessage_plain_eq_map (m : List Char) :
    sanitizeMessage m false false = m.map blank := by
  unfold sanitizeMessage
  cases m with
  | nil => rfl
  | cons c cs =>
    simp only [List.isEmpty_cons, Bool.false_eq_true, if_false]
    exact replaceLoop_eq_map _ _ (List.countP_le_length _)

/-- C9: `sanitizeMessage(m, false, false)` has the length of `m`, and at every
position holds the character of `m` when that is graphic or a space and a
space otherwise; a bell character between two letters becomes one space. -/
theorem sanitizeMessage_replaces_by_space (m : List Char) :
    (sanitizeMessage m false false).length = m.length ∧
      (∀ i : Nat, (sanitizeMessage m false false)[i]? =
        m[i]?.map (fun c => if isgraph c || c == ' ' then c else ' ')) ∧
      sanitizeMessage ['a', Char.ofNat 7, 'b'] false false = ['a', ' ', 'b'] := by
  rw [sanitizeMessage_plain_eq_map]
  refine ⟨List.length_map _ _, fun i => ?_, by decide⟩
  rw [List.getElem?_map]
  rfl

/-- C10: `sanitizeMessage(m, true, false)` is `sanitizeMessage(m, false, false)`
with every double quote replaced by backslash, double quote and every other
character kept, in order; and `sanitizeMessage("a\"b", true, true)` is the six
characters quote, a, backslash, quote, b, quote. -/
theorem sanitizeMessage_escapes_quotes (m : List Char) :
    sanitizeMessage m true false =
        (sanitizeMessage m false false).flatMap
          (fun c => if c = '"' then ['\\', '"'] else [c]) ∧
      sanitizeMessage ['a', '"', 'b'] true true = ['"', 'a', '\\', '"', 'b', '"'] ∧
      (sanitizeMessage ['a', '"', 'b'] true true).length = 6 := by
  refine ⟨?_, by decide, by decide⟩
  rw [sanitizeMessage_plain_eq_map]
  unfold sanitizeMessage
  cases m with
  | nil => rfl
  | cons c cs =>
    simp only [List.isEmpty_cons, Bool.false_eq_true, if_false, if_true]
    rw [replaceLoop_eq_map _ _ (List.countP_le_length _)]
    have := escapeLoop_eq_flatMap ((c :: cs).map blank).length [] ((c :: cs).map blank)
      (List.count_le_length _ _)
    simpa [escaped] using this


/-! ### Decimal numbers and scores in a record -/

theorem digitChar_isDigit (d : Nat) (h : d < 10) : (Nat.digitChar d).isDigit = true := by
  interval_cases d <;> decide

theorem toDigitsCore_isDigit : ∀ fuel n ds, (∀ c ∈ ds, c.isDigit = true) →
    ∀ c ∈ Nat.toDigitsCore 10 fuel n ds, c.isDigit = true := by
  intro fuel
  induction fuel with
  | zero => intro n ds h c hc; exact h c (by simpa [Nat.toDigitsCore] using hc)
  | succ f ih =>
    intro n ds h c hc
    have hd : ∀ x ∈ Nat.digitChar (n % 10) :: ds, x.isDigit = true := by
      intro x hx
      rcases List.mem_cons.mp hx with hx | hx
      · rw [hx]
        exact digitChar_isDigit _ (Nat.mod_lt _ (by decide))
      · exact h x hx
    simp only [Nat.toDigitsCore] at hc
    split_ifs at hc
    · exact hd c hc
    · exact ih _ _ hd c hc

/-- Every character of a decimal number is a digit. -/
theorem ts_isDigit (n : Nat) : ∀ c ∈ ts n, c.isDigit = true :=
  toDigitsCore_isDigit _ _ _ (by simp)

theorem toDigitsCore_ne_nil : ∀ fuel n ds, ds ≠ [] → Nat.toDigitsCore 10 fuel n ds ≠ [] := by
  intro fuel
  induction fuel with
  | zero => intro n ds h; simpa [Nat.toDigitsCore] using h
  | succ f ih =>
    intro n ds _
    simp only [Nat.toDigitsCore]
    split_ifs
    · simp
    · exact ih _ _ (by simp)

/-- A decimal number is never the token `NA`. -/
theorem ts_ne_NA (n : Nat) : ts n ≠ NA := by
  intro h
  have := ts_isDigit n 'N' (by rw [h]; decide)
  revert this
  decide

/-- A character that may stand in a numeric field: neither a comma nor a
line feed. -/
theorem isDigit_plain (c : Char) (h : c.isDigit = true) : c ≠ ',' ∧ c ≠ '\n' := by
  constructor
  · rintro rfl
    revert h
    decide
  · rintro rfl
    revert h
    decide

theorem ts_plain (n : Nat) : ∀ c ∈ ts n, c ≠ ',' ∧ c ≠ '\n' :=
  fun c hc => isDigit_plain c (ts_isDigit n c hc)

theorem NA_plain : ∀ c ∈ NA, c ≠ ',' ∧ c ≠ '\n' := by decide

theorem sixDecimals_plain (d : Nat) : ∀ c ∈ sixDecimals d, c ≠ ',' ∧ c ≠ '\n' := by
  intro c hc
  unfold sixDecimals at hc
  rcases List.mem_append.mp hc with h | h
  · rw [(List.mem_replicate.mp h).2]
    decide
  · exact ts_plain _ c h

/-- The text of a score holds neither a comma nor a line feed. -/
theorem Score.toString_plain (score : Score) : ∀ c ∈ score.toString, c ≠ ',' ∧ c ≠ '\n' := by
  have hsign : ∀ (negative : Bool) (c : Char),
      c ∈ (if negative then ['-'] else []) → c ≠ ',' ∧ c ≠ '\n' := by
    intro negative c hc
    cases negative
    · simp at hc
    · simp only [if_true, List.mem_singleton] at hc
      rw [hc]
      decide
  intro c hc
  cases score with
  | finite negative whole decimals =>
    simp only [Score.toString, List.mem_append, List.mem_singleton] at hc
    rcases hc with ((h | h) | h) | h
    · exact hsign _ _ h
    · exact ts_plain _ c h
    · rw [h]; decide
    · exact sixDecimals_plain _ c h
  | infinite negative =>
    simp only [Score.toString, List.mem_append] at hc
    rcases hc with h | h
    · exact hsign _ _ h
    · revert h c; decide
  | nan negative =>
    simp only [Score.toString, List.mem_append] at hc
    rcases hc with h | h
    · exact hsign _ _ h
    · revert h c; decide

/-- The text of a score is never the token `NA`. -/
theorem Score.toString_ne_NA (score : Score) : score.toString ≠ NA := by
  intro h
  cases score with
  | finite negative whole decimals =>
    have : '.' ∈ (Score.finite negative whole decimals).toString := by
      simp [Score.toString]
    rw [h] at this
    revert this
    decide
  | infinite negative =>
    have : 'i' ∈ (Score.infinite negative).toString := by simp [Score.toString]
    rw [h] at this
    revert this
    decide
  | nan negative =>
    have : 'n' ∈ (Score.nan negative).toString := by simp [Score.toString]
    rw [h] at this
    revert this
    decide

/-- The trailing field of a record that ends in a comma and a field without
comma is that field. -/
theorem trailingField_append (pre field : List Char) (h : ∀ c ∈ field, c ≠ ',') :
    trailingField (pre ++ [','] ++ field) = field := by
  unfold trailingField
  have hrev : (pre ++ [','] ++ field).reverse = field.reverse ++ ',' :: pre.reverse := by
    simp
  rw [hrev, List.takeWhile_append_of_pos, List.takeWhile_cons_of_neg (by simp)]
  · simp
  · intro c hc
    simpa using h c (List.mem_reverse.mp hc)

/-! ### `sanitizeMessage` in closed form -/

/-- The result of `sanitizeMessage` for every message and both flags. -/
theorem sanitizeMessage_eq (m : List Char) (escapeQuotes wrapInQuotes : Bool) :
    sanitizeMessage m escapeQuotes wrapInQuotes =
      (if wrapInQuotes then ['"'] else []) ++
        (if escapeQuotes then (m.map blank).flatMap escaped else m.map blank) ++
        (if wrapInQuotes then ['"'] else []) := by
  cases m with
  | nil => cases escapeQuotes <;> cases wrapInQuotes <;> rfl
  | cons c cs =>
    unfold sanitizeMessage
    simp only [List.isEmpty_cons, Bool.false_eq_true, if_false]
    rw [replaceLoop_eq_map _ _ (List.countP_le_length _)]
    have hesc := escapeLoop_eq_flatMap ((c :: cs).map blank).length [] ((c :: cs).map blank)
      (List.count_le_length _ _)
    simp only [List.nil_append, List.length_nil] at hesc
    cases escapeQuotes <;> cases wrapInQuotes <;>
      simp only [if_true, if_false, Bool.false_eq_true, hesc, List.append_nil, List.nil_append]

theorem blank_ne_newline (c : Char) : blank c ≠ '\n' := by
  unfold blank
  split_ifs with h
  · rintro rfl
    revert h
    decide
  · decide

/-- No result of `sanitizeMessage` holds a line feed. -/
theorem sanitizeMessage_no_newline (m : List Char) (escapeQuotes wrapInQuotes : Bool) :
    ∀ c ∈ sanitizeMessage m escapeQuotes wrapInQuotes, c ≠ '\n' := by
  have hmap : ∀ c ∈ m.map blank, c ≠ '\n' := by
    intro c hc
    obtain ⟨x, _, rfl⟩ := List.mem_map.mp hc
    exact blank_ne_newline x
  have hflat : ∀ c ∈ (m.map blank).flatMap escaped, c ≠ '\n' := by
    intro c hc
    obtain ⟨x, hx, hcx⟩ := List.mem_flatMap.mp hc
    unfold escaped at hcx
    split_ifs at hcx
    · simp only [List.mem_cons, List.mem_singleton, List.not_mem_nil, or_false] at hcx
      rcases hcx with rfl | rfl <;> decide
    · rw [List.mem_singleton.mp hcx]
      exact hmap x hx
  have hquote : ∀ (w : Bool) (c : Char), c ∈ (if w then ['"'] else []) → c ≠ '\n' := by
    intro w c hc
    cases w
    · simp at hc
    · simp only [if_true, List.mem_singleton] at hc
      rw [hc]
      decide
  intro c hc
  rw [sanitizeMessage_eq] at hc
  rcases List.mem_append.mp hc with h | h
  · rcases List.mem_append.mp h with h | h
    · exact hquote _ _ h
    · cases escapeQuotes
      · exact hmap c (by simpa using h)
      · exact hflat c (by simpa using h)
  · exact hquote _ _ h

/-! ### The records of `create` and `compare` -/

/-- The trailing field of the record of `create`. -/
theorem trailingField_createLogLine (name : List Char) (elapsed : Nat)
    (status : FingerImageStatus) (result : CreateProprietaryTemplateResult) :
    trailingField (createLogLine name elapsed status result) =
      if status.code = .Supported ∧ result.result = .Success then
        ts result.proprietaryTemplate.length
      else NA := by
  unfold createLogLine
  dsimp only
  by_cases hs : status.code = .Supported
  · by_cases hr : result.result = .Success
    · rw [if_pos hs, if_pos hr, if_pos ⟨hs, hr⟩]
      exact trailingField_append _ _ (fun c hc => (ts_plain _ c hc).1)
    · rw [if_pos hs, if_neg hr, if_neg (fun h => hr h.2)]
      exact trailingField_append _ _ (fun c hc => (NA_plain c hc).1)
  · rw [if_neg hs, if_neg (fun h => hs h.1)]
    have e : ∀ l : List Char, l ++ NA ++ [',', '"', '"', ','] ++ NA =
        (l ++ NA ++ [',', '"', '"']) ++ [','] ++ NA := by
      intro l
      simp
    rw [e]
    exact trailingField_append _ _ (fun c hc => (NA_plain c hc).1)

/-- The trailing field of the record of `compare`. -/
theorem trailingField_compareLogLine (probeName referenceName : List Char) (elapsed : Nat)
    (status : CompareProprietaryTemplatesStatus) (score : Score) :
    trailingField (compareLogLine probeName referenceName elapsed status score) =
      if status.result = .Success then score.toString else NA := by
  unfold compareLogLine
  apply trailingField_append
  intro c hc
  split_ifs at hc
  · exact (Score.toString_plain score c hc).1
  · exact (NA_plain c hc).1

/-- What `create` does once the image is in the table and its file read, by
what the implementation and `writeFile` do. -/
theorem create_eq {σ : Type} (host : Host σ) (impl : Interface) (imageIndex : Nat)
    (name : List Char) (md : ImageMetadata) (pixels : Bytes)
    (himg : host.images[imageIndex]? = some (name, md))
    (hread : readFile host (ImageDir ++ ['/'] ++ name) = .ok pixels) :
    create host impl imageIndex =
      match impl.createProprietaryTemplate
        ⟨md.width, md.height, md.ppi, pixels, md.imp, md.frct, md.frgp⟩ with
      | .error (.exception what) =>
        ⟨[], .error (.runtimeError ("Exception while creating template from " ++
          String.mk name ++ " (" ++ String.mk what ++ ")"))⟩
      | .error .unknown =>
        ⟨[], .error (.runtimeError ("Unknown exception while creating template from " ++
          String.mk name))⟩
      | .ok rv =>
        match writeFile host (createTemplate rv.1 rv.2)
          (TemplateDir ++ ['/'] ++ name ++ TemplateSuffix) with
        | .error e => ⟨[], .error e⟩
        | .ok _ =>
          ⟨[(TemplateDir ++ ['/'] ++ name ++ TemplateSuffix, createTemplate rv.1 rv.2)],
            .ok (createLogLine name (host.elapsed imageIndex) rv.1 rv.2)⟩ := by
  unfold create
  rw [himg]
  dsimp only
  rw [hread]

/-- A call of `create` that returns a line found the image in the table, read
its file, got a tuple from the implementation and wrote the template file. -/
theorem create_ok {σ : Type} (host : Host σ) (impl : Interface) (imageIndex : Nat)
    (line : List Char) (h : (create host impl imageIndex).result = .ok line) :
    ∃ name md pixels status result,
      host.images[imageIndex]? = some (name, md) ∧
      readFile host (ImageDir ++ ['/'] ++ name) = .ok pixels ∧
      impl.createProprietaryTemplate
        ⟨md.width, md.height, md.ppi, pixels, md.imp, md.frct, md.frgp⟩ =
          .ok (status, result) ∧
      writeFile host (createTemplate status result)
        (TemplateDir ++ ['/'] ++ name ++ TemplateSuffix) = .ok () ∧
      line = createLogLine name (host.elapsed imageIndex) status result ∧
      (create host impl imageIndex).templates =
        [(TemplateDir ++ ['/'] ++ name ++ TemplateSuffix, createTemplate status result)] := by
  cases himg : host.images[imageIndex]? with
  | none =>
    unfold create at h
    rw [himg] at h
    cases h
  | some entry =>
    obtain ⟨name, md⟩ := entry
    cases hread : readFile host (ImageDir ++ ['/'] ++ name) with
    | error e =>
      unfold create at h
      rw [himg] at h
      dsimp only at h
      rw [hread] at h
      cases h
    | ok pixels =>
      rw [create_eq host impl imageIndex name md pixels himg hread] at h ⊢
      cases himpl : impl.createProprietaryTemplate
          ⟨md.width, md.height, md.ppi, pixels, md.imp, md.frct, md.frgp⟩ with
      | error t =>
        rw [himpl] at h
        cases t <;> cases h
      | ok rv =>
        obtain ⟨status, result⟩ := rv
        rw [himpl] at h
        dsimp only at h ⊢
        cases hwrite : writeFile host (createTemplate status result)
            (TemplateDir ++ ['/'] ++ name ++ TemplateSuffix) with
        | error e =>
          rw [hwrite] at h
          cases h
        | ok u =>
          rw [hwrite] at h
          dsimp only at h ⊢
          cases h
          exact ⟨name, md, pixels, status, result, rfl, hread, himpl, hwrite, rfl, rfl⟩

/-- What `compare` does once the pair is in the table and both template
files are read, by what the implementation does. -/
theorem compare_eq {σ : Type} (host : Host σ) (impl : Interface) (pairsIndex : Nat)
    (probeName referenceName : List Char) (probe reference : Bytes)
    (hpair : host.pairs[pairsIndex]? = some (probeName, referenceName))
    (hp : readFile host (TemplateDir ++ ['/'] ++ probeName ++ TemplateSuffix) = .ok probe)
    (hr : readFile host (TemplateDir ++ ['/'] ++ referenceName ++ TemplateSuffix) =
      .ok reference) :
    compare host impl pairsIndex =
      match impl.compareProprietaryTemplates probe reference with
      | .error (.exception what) =>
        .error (.runtimeError ("Exception while comparing " ++ String.mk probeName ++
          " to " ++ String.mk referenceName ++ " (" ++ String.mk what ++ ")"))
      | .error .unknown =>
        .error (.runtimeError ("Unknown exception while comparing " ++
          String.mk probeName ++ " to " ++ String.mk referenceName))
      | .ok rv =>
        .ok (compareLogLine probeName referenceName (host.elapsed pairsIndex) rv.1 rv.2) := by
  unfold compare
  rw [hpair]
  dsimp only
  rw [hp]
  dsimp only
  rw [hr]

/-- A call of `compare` that returns a line got a tuple from the
implementation for the two templates it read. -/
theorem compare_ok {σ : Type} (host : Host σ) (impl : Interface) (pairsIndex : Nat)
    (line : List Char) (h : compare host impl pairsIndex = .ok line) :
    ∃ probeName referenceName probe reference status score,
      host.pairs[pairsIndex]? = some (probeName, referenceName) ∧
      readFile host (TemplateDir ++ ['/'] ++ probeName ++ TemplateSuffix) = .ok probe ∧
      readFile host (TemplateDir ++ ['/'] ++ referenceName ++ TemplateSuffix) =
        .ok reference ∧
      impl.compareProprietaryTemplates probe reference = .ok (status, score) ∧
      line = compareLogLine probeName referenceName (host.elapsed pairsIndex) status score := by
  cases hpair : host.pairs[pairsIndex]? with
  | none =>
    unfold compare at h
    rw [hpair] at h
    cases h
  | some entry =>
    obtain ⟨probeName, referenceName⟩ := entry
    cases hp : readFile host (TemplateDir ++ ['/'] ++ probeName ++ TemplateSuffix) with
    | error e =>
      unfold compare at h
      rw [hpair] at h
      dsimp only at h
      rw [hp] at h
      cases h
    | ok probe =>
      cases hr : readFile host (TemplateDir ++ ['/'] ++ referenceName ++ TemplateSuffix) with
      | error e =>
        unfold compare at h
        rw [hpair] at h
        dsimp only at h
        rw [hp] at h
        dsimp only at h
        rw [hr] at h
        cases h
      | ok reference =>
        rw [compare_eq host impl pairsIndex probeName referenceName probe reference
          hpair hp hr] at h
        cases himpl : impl.compareProprietaryTemplates probe reference with
        | error t =>
          rw [himpl] at h
          cases t <;> cases h
        | ok rv =>
          obtain ⟨status, score⟩ := rv
          rw [himpl] at h
          cases h
          exact ⟨probeName, referenceName, probe, reference, status, score, rfl, hp, hr,
            himpl, rfl⟩

/-- C11: for every message and either value of `escapeQuotes`,
`sanitizeMessage(m, e, true)` is a double quote, `sanitizeMessage(m, e, false)`
and a double quote; the empty message gives the two double quotes with
`wrapInQuotes` and the empty string without. -/
theorem sanitizeMessage_wraps_in_quotes (m : List Char) (escapeQuotes : Bool) :
    sanitizeMessage m escapeQuotes true =
        ['"'] ++ sanitizeMessage m escapeQuotes false ++ ['"'] ∧
      sanitizeMessage [] escapeQuotes true = ['"', '"'] ∧
      sanitizeMessage [] escapeQuotes false = [] := by
  refine ⟨?_, by cases escapeQuotes <;> rfl, by cases escapeQuotes <;> rfl⟩
  rw [sanitizeMessage_eq m escapeQuotes true, sanitizeMessage_eq m escapeQuotes false]
  simp

/-! ## Properties of `create` and `compare` -/

/-- C12: a record returned by `create` ends in the field `NA` exactly when the
status code the implementation returned for the image read is not `Supported`
or its result is not `Success`, and ends in the decimal length of the returned
template otherwise; a record returned by `compare` ends in the field `NA`
exactly when the result the implementation returned for the two templates
read is not `Success`. -/
theorem record_trailing_field {σ : Type} (host : Host σ) (impl : Interface)
    (imageIndex pairsIndex : Nat) :
    (∀ line, (create host impl imageIndex).result = .ok line →
        ∃ name md pixels status result,
          host.images[imageIndex]? = some (name, md) ∧
          readFile host (ImageDir ++ ['/'] ++ name) = .ok pixels ∧
          impl.createProprietaryTemplate
            ⟨md.width, md.height, md.ppi, pixels, md.imp, md.frct, md.frgp⟩ =
              .ok (status, result) ∧
          (trailingField line = NA ↔
            (status.code ≠ .Supported ∨ result.result ≠ .Success)) ∧
          (status.code = .Supported ∧ result.result = .Success →
            trailingField line = ts result.proprietaryTemplate.length)) ∧
      (∀ line, compare host impl pairsIndex = .ok line →
        ∃ probeName referenceName probe reference status score,
          host.pairs[pairsIndex]? = some (probeName, referenceName) ∧
          readFile host (TemplateDir ++ ['/'] ++ probeName ++ TemplateSuffix) = .ok probe ∧
          readFile host (TemplateDir ++ ['/'] ++ referenceName ++ TemplateSuffix) =
            .ok reference ∧
          impl.compareProprietaryTemplates probe reference = .ok (status, score) ∧
          (trailingField line = NA ↔ status.result ≠ .Success)) := by
  constructor
  · intro line h
    obtain ⟨name, md, pixels, status, result, himg, hread, himpl, _, hline, _⟩ :=
      create_ok host impl imageIndex line h
    refine ⟨name, md, pixels, status, result, himg, hread, himpl, ?_, ?_⟩
    · rw [hline, trailingField_createLogLine]
      by_cases hc : status.code = .Supported ∧ result.result = .Success
      · rw [if_pos hc]
        constructor
        · intro hna
          exact absurd hna (ts_ne_NA _)
        · rintro (h1 | h1)
          · exact absurd hc.1 h1
          · exact absurd hc.2 h1
      · rw [if_neg hc]
        constructor
        · intro _
          by_cases hs : status.code = .Supported
          · exact Or.inr (fun hr => hc ⟨hs, hr⟩)
          · exact Or.inl hs
        · intro _
          rfl
    · intro hc
      rw [hline, trailingField_createLogLine, if_pos hc]
  · intro line h
    obtain ⟨probeName, referenceName, probe, reference, status, score, hpair, hp, hr, himpl,
      hline⟩ := compare_ok host impl pairsIndex line h
    refine ⟨probeName, referenceName, probe, reference, status, score, hpair, hp, hr, himpl, ?_⟩
    rw [hline, trailingField_compareLogLine]
    by_cases hs : status.result = .Success
    · rw [if_pos hs]
      constructor
      · intro hna
        exact absurd hna (Score.toString_ne_NA _)
      · intro hn
        exact absurd hs hn
    · rw [if_neg hs]
      exact ⟨fun _ => hs, fun _ => rfl⟩

theorem record_trailing_field_witness :
    ((create quietHost quietImplementation 0).result =
        .ok (createLogLine (['i', 'm', 'g'] ++ ts 0) 1000 ⟨.Supported, []⟩
          ⟨.Success, [1, 2, 3], []⟩) ∧
      compare quietHost failingImplementation 0 =
        .ok (compareLogLine (['i', 'm', 'g'] ++ ts 0) (['i', 'm', 'g'] ++ ts 5) 1000
          ⟨.Failure, ['b', 'a', 'd']⟩ (.finite false 0 0))) ∧
      (∃ name md pixels status result,
        quietHost.images[0]? = some (name, md) ∧
        readFile quietHost (ImageDir ++ ['/'] ++ name) = .ok pixels ∧
        quietImplementation.createProprietaryTemplate
          ⟨md.width, md.height, md.ppi, pixels, md.imp, md.frct, md.frgp⟩ =
            .ok (status, result) ∧
        (trailingField (createLogLine (['i', 'm', 'g'] ++ ts 0) 1000 ⟨.Supported, []⟩
            ⟨.Success, [1, 2, 3], []⟩) = NA ↔
          (status.code ≠ .Supported ∨ result.result ≠ .Success)) ∧
        (status.code = .Supported ∧ result.result = .Success →
          trailingField (createLogLine (['i', 'm', 'g'] ++ ts 0) 1000 ⟨.Supported, []⟩
            ⟨.Success, [1, 2, 3], []⟩) = ts result.proprietaryTemplate.length)) ∧
      (∃ probeName referenceName probe reference status score,
        quietHost.pairs[0]? = some (probeName, referenceName) ∧
        readFile quietHost (TemplateDir ++ ['/'] ++ probeName ++ TemplateSuffix) = .ok probe ∧
        readFile quietHost (TemplateDir ++ ['/'] ++ referenceName ++ TemplateSuffix) =
          .ok reference ∧
        failingImplementation.compareProprietaryTemplates probe reference =
          .ok (status, score) ∧
        (trailingField (compareLogLine (['i', 'm', 'g'] ++ ts 0) (['i', 'm', 'g'] ++ ts 5) 1000
            ⟨.Failure, ['b', 'a', 'd']⟩ (.finite false 0 0)) = NA ↔
          status.result ≠ .Success)) :=
  ⟨⟨rfl, rfl⟩,
    (record_trailing_field quietHost quietImplementation 0 0).1 _ rfl,
    (record_trailing_field quietHost failingImplementation 0 0).2 _ rfl⟩

/-- C13: for every outcome that `createProprietaryTemplate` returns for the
image read, with the template file written (`writeFile` returning), `create`
writes exactly one template, at `TemplateDir/<name>.tmpl`, and returns the log
record; the template holds the returned bytes when the status is `Supported`
and the result is `Success`, and is empty in every other case. -/
theorem create_writes_one_template {σ : Type} (host : Host σ) (impl : Interface)
    (imageIndex : Nat) (name : List Char) (md : ImageMetadata) (pixels : Bytes)
    (status : FingerImageStatus) (result : CreateProprietaryTemplateResult)
    (himg : host.images[imageIndex]? = some (name, md))
    (hread : readFile host (ImageDir ++ ['/'] ++ name) = .ok pixels)
    (himpl : impl.createProprietaryTemplate
      ⟨md.width, md.height, md.ppi, pixels, md.imp, md.frct, md.frgp⟩ = .ok (status, result))
    (hwrite : writeFile host (createTemplate status result)
      (TemplateDir ++ ['/'] ++ name ++ TemplateSuffix) = .ok ()) :
    create host impl imageIndex =
        ⟨[(TemplateDir ++ ['/'] ++ name ++ TemplateSuffix,
            if status.code = .Supported ∧ result.result = .Success
            then result.proprietaryTemplate else [])],
          .ok (createLogLine name (host.elapsed imageIndex) status result)⟩ := by
  rw [create_eq host impl imageIndex name md pixels himg hread, himpl]
  dsimp only
  rw [hwrite]
  rfl

theorem create_writes_one_template_witness :
    create quietHost failingImplementation 0 =
      ⟨[(TemplateDir ++ ['/'] ++ (['i', 'm', 'g'] ++ ts 0) ++ TemplateSuffix,
          if FingerImageStatus.Code.Supported = .Supported ∧ Result.Failure = .Success
          then [7, 8, 9] else [])],
        .ok (createLogLine (['i', 'm', 'g'] ++ ts 0) (quietHost.elapsed 0)
          ⟨.Supported, []⟩ ⟨.Failure, [7, 8, 9], ['b', 'a', 'd']⟩)⟩ :=
  create_writes_one_template quietHost failingImplementation 0 (['i', 'm', 'g'] ++ ts 0)
    ⟨256, 360, 500, 0, 0, 0⟩ [0, 1, 2, 3] ⟨.Supported, []⟩ ⟨.Failure, [7, 8, 9], ['b', 'a', 'd']⟩
    rfl rfl rfl rfl

/-- C14 as stated fails: an implementation reports the code `Supported`, the
result `Failure` and the template bytes 7, 8, 9; `create` records a zero-length
template for the image and `NA` as its size, not the returned template. -/
theorem create_discards_template_of_failed_creation :
    failingImplementation.createProprietaryTemplate ⟨256, 360, 500, [0, 1, 2, 3], 0, 0, 0⟩ =
        .ok (⟨.Supported, []⟩, ⟨.Failure, [7, 8, 9], ['b', 'a', 'd']⟩) ∧
      (create quietHost failingImplementation 0).templates =
        [("output/templates/img0.tmpl".toList, [])] ∧
      (create quietHost failingImplementation 0).result =
        .ok "\"img0\",1000,0,\"\",1,\"bad\",NA".toList ∧
      (create quietHost failingImplementation 0).templates ≠
        [("output/templates/img0.tmpl".toList, [7, 8, 9])] := by
  refine ⟨rfl, rfl, rfl, ?_⟩
  decide

/-- C14 (amended): when the status code is `Supported`, the template `create`
records is the returned `proprietaryTemplate` when the result is `Success`
and the zero-length template when the result is `Failure`; in that case the
returned template is not consulted: two implementations that return the same
status, the result `Failure` and the same message, with any two templates,
make `create` do the same thing, and a record it returns ends in `NA`. -/
theorem create_records_template_on_success_only {σ : Type} (host : Host σ)
    (impl₁ impl₂ : Interface) (imageIndex : Nat) (name : List Char) (md : ImageMetadata)
    (pixels : Bytes) (status : FingerImageStatus) (r₁ r₂ : CreateProprietaryTemplateResult)
    (himg : host.images[imageIndex]? = some (name, md))
    (hread : readFile host (ImageDir ++ ['/'] ++ name) = .ok pixels)
    (h₁ : impl₁.createProprietaryTemplate
      ⟨md.width, md.height, md.ppi, pixels, md.imp, md.frct, md.frgp⟩ = .ok (status, r₁))
    (hcode : status.code = .Supported) :
    (∀ line, (create host impl₁ imageIndex).result = .ok line →
        (create host impl₁ imageIndex).templates =
          [(TemplateDir ++ ['/'] ++ name ++ TemplateSuffix,
            if r₁.result = .Success then r₁.proprietaryTemplate else [])]) ∧
      (r₁.result = .Failure →
        impl₂.createProprietaryTemplate
          ⟨md.width, md.height, md.ppi, pixels, md.imp, md.frct, md.frgp⟩ = .ok (status, r₂) →
        r₂.result = .Failure → r₂.message = r₁.message →
        create host impl₂ imageIndex = create host impl₁ imageIndex ∧
          ∀ line, (create host impl₁ imageIndex).result = .ok line →
            trailingField line = NA) := by
  have htmpl : ∀ r : CreateProprietaryTemplateResult,
      createTemplate status r = if r.result = .Success then r.proprietaryTemplate else [] := by
    intro r
    unfold createTemplate
    by_cases hr : r.result = .Success
    · rw [if_pos ⟨hcode, hr⟩, if_pos hr]
    · rw [if_neg (fun h => hr h.2), if_neg hr]
  have hc : ∀ (impl : Interface) (r : CreateProprietaryTemplateResult),
      impl.createProprietaryTemplate
        ⟨md.width, md.height, md.ppi, pixels, md.imp, md.frct, md.frgp⟩ = .ok (status, r) →
      create host impl imageIndex =
        match writeFile host (if r.result = .Success then r.proprietaryTemplate else [])
          (TemplateDir ++ ['/'] ++ name ++ TemplateSuffix) with
        | .error e => ⟨[], .error e⟩
        | .ok _ =>
          ⟨[(TemplateDir ++ ['/'] ++ name ++ TemplateSuffix,
              if r.result = .Success then r.proprietaryTemplate else [])],
            .ok (createLogLine name (host.elapsed imageIndex) status r)⟩ := by
    intro impl r h
    rw [create_eq host impl imageIndex name md pixels himg hread, h]
    dsimp only
    rw [htmpl r]
  constructor
  · intro line h
    rw [hc impl₁ r₁ h₁] at h ⊢
    cases hw : writeFile host (if r₁.result = .Success then r₁.proprietaryTemplate else [])
        (TemplateDir ++ ['/'] ++ name ++ TemplateSuffix) with
    | error e =>
      rw [hw] at h
      cases h
    | ok u => rfl
  · intro hf₁ h₂ hf₂ hmsg
    have hns : ∀ r : CreateProprietaryTemplateResult, r.result = .Failure →
        ¬ r.result = .Success := by
      intro r hr hs
      rw [hr] at hs
      cases hs
    have hline : createLogLine name (host.elapsed imageIndex) status r₂ =
        createLogLine name (host.elapsed imageIndex) status r₁ := by
      unfold createLogLine
      dsimp only
      rw [if_pos hcode, if_pos hcode, if_neg (hns r₁ hf₁), if_neg (hns r₂ hf₂), hf₁, hf₂, hmsg]
    constructor
    · rw [hc impl₁ r₁ h₁, hc impl₂ r₂ h₂, if_neg (hns r₁ hf₁), if_neg (hns r₂ hf₂), hline]
    · intro line h
      obtain ⟨name', md', pixels', status', result', himg', hread', himpl', _, hl, _⟩ :=
        create_ok host impl₁ imageIndex line h
      rw [himg] at himg'
      injection himg' with himg'
      injection himg' with hn hm
      subst hn hm
      rw [hread] at hread'
      injection hread' with hp
      subst hp
      rw [h₁] at himpl'
      injection himpl' with himpl'
      injection himpl' with hs hr
      subst hs hr
      rw [hl, trailingField_createLogLine, if_neg (fun hh => hns r₁ hf₁ hh.2)]

theorem create_records_template_on_success_only_witness :
    (create quietHost failingImplementation 0).templates =
        [(TemplateDir ++ ['/'] ++ (['i', 'm', 'g'] ++ ts 0) ++ TemplateSuffix,
          if Result.Failure = .Success then [7, 8, 9] else [])] ∧
      create quietHost (supportingImplementation ⟨.Failure, [], ['b', 'a', 'd']⟩) 0 =
        create quietHost failingImplementation 0 ∧
      trailingField "\"img0\",1000,0,\"\",1,\"bad\",NA".toList = NA :=
  ⟨(create_records_template_on_success_only quietHost failingImplementation
      (supportingImplementation ⟨.Failure, [], ['b', 'a', 'd']⟩) 0 (['i', 'm', 'g'] ++ ts 0)
      ⟨256, 360, 500, 0, 0, 0⟩ [0, 1, 2, 3] ⟨.Supported, []⟩
      ⟨.Failure, [7, 8, 9], ['b', 'a', 'd']⟩ ⟨.Failure, [], ['b', 'a', 'd']⟩
      rfl rfl rfl rfl).1 _ rfl,
    ((create_records_template_on_success_only quietHost failingImplementation
      (supportingImplementation ⟨.Failure, [], ['b', 'a', 'd']⟩) 0 (['i', 'm', 'g'] ++ ts 0)
      ⟨256, 360, 500, 0, 0, 0⟩ [0, 1, 2, 3] ⟨.Supported, []⟩
      ⟨.Failure, [7, 8, 9], ['b', 'a', 'd']⟩ ⟨.Failure, [], ['b', 'a', 'd']⟩
      rfl rfl rfl rfl).2 rfl rfl rfl rfl).1,
    ((create_records_template_on_success_only quietHost failingImplementation
      (supportingImplementation ⟨.Failure, [], ['b', 'a', 'd']⟩) 0 (['i', 'm', 'g'] ++ ts 0)
      ⟨256, 360, 500, 0, 0, 0⟩ [0, 1, 2, 3] ⟨.Supported, []⟩
      ⟨.Failure, [7, 8, 9], ['b', 'a', 'd']⟩ ⟨.Failure, [], ['b', 'a', 'd']⟩
      rfl rfl rfl rfl).2 rfl rfl rfl rfl).2 _ rfl⟩

/-- C15: when the status code the implementation returns is not `Supported`,
`create` does not depend on the creation result: two implementations that
return the same status with any two results make `create` do the same thing,
and when it returns, the record ends in `NA,"",NA` and the template written
is empty. -/
theorem create_ignores_result_when_unsupported {σ : Type} (host : Host σ)
    (impl₁ impl₂ : Interface) (imageIndex : Nat) (name : List Char) (md : ImageMetadata)
    (pixels : Bytes) (status : FingerImageStatus) (r₁ r₂ : CreateProprietaryTemplateResult)
    (himg : host.images[imageIndex]? = some (name, md))
    (hread : readFile host (ImageDir ++ ['/'] ++ name) = .ok pixels)
    (h₁ : impl₁.createProprietaryTemplate
      ⟨md.width, md.height, md.ppi, pixels, md.imp, md.frct, md.frgp⟩ = .ok (status, r₁))
    (h₂ : impl₂.createProprietaryTemplate
      ⟨md.width, md.height, md.ppi, pixels, md.imp, md.frct, md.frgp⟩ = .ok (status, r₂))
    (hcode : status.code ≠ .Supported) :
    create host impl₁ imageIndex = create host impl₂ imageIndex ∧
      ∀ line, (create host impl₁ imageIndex).result = .ok line →
        line = ['"'] ++ name ++ ['"', ','] ++ ts (host.elapsed imageIndex) ++ [','] ++
            ts status.code.e2i ++ [','] ++ sanitizeMessage status.message true true ++
            [','] ++ ['N', 'A', ',', '"', '"', ',', 'N', 'A'] ∧
          (create host impl₁ imageIndex).templates =
            [(TemplateDir ++ ['/'] ++ name ++ TemplateSuffix, [])] := by
  have hline : ∀ r : CreateProprietaryTemplateResult,
      createLogLine name (host.elapsed imageIndex) status r =
        ['"'] ++ name ++ ['"', ','] ++ ts (host.elapsed imageIndex) ++ [','] ++
            ts status.code.e2i ++ [','] ++ sanitizeMessage status.message true true ++
            [','] ++ ['N', 'A', ',', '"', '"', ',', 'N', 'A'] := by
    intro r
    unfold createLogLine
    dsimp only
    rw [if_neg hcode]
    simp [NA]
  have htmpl : ∀ r : CreateProprietaryTemplateResult, createTemplate status r = [] := by
    intro r
    unfold createTemplate
    rw [if_neg (fun h => hcode h.1)]
  have hc : ∀ (impl : Interface) (r : CreateProprietaryTemplateResult),
      impl.createProprietaryTemplate
        ⟨md.width, md.height, md.ppi, pixels, md.imp, md.frct, md.frgp⟩ = .ok (status, r) →
      create host impl imageIndex =
        match writeFile host [] (TemplateDir ++ ['/'] ++ name ++ TemplateSuffix) with
        | .error e => ⟨[], .error e⟩
        | .ok _ =>
          ⟨[(TemplateDir ++ ['/'] ++ name ++ TemplateSuffix, [])],
            .ok (['"'] ++ name ++ ['"', ','] ++ ts (host.elapsed imageIndex) ++ [','] ++
              ts status.code.e2i ++ [','] ++ sanitizeMessage status.message true true ++
              [','] ++ ['N', 'A', ',', '"', '"', ',', 'N', 'A'])⟩ := by
    intro impl r h
    rw [create_eq host impl imageIndex name md pixels himg hread, h]
    dsimp only
    rw [htmpl r, hline r]
  constructor
  · rw [hc impl₁ r₁ h₁, hc impl₂ r₂ h₂]
  · intro line h
    rw [hc impl₁ r₁ h₁] at h ⊢
    cases hw : writeFile host [] (TemplateDir ++ ['/'] ++ name ++ TemplateSuffix) with
    | error e =>
      rw [hw] at h
      cases h
    | ok u =>
      rw [hw] at h
      dsimp only at h ⊢
      injection h with h
      exact ⟨h.symm, rfl⟩

theorem create_ignores_result_when_unsupported_witness :
    create quietHost (refusingImplementation ⟨.Success, [1, 2], ['x']⟩) 0 =
        create quietHost (refusingImplementation ⟨.Failure, [], []⟩) 0 ∧
      ∀ line, (create quietHost (refusingImplementation ⟨.Success, [1, 2], ['x']⟩) 0).result =
          .ok line →
        line = ['"'] ++ (['i', 'm', 'g'] ++ ts 0) ++ ['"', ','] ++ ts (quietHost.elapsed 0) ++
            [','] ++ ts FingerImageStatus.Code.InvalidImageData.e2i ++ [','] ++
            sanitizeMessage ['n', 'o'] true true ++
            [','] ++ ['N', 'A', ',', '"', '"', ',', 'N', 'A'] ∧
          (create quietHost (refusingImplementation ⟨.Success, [1, 2], ['x']⟩) 0).templates =
            [(TemplateDir ++ ['/'] ++ (['i', 'm', 'g'] ++ ts 0) ++ TemplateSuffix, [])] :=
  create_ignores_result_when_unsupported quietHost
    (refusingImplementation ⟨.Success, [1, 2], ['x']⟩) (refusingImplementation ⟨.Failure, [], []⟩)
    0 (['i', 'm', 'g'] ++ ts 0) ⟨256, 360, 500, 0, 0, 0⟩ [0, 1, 2, 3] ⟨.InvalidImageData, ['n', 'o']⟩
    ⟨.Success, [1, 2], ['x']⟩ ⟨.Failure, [], []⟩ rfl rfl rfl rfl (by decide)

/-! ### The loops of the workers -/

theorem createLogLine_no_newline (name : List Char) (elapsed : Nat) (status : FingerImageStatus)
    (result : CreateProprietaryTemplateResult) (hname : ∀ c ∈ name, c ≠ '\n') :
    ∀ c ∈ createLogLine name elapsed status result, c ≠ '\n' := by
  have hts : ∀ n : Nat, ∀ c ∈ ts n, c ≠ '\n' := fun n c hc => (ts_plain n c hc).2
  have hna : ∀ c ∈ NA, c ≠ '\n' := fun c hc => (NA_plain c hc).2
  have hs := sanitizeMessage_no_newline
  unfold createLogLine
  dsimp only
  split_ifs <;>
    simp only [List.forall_mem_append, List.forall_mem_cons, List.forall_mem_singleton,
      List.not_mem_nil, false_implies, implies_true, and_true]
  all_goals
    repeat' apply And.intro
  all_goals first
    | exact hname
    | exact hts _
    | exact hna
    | exact hs _ _ _
    | decide

theorem compareLogLine_no_newline (probeName referenceName : List Char) (elapsed : Nat)
    (status : CompareProprietaryTemplatesStatus) (score : Score)
    (hprobe : ∀ c ∈ probeName, c ≠ '\n') (hreference : ∀ c ∈ referenceName, c ≠ '\n') :
    ∀ c ∈ compareLogLine probeName referenceName elapsed status score, c ≠ '\n' := by
  have hts : ∀ n : Nat, ∀ c ∈ ts n, c ≠ '\n' := fun n c hc => (ts_plain n c hc).2
  have hna : ∀ c ∈ NA, c ≠ '\n' := fun c hc => (NA_plain c hc).2
  have hsc : ∀ c ∈ score.toString, c ≠ '\n' := fun c hc => (Score.toString_plain score c hc).2
  have hs := sanitizeMessage_no_newline
  unfold compareLogLine
  split_ifs <;>
    simp only [List.forall_mem_append, List.forall_mem_cons, List.forall_mem_singleton,
      List.not_mem_nil, false_implies, implies_true, and_true]
  all_goals
    repeat' apply And.intro
  all_goals first
    | exact hprobe
    | exact hreference
    | exact hts _
    | exact hna
    | exact hsc
    | exact hs _ _ _
    | decide

theorem createHeader_no_newline : ∀ c ∈ createHeader, c ≠ '\n' := by decide

theorem compareHeader_no_newline : ∀ c ∈ compareHeader, c ≠ '\n' := by decide

/-- Lines without a line feed, each followed by one, hold as many line feeds
as there are lines. -/
theorem count_newline_lines (lines : List (List Char))
    (h : ∀ line ∈ lines, ∀ c ∈ line, c ≠ '\n') :
    (lines.flatMap (fun line => line ++ ['\n'])).count '\n' = lines.length := by
  induction lines with
  | nil => rfl
  | cons line rest ih =>
    have hline : line.count '\n' = 0 :=
      List.count_eq_zero.mpr (fun hc => h line (List.mem_cons_self _ _) '\n' hc rfl)
    rw [List.flatMap_cons, List.count_append, List.count_append, hline,
      ih (fun l hl => h l (List.mem_cons_of_mem _ hl))]
    simp
    omega

/-- When every call returns a line, the lines can be collected. -/
theorem exists_records (f : Nat → Except Fault (List Char)) (p : List Char → Prop)
    (indicies : List Nat) (h : ∀ n ∈ indicies, ∃ line, f n = .ok line ∧ p line) :
    ∃ records : List (List Char),
      indicies.map f = records.map Except.ok ∧ ∀ r ∈ records, p r := by
  induction indicies with
  | nil => exact ⟨[], rfl, fun _ hr => absurd hr (List.not_mem_nil _)⟩
  | cons n rest ih =>
    obtain ⟨line, hline, hp⟩ := h n (List.mem_cons_self _ _)
    obtain ⟨records, hrec, hall⟩ := ih (fun m hm => h m (List.mem_cons_of_mem _ hm))
    refine ⟨line :: records, ?_, ?_⟩
    · rw [List.map_cons, List.map_cons, hline, hrec]
    · intro r hr
      rcases List.mem_cons.mp hr with rfl | hr
      · exact hp
      · exact hall r hr

/-- The loop of `runCreate` over indices whose records are `records`, followed
by further indices: the records are written in order, one per line, and the
loop goes on with the further indices. -/
theorem runCreateLoop_append {σ : Type} (host : Host σ) (impl : Interface)
    (hlog : ∀ k, host.logAccepts k = true) :
    ∀ (done : List Nat) (k : Nat) (records : List (List Char)) (rest : List Nat),
      done.map (fun n => (create host impl n).result) = records.map Except.ok →
      runCreateLoop host impl (done ++ rest) k =
        ⟨records.flatMap (fun r => r ++ ['\n']) ++
            (runCreateLoop host impl rest (k + done.length)).log,
          done.flatMap (fun n => (create host impl n).templates) ++
            (runCreateLoop host impl rest (k + done.length)).templates,
          (runCreateLoop host impl rest (k + done.length)).outcome⟩ := by
  intro done
  induction done with
  | nil =>
    intro k records rest h
    cases records with
    | nil => rfl
    | cons r rs => cases h
  | cons d ds ih =>
    intro k records rest h
    cases records with
    | nil => cases h
    | cons r rs =>
      rw [List.map_cons, List.map_cons] at h
      injection h with h1 h2
      rw [List.cons_append]
      rw [runCreateLoop, h1]
      dsimp only
      rw [if_pos (hlog k), ih (k + 1) rs rest h2]
      have hk : k + 1 + ds.length = k + (d :: ds).length := by
        rw [List.length_cons]
        omega
      rw [hk]
      simp only [List.flatMap_cons, List.append_assoc]

/-- The loop of `runCompare`, as `runCreateLoop_append`. -/
theorem runCompareLoop_append {σ : Type} (host : Host σ) (impl : Interface)
    (hlog : ∀ k, host.logAccepts k = true) :
    ∀ (done : List Nat) (k : Nat) (records : List (List Char)) (rest : List Nat),
      done.map (fun n => compare host impl n) = records.map Except.ok →
      runCompareLoop host impl (done ++ rest) k =
        ⟨records.flatMap (fun r => r ++ ['\n']) ++
            (runCompareLoop host impl rest (k + done.length)).log,
          (runCompareLoop host impl rest (k + done.length)).templates,
          (runCompareLoop host impl rest (k + done.length)).outcome⟩ := by
  intro done
  induction done with
  | nil =>
    intro k records rest h
    cases records with
    | nil => rfl
    | cons r rs => cases h
  | cons d ds ih =>
    intro k records rest h
    cases records with
    | nil => cases h
    | cons r rs =>
      rw [List.map_cons, List.map_cons] at h
      injection h with h1 h2
      rw [List.cons_append]
      rw [runCompareLoop, h1]
      dsimp only
      rw [if_pos (hlog k), ih (k + 1) rs rest h2]
      have hk : k + 1 + ds.length = k + (d :: ds).length := by
        rw [List.length_cons]
        omega
      rw [hk]
      simp only [List.flatMap_cons, List.append_assoc]

/-- The body of `runCreate` once the template directory and the log file are
there and the log accepts every line. -/
theorem runCreate_eq {σ : Type} (host : Host σ) (impl : Interface) (indicies : List Nat)
    (hdir : host.templateDirErrno = none ∨ host.templateDirErrno = some EEXIST)
    (hopen : host.logOpens = true) (hlog : ∀ k, host.logAccepts k = true) :
    runCreate host impl indicies =
      ⟨createHeader ++ ['\n'] ++ (runCreateLoop host impl indicies 1).log,
        (runCreateLoop host impl indicies 1).templates,
        (runCreateLoop host impl indicies 1).outcome⟩ := by
  unfold runCreate
  have h1 : ¬ (host.templateDirErrno.isSome ∧ host.templateDirErrno ≠ some EEXIST) := by
    rcases hdir with h | h
    · rw [h]
      simp
    · rw [h]
      simp
  rw [if_neg h1, if_neg (by simp [hopen]), if_neg (by simp [hlog 0])]

/-- The body of `runCompare` once the log file is there and the log accepts
every line. -/
theorem runCompare_eq {σ : Type} (host : Host σ) (impl : Interface) (indicies : List Nat)
    (hopen : host.logOpens = true) (hlog : ∀ k, host.logAccepts k = true) :
    runCompare host impl indicies =
      ⟨compareHeader ++ ['\n'] ++ (runCompareLoop host impl indicies 1).log,
        (runCompareLoop host impl indicies 1).templates,
        (runCompareLoop host impl indicies 1).outcome⟩ := by
  unfold runCompare
  rw [if_neg (by simp [hopen]), if_neg (by simp [hlog 0])]

/-! ## Properties of the workers -/

/-- C16: for every partition of indices of the tables and every implementation
whose calls return (with templates of at most 2^63 - 1 bytes), on a host where
the template directory is there, the log opens and accepts every line, and
every file is read and written, `runCreate` and `runCompare` return normally
and the log holds the header line followed by one line per index of the
partition, in the order of the partition: the k-th data line is the record
that `create` or `compare` returns for the k-th index, no record holds a line
feed, and the log has 1 + len(partition) line feeds. -/
theorem workers_log_one_record_per_index {σ : Type} (host : Host σ) (impl : Interface)
    (createPartition comparePartition : List Nat)
    (hdir : host.templateDirErrno = none ∨ host.templateDirErrno = some EEXIST)
    (hopen : host.logOpens = true) (hlog : ∀ k, host.logAccepts k = true)
    (hcreateIdx : ∀ n ∈ createPartition, n < host.images.length)
    (hcompareIdx : ∀ n ∈ comparePartition, n < host.pairs.length)
    (hnames : ∀ entry ∈ host.images, ∀ c ∈ entry.1, c ≠ '\n')
    (hpairs : ∀ pair ∈ host.pairs, (∀ c ∈ pair.1, c ≠ '\n') ∧ ∀ c ∈ pair.2, c ≠ '\n')
    (hread : ∀ path, ∃ buf, readFile host path = .ok buf)
    (hwrite : ∀ data path, data.length ≤ 2 ^ 63 - 1 → writeFile host data path = .ok ())
    (hcreate : ∀ image, ∃ status result,
      impl.createProprietaryTemplate image = .ok (status, result) ∧
        result.proprietaryTemplate.length ≤ 2 ^ 63 - 1)
    (hcompare : ∀ probe reference, ∃ rv,
      impl.compareProprietaryTemplates probe reference = .ok rv) :
    (∃ records : List (List Char),
        createPartition.map (fun n => (create host impl n).result) = records.map Except.ok ∧
        (∀ r ∈ records, ∀ c ∈ r, c ≠ '\n') ∧
        (runCreate host impl createPartition).outcome = .ok () ∧
        (runCreate host impl createPartition).log =
          (createHeader :: records).flatMap (fun line => line ++ ['\n']) ∧
        (runCreate host impl createPartition).log.count '\n' = 1 + createPartition.length) ∧
      (∃ records : List (List Char),
        comparePartition.map (fun n => compare host impl n) = records.map Except.ok ∧
        (∀ r ∈ records, ∀ c ∈ r, c ≠ '\n') ∧
        (runCompare host impl comparePartition).outcome = .ok () ∧
        (runCompare host impl comparePartition).log =
          (compareHeader :: records).flatMap (fun line => line ++ ['\n']) ∧
        (runCompare host impl comparePartition).log.count '\n' =
          1 + comparePartition.length) := by
  constructor
  · have hall : ∀ n ∈ createPartition, ∃ line,
        (fun n => (create host impl n).result) n = .ok line ∧ ∀ c ∈ line, c ≠ '\n' := by
      intro n hn
      have hlt := hcreateIdx n hn
      have himg : host.images[n]? = some ((host.images[n]).1, (host.images[n]).2) :=
        List.getElem?_eq_getElem hlt
      obtain ⟨pixels, hpix⟩ := hread (ImageDir ++ ['/'] ++ (host.images[n]).1)
      obtain ⟨status, result, himpl, hsize⟩ := hcreate
        ⟨(host.images[n]).2.width, (host.images[n]).2.height, (host.images[n]).2.ppi, pixels,
          (host.images[n]).2.imp, (host.images[n]).2.frct, (host.images[n]).2.frgp⟩
      have hlen : (createTemplate status result).length ≤ 2 ^ 63 - 1 := by
        unfold createTemplate
        split_ifs
        · exact hsize
        · exact Nat.zero_le _
      refine ⟨createLogLine (host.images[n]).1 (host.elapsed n) status result, ?_,
        createLogLine_no_newline _ _ _ _ (hnames _ (List.getElem_mem hlt))⟩
      dsimp only
      rw [create_eq host impl n _ _ pixels himg hpix, himpl]
      dsimp only
      rw [hwrite _ _ hlen]
    obtain ⟨records, hrec, hplain⟩ := exists_records _ _ createPartition hall
    have hlen : records.length = createPartition.length := by
      have := congrArg List.length hrec
      rw [List.length_map, List.length_map] at this
      exact this.symm
    have hrun := runCreateLoop_append host impl hlog createPartition 1 records [] hrec
    rw [List.append_nil] at hrun
    have hlogeq : (runCreate host impl createPartition).log =
        (createHeader :: records).flatMap (fun line => line ++ ['\n']) := by
      rw [runCreate_eq host impl createPartition hdir hopen hlog, hrun]
      simp [runCreateLoop]
    refine ⟨records, hrec, hplain, ?_, hlogeq, ?_⟩
    · rw [runCreate_eq host impl createPartition hdir hopen hlog, hrun]
      rfl
    · rw [hlogeq, count_newline_lines, List.length_cons, hlen, Nat.add_comm]
      intro line hline
      rcases List.mem_cons.mp hline with rfl | hline
      · exact createHeader_no_newline
      · exact hplain line hline
  · have hall : ∀ n ∈ comparePartition, ∃ line,
        (fun n => compare host impl n) n = .ok line ∧ ∀ c ∈ line, c ≠ '\n' := by
      intro n hn
      have hlt := hcompareIdx n hn
      have hpair : host.pairs[n]? = some ((host.pairs[n]).1, (host.pairs[n]).2) :=
        List.getElem?_eq_getElem hlt
      obtain ⟨probe, hp⟩ := hread (TemplateDir ++ ['/'] ++ (host.pairs[n]).1 ++ TemplateSuffix)
      obtain ⟨reference, hr⟩ :=
        hread (TemplateDir ++ ['/'] ++ (host.pairs[n]).2 ++ TemplateSuffix)
      obtain ⟨rv, himpl⟩ := hcompare probe reference
      have hpl := hpairs _ (List.getElem_mem hlt)
      refine ⟨compareLogLine (host.pairs[n]).1 (host.pairs[n]).2 (host.elapsed n) rv.1 rv.2, ?_,
        compareLogLine_no_newline _ _ _ _ _ hpl.1 hpl.2⟩
      dsimp only
      rw [compare_eq host impl n _ _ probe reference hpair hp hr, himpl]
    obtain ⟨records, hrec, hplain⟩ := exists_records _ _ comparePartition hall
    have hlen : records.length = comparePartition.length := by
      have := congrArg List.length hrec
      rw [List.length_map, List.length_map] at this
      exact this.symm
    have hrun := runCompareLoop_append host impl hlog comparePartition 1 records [] hrec
    rw [List.append_nil] at hrun
    have hlogeq : (runCompare host impl comparePartition).log =
        (compareHeader :: records).flatMap (fun line => line ++ ['\n']) := by
      rw [runCompare_eq host impl comparePartition hopen hlog, hrun]
      simp [runCompareLoop]
    refine ⟨records, hrec, hplain, ?_, hlogeq, ?_⟩
    · rw [runCompare_eq host impl comparePartition hopen hlog, hrun]
      rfl
    · rw [hlogeq, count_newline_lines, List.length_cons, hlen, Nat.add_comm]
      intro line hline
      rcases List.mem_cons.mp hline with rfl | hline
      · exact compareHeader_no_newline
      · exact hplain line hline

theorem workers_log_one_record_per_index_witness :
    (∃ records : List (List Char),
        [2, 0].map (fun n => (create quietHost quietImplementation n).result) =
          records.map Except.ok ∧
        (∀ r ∈ records, ∀ c ∈ r, c ≠ '\n') ∧
        (runCreate quietHost quietImplementation [2, 0]).outcome = .ok () ∧
        (runCreate quietHost quietImplementation [2, 0]).log =
          (createHeader :: records).flatMap (fun line => line ++ ['\n']) ∧
        (runCreate quietHost quietImplementation [2, 0]).log.count '\n' = 1 + [2, 0].length) ∧
      (∃ records : List (List Char),
        [1, 3, 5].map (fun n => compare quietHost quietImplementation n) =
          records.map Except.ok ∧
        (∀ r ∈ records, ∀ c ∈ r, c ≠ '\n') ∧
        (runCompare quietHost quietImplementation [1, 3, 5]).outcome = .ok () ∧
        (runCompare quietHost quietImplementation [1, 3, 5]).log =
          (compareHeader :: records).flatMap (fun line => line ++ ['\n']) ∧
        (runCompare quietHost quietImplementation [1, 3, 5]).log.count '\n' =
          1 + [1, 3, 5].length) :=
  workers_log_one_record_per_index quietHost quietImplementation [2, 0] [1, 3, 5]
    (Or.inl rfl) rfl (fun _ => rfl) (by decide) (by decide) (by decide) (by decide)
    (fun _ => ⟨[0, 1, 2, 3], rfl⟩)
    (fun data path h => by simp [writeFile, quietHost]; omega)
    (fun _ => ⟨⟨.Supported, []⟩, ⟨.Success, [1, 2, 3], []⟩, rfl, by decide⟩)
    (fun _ _ => ⟨_, rfl⟩)

/-- C17: when the call of the implementation throws at the k-th index of the
partition (after `done`, of length k, whose calls returned the records
`records`), `runCreate` and `runCompare` end with a runtime error and the log
holds the header line followed by the k lines of `records`, in order, and
nothing for the failing index or the indices after it. -/
theorem worker_log_keeps_records_before_throw {σ : Type} (host : Host σ) (impl : Interface)
    (done rest : List Nat) (n : Nat) (records : List (List Char))
    (hopen : host.logOpens = true) (hlog : ∀ k, host.logAccepts k = true) :
    (∀ name md pixels thrown,
        (host.templateDirErrno = none ∨ host.templateDirErrno = some EEXIST) →
        done.map (fun m => (create host impl m).result) = records.map Except.ok →
        host.images[n]? = some (name, md) →
        readFile host (ImageDir ++ ['/'] ++ name) = .ok pixels →
        impl.createProprietaryTemplate
          ⟨md.width, md.height, md.ppi, pixels, md.imp, md.frct, md.frgp⟩ = .error thrown →
        (∃ what, (runCreate host impl (done ++ n :: rest)).outcome =
          .error (.runtimeError what)) ∧
        (runCreate host impl (done ++ n :: rest)).log =
          (createHeader :: records).flatMap (fun line => line ++ ['\n']) ∧
        records.length = done.length) ∧
      (∀ probeName referenceName probe reference thrown,
        done.map (fun m => compare host impl m) = records.map Except.ok →
        host.pairs[n]? = some (probeName, referenceName) →
        readFile host (TemplateDir ++ ['/'] ++ probeName ++ TemplateSuffix) = .ok probe →
        readFile host (TemplateDir ++ ['/'] ++ referenceName ++ TemplateSuffix) =
          .ok reference →
        impl.compareProprietaryTemplates probe reference = .error thrown →
        (∃ what, (runCompare host impl (done ++ n :: rest)).outcome =
          .error (.runtimeError what)) ∧
        (runCompare host impl (done ++ n :: rest)).log =
          (compareHeader :: records).flatMap (fun line => line ++ ['\n']) ∧
        records.length = done.length) := by
  constructor
  · intro name md pixels thrown hdir hdone himg hread hthrow
    have hlen : records.length = done.length := by
      have := congrArg List.length hdone
      rw [List.length_map, List.length_map] at this
      exact this.symm
    have hfail : ∃ what, create host impl n = ⟨[], .error (.runtimeError what)⟩ := by
      rw [create_eq host impl n name md pixels himg hread, hthrow]
      cases thrown with
      | exception what => exact ⟨_, rfl⟩
      | unknown => exact ⟨_, rfl⟩
    obtain ⟨what, hwhat⟩ := hfail
    have hstep : ∀ k, runCreateLoop host impl (n :: rest) k =
        ⟨[], [], .error (.runtimeError what)⟩ := by
      intro k
      rw [runCreateLoop, hwhat]
    rw [runCreate_eq host impl _ hdir hopen hlog,
      runCreateLoop_append host impl hlog done 1 records (n :: rest) hdone, hstep]
    refine ⟨⟨what, rfl⟩, ?_, hlen⟩
    simp
  · intro probeName referenceName probe reference thrown hdone hpair hp hr hthrow
    have hlen : records.length = done.length := by
      have := congrArg List.length hdone
      rw [List.length_map, List.length_map] at this
      exact this.symm
    have hfail : ∃ what, compare host impl n = .error (.runtimeError what) := by
      rw [compare_eq host impl n probeName referenceName probe reference hpair hp hr, hthrow]
      cases thrown with
      | exception what => exact ⟨_, rfl⟩
      | unknown => exact ⟨_, rfl⟩
    obtain ⟨what, hwhat⟩ := hfail
    have hstep : ∀ k, runCompareLoop host impl (n :: rest) k =
        ⟨[], [], .error (.runtimeError what)⟩ := by
      intro k
      rw [runCompareLoop, hwhat]
    rw [runCompare_eq host impl _ hopen hlog,
      runCompareLoop_append host impl hlog done 1 records (n :: rest) hdone, hstep]
    refine ⟨⟨what, rfl⟩, ?_, hlen⟩
    simp

theorem worker_log_keeps_records_before_throw_witness :
    ((∃ what, (runCreate patchyHost pickyImplementation ([0, 1] ++ 2 :: [3])).outcome =
          .error (.runtimeError what)) ∧
        (runCreate patchyHost pickyImplementation ([0, 1] ++ 2 :: [3])).log =
          (createHeader ::
            ["\"img0\",1000,0,\"\",0,\"\",3".toList, "\"img1\",1001,0,\"\",0,\"\",3".toList]).flatMap
              (fun line => line ++ ['\n']) ∧
        ["\"img0\",1000,0,\"\",0,\"\",3".toList, "\"img1\",1001,0,\"\",0,\"\",3".toList].length =
          [0, 1].length) ∧
      ((∃ what, (runCompare patchyHost pickyImplementation ([0, 1] ++ 2 :: [3])).outcome =
          .error (.runtimeError what)) ∧
        (runCompare patchyHost pickyImplementation ([0, 1] ++ 2 :: [3])).log =
          (compareHeader ::
            ["\"img0\",\"img5\",1000,0,\"\",0.500000".toList,
              "\"img1\",\"img4\",1001,0,\"\",0.500000".toList]).flatMap
              (fun line => line ++ ['\n']) ∧
        ["\"img0\",\"img5\",1000,0,\"\",0.500000".toList,
          "\"img1\",\"img4\",1001,0,\"\",0.500000".toList].length = [0, 1].length) :=
  ⟨(worker_log_keeps_records_before_throw patchyHost pickyImplementation [0, 1] [3] 2
      ["\"img0\",1000,0,\"\",0,\"\",3".toList, "\"img1\",1001,0,\"\",0,\"\",3".toList]
      rfl (fun _ => rfl)).1 (['i', 'm', 'g'] ++ ts 2) ⟨256, 360, 500, 0, 0, 0⟩ []
      (.exception ['e', 'm', 'p', 't', 'y']) (Or.inl rfl) rfl rfl rfl rfl,
    (worker_log_keeps_records_before_throw patchyHost pickyImplementation [0, 1] [3] 2
      ["\"img0\",\"img5\",1000,0,\"\",0.500000".toList,
        "\"img1\",\"img4\",1001,0,\"\",0.500000".toList]
      rfl (fun _ => rfl)).2 (['i', 'm', 'g'] ++ ts 2) (['i', 'm', 'g'] ++ ts 3) [] [0, 1, 2, 3]
      .unknown rfl rfl rfl rfl rfl⟩

/-! ## Properties of the parent process -/

/-- When `::wait` fails with `ECHILD` at every call and the count of
terminated children differs from `numChildren`, the loops of `waitForExit` do
not end. -/
theorem waitForExitFrom_spins (wait : Nat → WaitResult) (numChildren exitedChildren : Nat)
    (hwait : ∀ k, wait k = .failed ECHILD) (hne : exitedChildren ≠ numChildren) :
    ∀ fuel k, waitForExitFrom wait numChildren fuel k exitedChildren = none := by
  intro fuel
  induction fuel with
  | zero => intro k; rfl
  | succ fuel ih =>
    intro k
    rw [waitForExitFrom, hwait k]
    dsimp only
    rw [if_pos rfl, if_pos hne]
    exact ih (k + 1)

/-- The loops of `waitForExit` do not look at the status `::wait` stores. -/
theorem waitForExitFrom_forget (wait₁ wait₂ : Nat → WaitResult) (numChildren : Nat)
    (hsame : ∀ k, (wait₁ k).forget = (wait₂ k).forget) :
    ∀ fuel k exitedChildren,
      waitForExitFrom wait₁ numChildren fuel k exitedChildren =
        waitForExitFrom wait₂ numChildren fuel k exitedChildren := by
  intro fuel
  induction fuel with
  | zero => intro k e; rfl
  | succ fuel ih =>
    intro k e
    have hk := hsame k
    rw [waitForExitFrom, waitForExitFrom]
    cases h₁ : wait₁ k <;> cases h₂ : wait₂ k <;> rw [h₁, h₂] at hk <;>
      simp only [WaitResult.forget, WaitResult.exited.injEq, WaitResult.failed.injEq,
        reduceCtorEq] at hk
    · exact ih _ _
    · exact ih _ _
    · subst hk
      dsimp only
      rw [ih (k + 1) e]

theorem waitForExit_forget (wait₁ wait₂ : Nat → WaitResult) (numChildren fuel : Nat)
    (hsame : ∀ k, (wait₁ k).forget = (wait₂ k).forget) :
    waitForExit wait₁ numChildren fuel = waitForExit wait₂ numChildren fuel := by
  unfold waitForExit
  rw [waitForExitFrom_forget wait₁ wait₂ numChildren hsame]

theorem forkLoop_withWait {σ : Type} (host : Host σ) (wait : Nat → WaitResult)
    (operation : Operation) :
    ∀ sets k, forkLoop (host.withWait wait) operation sets k =
      forkLoop host operation sets k := by
  intro sets
  induction sets with
  | nil => intro k; rfl
  | cons set rest ih =>
    intro k
    rw [forkLoop, forkLoop, ih (k + 1)]
    rfl

/-- With more than one process, `testOperation` does the same whatever the
statuses `::wait` stores. -/
theorem testOperation_withWait {σ : Type} (host : Host σ) (wait : Nat → WaitResult)
    (args : Arguments) (hmulti : 1 < args.numProcs)
    (hsame : ∀ k, (wait k).forget = (host.wait k).forget) :
    testOperation (host.withWait wait) args = testOperation host args := by
  have hw : waitForExit (host.withWait wait).wait args.numProcs (host.withWait wait).patience =
      waitForExit host.wait args.numProcs host.patience :=
    waitForExit_forget _ _ _ _ hsame
  unfold testOperation
  simp only [if_neg (Nat.not_le.mpr hmulti), forkLoop_withWait, hw]
  rfl

/-- C18 fails in the code: with two children to reap and `::wait` failing with
`ECHILD` from its first call on (no child processes remain),
`waitForExit` does not return, however many calls of `::wait` it is given;
it does return normally at `ECHILD` when two terminations came before. -/
theorem waitForExit_does_not_return_on_ECHILD :
    (∀ fuel, waitForExit (fun _ => WaitResult.failed ECHILD) 2 fuel = none) ∧
      waitForExit (fun k => if k < 2 then .exited (100 + k) 0 else .failed ECHILD) 2 3 =
        some (.ok ()) := by
  refine ⟨?_, rfl⟩
  intro fuel
  unfold waitForExit
  rw [if_pos (by decide)]
  exact waitForExitFrom_spins _ 2 0 (fun _ => rfl) (by decide) fuel 0

/-- C19 as stated fails: both workers of a run terminate with
`exit(EXIT_FAILURE)`, yet `testOperation` returns normally and `main` returns
`EXIT_SUCCESS`. -/
theorem main_succeeds_with_failed_workers :
    failedWorkerHost.wait 0 = .exited 100 256 ∧ failedWorkerHost.wait 1 = .exited 101 256 ∧
      (testOperation failedWorkerHost ⟨42, .Create, 2⟩).outcome = some (.ok ()) ∧
      main failedWorkerHost (.ok ⟨42, .Create, 2⟩) = some 0 := by
  refine ⟨rfl, rfl, ?_, ?_⟩
  · rfl
  · rfl

/-- C19 (amended): the outcome of a run with more than one process does not
depend on the exit statuses of the workers: when `::wait` returns the same
process ids and errors, `testOperation` does the same and `main` returns the
same value, whatever statuses the workers report.  For a Create or Compare
run, `main` returns `EXIT_SUCCESS` exactly when `testOperation` returns
normally, and `EXIT_FAILURE` when `testOperation` throws or the arguments do
not parse. -/
theorem worker_status_not_reflected {σ : Type} (host : Host σ) (wait : Nat → WaitResult)
    (args : Arguments) (hmulti : 1 < args.numProcs)
    (hop : args.operation = .Create ∨ args.operation = .Compare)
    (hapi : host.apiVersion = (1, 0, 0))
    (hsame : ∀ k, (wait k).forget = (host.wait k).forget) :
    testOperation (host.withWait wait) args = testOperation host args ∧
      main (host.withWait wait) (.ok args) = main host (.ok args) ∧
      (main host (.ok args) = some EXIT_SUCCESS ↔
        (testOperation host args).outcome = some (.ok ())) ∧
      (∀ e, e ≠ Fault.undefined → (testOperation host args).outcome = some (.error e) →
        main host (.ok args) = some EXIT_FAILURE) ∧
      (∀ e, main host (.error e) = some EXIT_FAILURE) := by
  have key := testOperation_withWait host wait args hmulti hsame
  have hmain : ∀ h : Host σ, h.apiVersion = (1, 0, 0) →
      main h (.ok args) =
        match (testOperation h args).outcome with
        | none => none
        | some (.ok _) => some EXIT_SUCCESS
        | some (.error .undefined) => none
        | some (.error _) => some EXIT_FAILURE := by
    intro h hv
    unfold main
    rw [if_neg (by rw [hv]; simp)]
    rcases hop with hop | hop <;> simp only [hop]
  refine ⟨key, ?_, ?_, ?_, ?_⟩
  · rw [hmain host hapi, hmain (host.withWait wait) hapi, key]
  · rw [hmain host hapi]
    cases h : (testOperation host args).outcome with
    | none => simp
    | some r =>
      cases r with
      | ok u => simp
      | error e => cases e <;> simp [EXIT_SUCCESS, EXIT_FAILURE]
  · intro e he h
    rw [hmain host hapi, h]
    cases e with
    | undefined => exact absurd rfl he
    | _ => rfl
  · intro e
    unfold main
    rw [if_neg (by rw [hapi]; simp)]

theorem worker_status_not_reflected_witness :
    testOperation (quietHost.withWait failedWorkerHost.wait) ⟨42, .Create, 2⟩ =
        testOperation quietHost ⟨42, .Create, 2⟩ ∧
      main (quietHost.withWait failedWorkerHost.wait) (.ok ⟨42, .Create, 2⟩) =
        main quietHost (.ok ⟨42, .Create, 2⟩) ∧
      (main quietHost (.ok ⟨42, .Create, 2⟩) = some EXIT_SUCCESS ↔
        (testOperation quietHost ⟨42, .Create, 2⟩).outcome = some (.ok ())) ∧
      (∀ e, e ≠ Fault.undefined →
        (testOperation quietHost ⟨42, .Create, 2⟩).outcome = some (.error e) →
        main quietHost (.ok ⟨42, .Create, 2⟩) = some EXIT_FAILURE) ∧
      (∀ e, main quietHost (.error e) = some EXIT_FAILURE) :=
  worker_status_not_reflected quietHost failedWorkerHost.wait ⟨42, .Create, 2⟩
    (by decide) (Or.inl rfl) rfl
    (fun k => by
      by_cases hk : k < 2 <;>
        simp [failedWorkerHost, quietHost, Host.withWait, WaitResult.forget, hk])

/-- C20 fails in the code: for a corpus of `2 ^ 24 + 1` items, any seed and
two workers, the permutation is returned and its split returns, yet one index
of the corpus is in none of the partitions. -/
theorem partitions_miss_index_past_float_precision {σ : Type} (engine : Nat → σ)
    (draw : Nat → σ → Nat × σ) (seed : Nat) :
    ∃ indicies sets, randomizeIndicies engine draw 16777217 seed = .ok indicies ∧
      splitSet indicies 2 = .ok sets ∧
      (sets.map List.length).sum = 16777216 ∧
      ∃ index, index < 16777217 ∧ index ∉ sets.flatten := by
  have hmax : INT_MAX = 2147483647 := by decide
  obtain ⟨indicies, hind, hperm⟩ :=
    randomizeIndicies_perm_range engine draw 16777217 seed (by rw [hmax]; norm_num)
  have hlen := randomizeIndicies_length engine draw 16777217 seed indicies hind
  obtain ⟨sets, hok, hflat⟩ := splitSet_two_pow_24_succ _ hlen
  have hnodup : indicies.Nodup := hperm.nodup_iff.mpr (List.nodup_range _)
  have hlt : 16777216 < indicies.length := by
    rw [hlen]
    norm_num
  refine ⟨indicies, sets, hind, hok, ?_, indicies[16777216], ?_, ?_⟩
  · rw [← List.length_flatten, hflat, List.length_take, hlen]
    norm_num
  · exact List.mem_range.mp (hperm.subset (List.getElem_mem hlt))
  · rw [hflat]
    intro hmem
    obtain ⟨i, hi, heq⟩ := List.getElem_of_mem hmem
    rw [List.length_take] at hi
    rw [List.getElem_take] at heq
    have := (List.Nodup.getElem_inj_iff hnodup).mp heq
    omega

/-! ## Properties of the sample implementation -/

/-- C21: for every probe and reference template of which at least one is
empty, `compareProprietaryTemplates` of the sample implementation returns the
result `Failure`, the message `Empty template` and the score 0, whatever the
matcher of the library would do; and when a driver over an implementation
that compares this way returns a record for a pair of which one template file
is empty, the record ends in `NA`. -/
theorem sample_compare_tolerates_empty_templates {σ : Type} (host : Host σ) (impl : Interface)
    (match_templates : Bytes → Bytes → MatchResult) (pairsIndex : Nat)
    (probeName referenceName line : List Char)
    (himpl : impl.compareProprietaryTemplates =
      MINEXImplementation.compareProprietaryTemplates match_templates)
    (hpair : host.pairs[pairsIndex]? = some (probeName, referenceName))
    (hempty : readFile host (TemplateDir ++ ['/'] ++ probeName ++ TemplateSuffix) = .ok [] ∨
      readFile host (TemplateDir ++ ['/'] ++ referenceName ++ TemplateSuffix) = .ok [])
    (hline : compare host impl pairsIndex = .ok line) :
    (∀ (matcher : Bytes → Bytes → MatchResult) (probe reference : Bytes),
        probe = [] ∨ reference = [] →
        MINEXImplementation.compareProprietaryTemplates matcher probe reference =
          .ok (⟨.Failure, "Empty template".toList⟩, .finite false 0 0)) ∧
      trailingField line = NA := by
  have hfirst : ∀ (matcher : Bytes → Bytes → MatchResult) (probe reference : Bytes),
      probe = [] ∨ reference = [] →
      MINEXImplementation.compareProprietaryTemplates matcher probe reference =
        .ok (⟨.Failure, "Empty template".toList⟩, .finite false 0 0) := by
    intro matcher probe reference h
    unfold MINEXImplementation.compareProprietaryTemplates
    rw [if_pos]
    · rfl
    · rcases h with h | h
      · exact Or.inl (by rw [h]; rfl)
      · exact Or.inr (by rw [h]; rfl)
  refine ⟨hfirst, ?_⟩
  obtain ⟨p, r, probe, reference, status, score, hp, hrp, hrr, hcall, hl⟩ :=
    compare_ok host impl pairsIndex line hline
  rw [hpair] at hp
  injection hp with hp
  injection hp with hp1 hp2
  subst hp1 hp2
  have hone : probe = [] ∨ reference = [] := by
    rcases hempty with h | h
    · rw [hrp] at h
      injection h with h
      exact Or.inl h
    · rw [hrr] at h
      injection h with h
      exact Or.inr h
  rw [himpl, hfirst match_templates probe reference hone] at hcall
  injection hcall with hcall
  injection hcall with hs hsc
  rw [hl, trailingField_compareLogLine, if_neg]
  rw [← hs]
  decide

theorem sample_compare_tolerates_empty_templates_witness :
    (∀ (matcher : Bytes → Bytes → MatchResult) (probe reference : Bytes),
        probe = [] ∨ reference = [] →
        MINEXImplementation.compareProprietaryTemplates matcher probe reference =
          .ok (⟨.Failure, "Empty template".toList⟩, .finite false 0 0)) ∧
      trailingField "\"img2\",\"img3\",1002,1,\"Empty template\",NA".toList = NA :=
  sample_compare_tolerates_empty_templates patchyHost sampleImplementation quietMatcher 2
    (['i', 'm', 'g'] ++ ts 2) (['i', 'm', 'g'] ++ ts 3)
    "\"img2\",\"img3\",1002,1,\"Empty template\",NA".toList rfl rfl (Or.inl rfl) rfl

/-! ## Properties of the log file names -/

theorem digitChar_value (d : Nat) (h : d < 10) : (Nat.digitChar d).toNat - 48 = d := by
  interval_cases d <;> rfl

/-- Reading the digits `Nat.toDigitsCore` puts before `ds` gives `n`. -/
theorem toDigitsCore_value : ∀ fuel n ds, n < fuel →
    (Nat.toDigitsCore 10 fuel n ds).foldl (fun value c => 10 * value + (c.toNat - 48)) 0 =
      ds.foldl (fun value c => 10 * value + (c.toNat - 48)) n := by
  intro fuel
  induction fuel with
  | zero => intro n ds h; omega
  | succ fuel ih =>
    intro n ds h
    rw [Nat.toDigitsCore]
    split_ifs with h0
    · rw [List.foldl_cons, digitChar_value _ (Nat.mod_lt _ (by decide))]
      congr 1
      omega
    · rw [ih (n / 10) _ (by omega), List.foldl_cons,
        digitChar_value _ (Nat.mod_lt _ (by decide))]
      congr 1
      omega

theorem decimalValue_ts (n : Nat) : decimalValue (ts n) = n := by
  unfold decimalValue ts Nat.toDigits
  rw [toDigitsCore_value (n + 1) n [] (by omega)]
  rfl

theorem ts_injective (p q : Nat) (h : ts p = ts q) : p = q := by
  have := congrArg decimalValue h
  rwa [decimalValue_ts, decimalValue_ts] at this

/-- C22: the log file names are functions of the process identifier (through
`createLogPath` for a creation and `compareLogPath` for a comparison); two
process identifiers give the same name only when they are equal, and the name
of a creation log is never that of a comparison log. -/
theorem log_paths_do_not_collide (p q : Nat) :
    (createLogPath p = createLogPath q ↔ p = q) ∧
      (compareLogPath p = compareLogPath q ↔ p = q) ∧
      createLogPath p ≠ compareLogPath q := by
  refine ⟨⟨fun h => ?_, fun h => by rw [h]⟩, ⟨fun h => ?_, fun h => by rw [h]⟩, fun h => ?_⟩
  · unfold createLogPath at h
    exact ts_injective p q (List.append_cancel_left (List.append_cancel_right h))
  · unfold compareLogPath at h
    exact ts_injective p q (List.append_cancel_left (List.append_cancel_right h))
  · have h9 := congrArg (List.take 9) h
    have e1 : (createLogPath p).take 9 = "output/cr".toList := rfl
    have e2 : (compareLogPath q).take 9 = "output/co".toList := rfl
    rw [e1, e2] at h9
    exact absurd h9 (by decide)

/-! ## Further properties of `sanitizeMessage` -/

theorem allowed_blank (c : Char) : allowed (blank c) = true := by
  unfold blank
  split_ifs with h
  · exact h
  · decide

theorem allowed_escaped (c : Char) (h : allowed c = true) : ∀ x ∈ escaped c, allowed x = true := by
  unfold escaped
  split_ifs with hq
  · intro x hx
    simp only [List.mem_cons, List.mem_singleton, List.not_mem_nil, or_false] at hx
    rcases hx with rfl | rfl <;> decide
  · intro x hx
    rw [List.mem_singleton.mp hx]
    exact h

theorem length_flatMap_escaped (s : List Char) :
    (s.flatMap escaped).length = s.length + s.count '"' := by
  induction s with
  | nil => rfl
  | cons c t ih =>
    rw [List.flatMap_cons, List.length_append, ih, List.length_cons, List.count_cons]
    unfold escaped
    by_cases hq : c = '"'
    · subst hq
      simp
      omega
    · rw [if_neg hq]
      have : (c == '"') = false := by simpa using hq
      simp [this]
      omega

theorem count_quote_map_blank (m : List Char) : (m.map blank).count '"' = m.count '"' := by
  induction m with
  | nil => rfl
  | cons c t ih =>
    rw [List.map_cons, List.count_cons, List.count_cons, ih]
    congr 1
    unfold blank
    by_cases ha : allowed c = true
    · rw [if_pos ha]
    · rw [if_neg ha]
      have hc : c ≠ '"' := by
        rintro rfl
        exact ha (by decide)
      have h1 : (' ' == '"') = false := by decide
      have h2 : (c == '"') = false := by simpa using hc
      rw [h1, h2]

/-- C29: for every message and every combination of the two flags, every
character of the result of `sanitizeMessage` is graphic or a space, and the
length of the result is that of the message, plus the number of double quotes
of the message when `escapeQuotes` is set, plus 2 when `wrapInQuotes` is
set. -/
theorem sanitizeMessage_graphic_and_length (m : List Char) (escapeQuotes wrapInQuotes : Bool) :
    (∀ c ∈ sanitizeMessage m escapeQuotes wrapInQuotes, isgraph c = true ∨ c = ' ') ∧
      (sanitizeMessage m escapeQuotes wrapInQuotes).length =
        m.length + (if escapeQuotes then m.count '"' else 0) +
          (if wrapInQuotes then 2 else 0) := by
  have hallowed : ∀ c, allowed c = true → isgraph c = true ∨ c = ' ' := by
    intro c hc
    unfold allowed at hc
    simpa using hc
  have hmap : ∀ c ∈ m.map blank, allowed c = true := by
    intro c hc
    obtain ⟨x, _, rfl⟩ := List.mem_map.mp hc
    exact allowed_blank x
  have hflat : ∀ c ∈ (m.map blank).flatMap escaped, allowed c = true := by
    intro c hc
    obtain ⟨x, hx, hcx⟩ := List.mem_flatMap.mp hc
    exact allowed_escaped x (hmap x hx) c hcx
  rw [sanitizeMessage_eq]
  constructor
  · intro c hc
    apply hallowed
    cases escapeQuotes <;> cases wrapInQuotes <;>
      simp only [if_true, if_false, Bool.false_eq_true, List.nil_append, List.append_nil,
        List.mem_append, List.mem_singleton] at hc
    · exact hmap c hc
    · rcases hc with (rfl | hc) | rfl
      · decide
      · exact hmap c hc
      · decide
    · exact hflat c hc
    · rcases hc with (rfl | hc) | rfl
      · decide
      · exact hflat c hc
      · decide
  · cases escapeQuotes <;> cases wrapInQuotes <;>
      simp only [if_true, if_false, Bool.false_eq_true, List.nil_append, List.append_nil,
        List.length_append, List.length_map, List.length_singleton, length_flatMap_escaped,
        count_quote_map_blank] <;> omega

/-! ## Properties of `parseArguments` -/

/-- The round of `parseArguments` for the option `-f` whose argument `stoul`
reads as `n`. -/
theorem parseOption_f (stoul : List Char → Option Nat) (threadCount : Nat) (st : Parsing)
    (optarg : List Char) (n : Nat) (hn : stoul optarg = some n) :
    parseOption stoul threadCount st 'f' optarg =
      if n > UINT8_MAX then
        .error (.invalidArgument ("Number of processes (-f): an error occurred when parsing " ++
          String.mk (['"'] ++ optarg ++ ['"'])))
      else if (threadCount = 0 ∧ n > 4) ∨ n > threadCount then
        .error (.invalidArgument ("Number of processes (-f): Asked to spawn " ++
          String.mk (ts n) ++ " processes, but refusing"))
      else .ok { st with args := { st.args with numProcs := n } } := by
  unfold parseOption
  rw [if_neg (by decide), if_neg (by decide), if_pos rfl, hn]

/-- C30: for an option `-f` whose argument reads as `n`, `parseArguments`
accepts the value exactly when `n ≤ min(255, threadCount)` and rejects it with
an invalid-argument error otherwise; with a hardware concurrency of 0 every
`n` from 1 to 255 is rejected; the clause `threadCount == 0 && n > 4` never
changes the test; and the command line `-e -z dir -f n` is parsed to a Create
run with `n` processes exactly when `n ≤ min(255, threadCount)`. -/
theorem numProcs_accepted_iff (stoul : List Char → Option Nat) (threadCount : Nat)
    (st : Parsing) (optarg : List Char) (n : Nat) (hn : stoul optarg = some n) :
    (parseOption stoul threadCount st 'f' optarg =
          .ok { st with args := { st.args with numProcs := n } } ↔
        n ≤ min 255 threadCount) ∧
      (¬ n ≤ min 255 threadCount →
        ∃ what, parseOption stoul threadCount st 'f' optarg = .error (.invalidArgument what)) ∧
      (threadCount = 0 → 1 ≤ n → n ≤ 255 →
        ∃ what, parseOption stoul threadCount st 'f' optarg = .error (.invalidArgument what)) ∧
      (((threadCount = 0 ∧ n > 4) ∨ n > threadCount) ↔ n > threadCount) ∧
      (∀ (seed : Nat) (dir : List Char), dir ≠ [] →
        (parseArguments stoul threadCount seed [('e', []), ('z', dir), ('f', optarg)] =
            .ok ⟨seed, .Create, n⟩ ↔
          n ≤ min 255 threadCount)) := by
  have hstep := parseOption_f stoul threadCount
  have hrej : ¬ n ≤ min 255 threadCount →
      ∃ what, parseOption stoul threadCount st 'f' optarg =
        .error (.invalidArgument what) := by
    intro h
    rw [hstep st optarg n hn]
    by_cases h8 : n > UINT8_MAX
    · rw [if_pos h8]
      exact ⟨_, rfl⟩
    · rw [if_neg h8, if_pos]
      · exact ⟨_, rfl⟩
      · right
        unfold UINT8_MAX at h8
        omega
  refine ⟨⟨fun h => ?_, fun h => ?_⟩, hrej, ?_, ?_, ?_⟩
  · by_contra hc
    obtain ⟨what, hw⟩ := hrej hc
    rw [hw] at h
    cases h
  · rw [hstep st optarg n hn, if_neg (by unfold UINT8_MAX; omega), if_neg (by omega)]
  · intro h0 h1 _
    exact hrej (by omega)
  · omega
  · intro seed dir hdir
    have hd : dir.isEmpty = false := by
      cases dir with
      | nil => exact absurd rfl hdir
      | cons c t => rfl
    unfold parseArguments
    simp only [parseLoop]
    have he : parseOption stoul threadCount ⟨⟨seed, .Create, 1⟩, false, []⟩ 'e' [] =
        .ok ⟨⟨seed, .Create, 1⟩, true, []⟩ := rfl
    have hz : parseOption stoul threadCount ⟨⟨seed, .Create, 1⟩, true, []⟩ 'z' dir =
        .ok ⟨⟨seed, .Create, 1⟩, true, dir⟩ := rfl
    rw [he]
    dsimp only
    rw [hz]
    dsimp only
    rw [hstep _ optarg n hn]
    by_cases h8 : n > UINT8_MAX
    · rw [if_pos h8]
      unfold UINT8_MAX at h8
      constructor
      · intro h
        cases h
      · intro h
        omega
    · rw [if_neg h8]
      unfold UINT8_MAX at h8
      by_cases ht : (threadCount = 0 ∧ n > 4) ∨ n > threadCount
      · rw [if_pos ht]
        constructor
        · intro h
          cases h
        · intro h
          omega
      · rw [if_neg ht]
        dsimp only
        simp only [hd, Bool.false_eq_true, false_and, if_false, if_true]
        constructor <;> intro _ <;> first | omega | trivial

theorem numProcs_accepted_iff_witness :
    (parseOption (fun s => some (decimalValue s)) 8 ⟨⟨42, .Create, 1⟩, false, []⟩ 'f' ['3'] =
          .ok { (⟨⟨42, .Create, 1⟩, false, []⟩ : Parsing) with
            args := { (⟨42, .Create, 1⟩ : Arguments) with numProcs := 3 } } ↔
        3 ≤ min 255 8) ∧
      (¬ 3 ≤ min 255 8 →
        ∃ what, parseOption (fun s => some (decimalValue s)) 8 ⟨⟨42, .Create, 1⟩, false, []⟩
          'f' ['3'] = .error (.invalidArgument what)) ∧
      (8 = 0 → 1 ≤ 3 → 3 ≤ 255 →
        ∃ what, parseOption (fun s => some (decimalValue s)) 8 ⟨⟨42, .Create, 1⟩, false, []⟩
          'f' ['3'] = .error (.invalidArgument what)) ∧
      (((8 = 0 ∧ 3 > 4) ∨ 3 > 8) ↔ 3 > 8) ∧
      (∀ (seed : Nat) (dir : List Char), dir ≠ [] →
        (parseArguments (fun s => some (decimalValue s)) 8 seed
            [('e', []), ('z', dir), ('f', ['3'])] = .ok ⟨seed, .Create, 3⟩ ↔
          3 ≤ min 255 8)) :=
  numProcs_accepted_iff (fun s => some (decimalValue s)) 8 ⟨⟨42, .Create, 1⟩, false, []⟩
    ['3'] 3 rfl

/-! ## Further properties of `testOperation` -/

/-- C26: when the output directory is there and the implementation is
loaded, a Create or Compare run with `numProcs ≤ 1` runs one worker inline
over the whole permutation `randomizeIndicies(containerSize, randomSeed)`, in
its order, ends as that worker ends, and forks no process and does not wait;
with `numProcs ≥ 2` no worker runs inline: every action is a `fork` or the
`waitForExit`, and when the split returns and no `fork` fails there is one
`fork` per partition, in order, followed by `waitForExit(numProcs)`.  When
`randomizeIndicies` leaves defined behaviour so does the run, with no action
before. -/
theorem testOperation_inline_or_forked {σ : Type} (host : Host σ) (impl : Interface)
    (hmkdir : host.mkdirErrno = none ∨ host.mkdirErrno = some EEXIST)
    (himpl : host.getImplementation = .ok impl) :
    (∀ randomSeed numProcs, numProcs ≤ 1 →
        (∀ indicies,
          randomizeIndicies host.engine host.draw host.imagesSize randomSeed = .ok indicies →
          testOperation host ⟨randomSeed, .Create, numProcs⟩ =
            ⟨[.runCreate indicies], some (runCreate host impl indicies).outcome⟩) ∧
        (∀ indicies,
          randomizeIndicies host.engine host.draw host.pairsSize randomSeed = .ok indicies →
          testOperation host ⟨randomSeed, .Compare, numProcs⟩ =
            ⟨[.runCompare indicies], some (runCompare host impl indicies).outcome⟩)) ∧
      (∀ args : Arguments, 2 ≤ args.numProcs →
        (∀ a ∈ (testOperation host args).actions,
          a.isFork = true ∨ a = .waitForExit args.numProcs) ∧
        ∀ indicies sets,
          randomizeIndicies host.engine host.draw
            (if args.operation = .Create then host.imagesSize else host.pairsSize)
            args.randomSeed = .ok indicies →
          splitSet indicies args.numProcs = .ok sets →
          (args.operation = .Create ∨ args.operation = .Compare) →
          (∀ k, host.forkFails k = false) →
          (testOperation host args).actions =
            sets.map (Action.fork args.operation) ++ [.waitForExit args.numProcs]) ∧
      (∀ (args : Arguments) (e : Fault),
        (args.operation = .Create ∨ args.operation = .Compare) →
        randomizeIndicies host.engine host.draw
          (if args.operation = .Create then host.imagesSize else host.pairsSize)
          args.randomSeed = .error e →
        testOperation host args = ⟨[], some (.error e)⟩) ∧
      (host.imagesSize ≤ INT_MAX → host.pairsSize ≤ INT_MAX → ∀ randomSeed,
        (∃ indicies,
          randomizeIndicies host.engine host.draw host.imagesSize randomSeed = .ok indicies ∧
            indicies.Perm (List.range host.imagesSize)) ∧
        ∃ indicies,
          randomizeIndicies host.engine host.draw host.pairsSize randomSeed = .ok indicies ∧
            indicies.Perm (List.range host.pairsSize)) := by
  have hmk : ¬ (host.mkdirErrno.isSome = true ∧ host.mkdirErrno ≠ some EEXIST) := by
    rcases hmkdir with h | h <;> rw [h] <;> simp
  have hbody : ∀ args : Arguments, (args.operation = .Create ∨ args.operation = .Compare) →
      testOperation host args =
        match randomizeIndicies host.engine host.draw
            (if args.operation = .Create then host.imagesSize else host.pairsSize)
            args.randomSeed with
        | .error e => ⟨[], some (.error e)⟩
        | .ok indicies =>
          if args.numProcs ≤ 1 then
            match args.operation with
            | .Create => ⟨[.runCreate indicies], some (runCreate host impl indicies).outcome⟩
            | .Compare =>
              ⟨[.runCompare indicies], some (runCompare host impl indicies).outcome⟩
            | _ =>
              ⟨[], some (.error
                (.runtimeError "Unsupported operation was sent to testOperation()"))⟩
          else
            match splitSet indicies args.numProcs with
            | .error e => ⟨[], some (.error e)⟩
            | .ok sets =>
              if (forkLoop host args.operation sets 0).2 then
                ⟨(forkLoop host args.operation sets 0).1 ++ [.waitForExit args.numProcs],
                  waitForExit host.wait args.numProcs host.patience⟩
              else
                ⟨(forkLoop host args.operation sets 0).1,
                  some (.error (.runtimeError "Error during fork()"))⟩ := by
    intro args hop
    unfold testOperation
    rw [if_neg (by rcases hop with h | h <;> rw [h] <;> simp), if_neg hmk, himpl]
  refine ⟨?_, ?_, ?_, ?_⟩
  · intro randomSeed numProcs h1
    constructor
    · intro indicies hind
      rw [hbody ⟨randomSeed, .Create, numProcs⟩ (Or.inl rfl)]
      dsimp only
      rw [if_pos rfl, hind]
      dsimp only
      rw [if_pos h1]
    · intro indicies hind
      rw [hbody ⟨randomSeed, .Compare, numProcs⟩ (Or.inr rfl)]
      dsimp only
      rw [if_neg (by decide), hind]
      dsimp only
      rw [if_pos h1]
  · intro args h2
    have hnot : ¬ args.numProcs ≤ 1 := by omega
    constructor
    · intro a ha
      by_cases hop : args.operation = .Create ∨ args.operation = .Compare
      · rw [hbody args hop] at ha
        cases hr : randomizeIndicies host.engine host.draw
            (if args.operation = .Create then host.imagesSize else host.pairsSize)
            args.randomSeed with
        | error e =>
          rw [hr] at ha
          cases ha
        | ok indicies =>
          rw [hr] at ha
          dsimp only at ha
          rw [if_neg hnot] at ha
          cases hs : splitSet indicies args.numProcs with
          | error e =>
            rw [hs] at ha
            cases ha
          | ok sets =>
            rw [hs] at ha
            dsimp only at ha
            by_cases hf : (forkLoop host args.operation sets 0).2 = true
            · rw [if_pos hf] at ha
              rcases List.mem_append.mp ha with hm | hm
              · exact Or.inl (forkLoop_all_fork host args.operation sets 0 a hm)
              · exact Or.inr (List.mem_singleton.mp hm)
            · rw [if_neg hf] at ha
              exact Or.inl (forkLoop_all_fork host args.operation sets 0 a ha)
      · have hno : args.operation ≠ .Create ∧ args.operation ≠ .Compare :=
          ⟨fun h => hop (Or.inl h), fun h => hop (Or.inr h)⟩
        unfold testOperation at ha
        rw [if_pos hno] at ha
        cases ha
    · intro indicies sets hind hs hop hfork
      have hall : ∀ (l : List (List Nat)) (k : Nat),
          forkLoop host args.operation l k = (l.map (Action.fork args.operation), true) := by
        intro l
        induction l with
        | nil => intro k; rfl
        | cons set rest ih =>
          intro k
          rw [forkLoop, if_neg (by rw [hfork k]; simp), ih (k + 1)]
          rfl
      rw [hbody args hop, hind]
      dsimp only
      rw [if_neg hnot, hs]
      dsimp only
      rw [hall sets 0]
      rfl
  · intro args e hop he
    rw [hbody args hop, he]
  · intro hi hp randomSeed
    exact ⟨randomizeIndicies_perm_range host.engine host.draw _ randomSeed hi,
      randomizeIndicies_perm_range host.engine host.draw _ randomSeed hp⟩

theorem testOperation_inline_or_forked_witness :
    (testOperation quietHost ⟨42, .Create, 1⟩ =
          ⟨[.runCreate [2, 1, 0, 5, 4, 3]],
            some (runCreate quietHost quietImplementation [2, 1, 0, 5, 4, 3]).outcome⟩ ∧
        testOperation quietHost ⟨42, .Compare, 1⟩ =
          ⟨[.runCompare [2, 1, 0, 5, 4, 3]],
            some (runCompare quietHost quietImplementation [2, 1, 0, 5, 4, 3]).outcome⟩) ∧
      ((∀ a ∈ (testOperation quietHost ⟨42, .Create, 2⟩).actions,
          a.isFork = true ∨ a = .waitForExit (Arguments.mk 42 .Create 2).numProcs) ∧
        (testOperation quietHost ⟨42, .Create, 2⟩).actions =
          [[2, 1, 0], [5, 4, 3]].map (Action.fork (Arguments.mk 42 .Create 2).operation) ++
            [.waitForExit (Arguments.mk 42 .Create 2).numProcs]) ∧
      ((∃ indicies,
          randomizeIndicies quietHost.engine quietHost.draw quietHost.imagesSize 42 =
              .ok indicies ∧
            indicies.Perm (List.range quietHost.imagesSize)) ∧
        ∃ indicies,
          randomizeIndicies quietHost.engine quietHost.draw quietHost.pairsSize 42 =
              .ok indicies ∧
            indicies.Perm (List.range quietHost.pairsSize)) :=
  ⟨⟨((testOperation_inline_or_forked quietHost quietImplementation (Or.inl rfl) rfl).1 42 1
        (by decide)).1 _ rfl,
      ((testOperation_inline_or_forked quietHost quietImplementation (Or.inl rfl) rfl).1 42 1
        (by decide)).2 _ rfl⟩,
    ⟨((testOperation_inline_or_forked quietHost quietImplementation (Or.inl rfl) rfl).2.1
        ⟨42, .Create, 2⟩ (by decide)).1,
      ((testOperation_inline_or_forked quietHost quietImplementation (Or.inl rfl) rfl).2.1
        ⟨42, .Create, 2⟩ (by decide)).2 _ _ rfl rfl (Or.inl rfl) (fun _ => rfl)⟩,
    (testOperation_inline_or_forked quietHost quietImplementation (Or.inl rfl) rfl).2.2.2
      (by decide) (by decide) 42⟩

/-! ## Termination of `sanitizeMessage` -/

/-- Where `std::string::find` finds a quote: the text is what lies before
`position`, a run without quote, the quote, and a rest. -/
theorem findQuote_split (s : List Char) (position found : Nat)
    (h : findQuote s position = some found) :
    ∃ pre a t, s = pre ++ a ++ '"' :: t ∧ pre.length = position ∧
      found = position + a.length ∧ a.count '"' = 0 := by
  unfold findQuote at h
  dsimp only at h
  split_ifs at h with hk
  injection h with h
  obtain ⟨a, b, hab, hlen, hall, hb⟩ := findIfNot_split (fun c => c != '"') (s.drop position)
  rw [← hlen] at h hk
  have hb' : ∃ t, b = '"' :: t := by
    rcases hb with hb | ⟨c, t, hb, hc⟩
    · rw [hab, hb, List.append_nil] at hk
      omega
    · refine ⟨t, ?_⟩
      rw [hb]
      have : c = '"' := by simpa using hc
      rw [this]
  obtain ⟨t, ht⟩ := hb'
  have hpos : position ≤ s.length := by
    by_contra hc
    rw [List.drop_eq_nil_of_le (by omega)] at hab
    cases a <;> simp [ht] at hab
  refine ⟨s.take position, a, t, ?_, ?_, h.symm, ?_⟩
  · rw [List.append_assoc, ← ht, ← hab, List.take_append_drop]
  · rw [List.length_take, Nat.min_eq_left hpos]
  · apply List.count_eq_zero.mpr
    intro hq
    have := hall '"' hq
    simp at this

/-- C28: both loops of `sanitizeMessage` end, for every message and every
combination of the flags.  A round of the first loop lowers the number of
characters that are neither graphic nor a space by one, and with as many
rounds as there are such characters the loop has replaced them all and its
condition is false; a round of the second loop moves the search position
behind the pair it inserted, leaves the text behind it as it was, and lowers
the number of quotes from the position on by one, and with as many rounds as
the text has quotes the loop has escaped them all.  The rounds
`sanitizeMessage` needs are at most the length of the text, further rounds
change nothing, and the result is the closed form. -/
theorem sanitizeMessage_terminates (m : List Char) :
    (findIfNot allowed m ≠ m.length →
        (replaceRange m (findIfNot allowed m) 1 [' ']).countP (fun c => !allowed c) + 1 =
          m.countP (fun c => !allowed c)) ∧
      (∀ fuel, m.countP (fun c => !allowed c) ≤ fuel →
        replaceLoop fuel m = m.map blank ∧
          findIfNot allowed (replaceLoop fuel m) = (replaceLoop fuel m).length) ∧
      (∀ position found, findQuote m position = some found →
        position ≤ found ∧ position < found + 2 ∧
        (replaceRange m found 1 ['\\', '"']).drop found = '\\' :: '"' :: m.drop (found + 1) ∧
        (replaceRange m found 1 ['\\', '"']).drop (found + 2) = m.drop (found + 1) ∧
        ((replaceRange m found 1 ['\\', '"']).drop (found + 2)).count '"' + 1 =
          (m.drop position).count '"') ∧
      (∀ fuel, m.count '"' ≤ fuel → escapeLoop fuel m 0 = m.flatMap escaped) ∧
      (∀ extra, replaceLoop (m.length + extra) m = replaceLoop m.length m ∧
        escapeLoop ((replaceLoop m.length m).length + extra) (replaceLoop m.length m) 0 =
          escapeLoop (replaceLoop m.length m).length (replaceLoop m.length m) 0) ∧
      (∀ escapeQuotes wrapInQuotes, sanitizeMessage m escapeQuotes wrapInQuotes =
        (if wrapInQuotes then ['"'] else []) ++
          (if escapeQuotes then (m.map blank).flatMap escaped else m.map blank) ++
          (if wrapInQuotes then ['"'] else [])) := by
  have hreplace : ∀ fuel, m.countP (fun c => !allowed c) ≤ fuel →
      replaceLoop fuel m = m.map blank := fun fuel h => replaceLoop_eq_map fuel m h
  have hescape : ∀ (s : List Char) (fuel : Nat), s.count '"' ≤ fuel →
      escapeLoop fuel s 0 = s.flatMap escaped := by
    intro s fuel hfuel
    have := escapeLoop_eq_flatMap fuel [] s hfuel
    simpa using this
  refine ⟨?_, ?_, ?_, hescape m, ?_, fun e w => sanitizeMessage_eq m e w⟩
  · intro hbad
    obtain ⟨a, b, hab, hlen, hall, hb⟩ := findIfNot_split allowed m
    rcases hb with hb | ⟨c, t, hb, hc⟩
    · rw [hb, List.append_nil] at hab
      rw [← hlen, ← hab] at hbad
      exact absurd rfl hbad
    · rw [← hlen, hab, hb, replaceRange_at]
      simp only [List.countP_append, List.countP_cons, List.countP_nil, hc]
      have : allowed ' ' = true := by decide
      simp [this]
      omega
  · intro fuel hfuel
    have hmap := hreplace fuel hfuel
    refine ⟨hmap, ?_⟩
    rw [hmap]
    obtain ⟨a, b, hab, hlen, _, hb⟩ := findIfNot_split allowed (m.map blank)
    rcases hb with hb | ⟨c, t, hb, hc⟩
    · rw [← hlen, hab, hb, List.append_nil]
    · have hmem : c ∈ m.map blank := by
        rw [hab, hb]
        simp
      obtain ⟨x, _, rfl⟩ := List.mem_map.mp hmem
      rw [allowed_blank] at hc
      cases hc
  · intro position found hfound
    obtain ⟨pre, a, t, hs, hpre, hf, hcount⟩ := findQuote_split m position found hfound
    have hlen : (pre ++ a).length = found := by
      rw [List.length_append, hpre, hf]
    have hrep : replaceRange m found 1 ['\\', '"'] = (pre ++ a) ++ ['\\', '"'] ++ t := by
      rw [hs, ← hlen]
      exact replaceRange_at _ _ _ _
    have hdrop : m.drop (found + 1) = t := by
      rw [hs]
      have e : pre ++ a ++ '"' :: t = (pre ++ a ++ ['"']) ++ t := by simp
      rw [e]
      apply List.drop_left'
      rw [List.length_append, hlen]
      rfl
    have hpos : m.drop position = a ++ '"' :: t := by
      rw [hs, List.append_assoc]
      exact List.drop_left' hpre
    have hrest : ((pre ++ a) ++ ['\\', '"'] ++ t).drop (found + 2) = t := by
      apply List.drop_left'
      rw [List.length_append, hlen]
      rfl
    refine ⟨by omega, by omega, ?_, ?_, ?_⟩
    · rw [hrep, hdrop, List.append_assoc]
      exact List.drop_left' hlen
    · rw [hrep, hdrop, hrest]
    · rw [hrep, hrest, hpos, List.count_append, hcount, List.count_cons_self]
      omega
  · intro extra
    constructor
    · rw [hreplace _ (le_trans (List.countP_le_length _) (Nat.le_add_right _ _)),
        hreplace _ (List.countP_le_length _)]
    · rw [hescape _ _ (le_trans (List.count_le_length _ _) (Nat.le_add_right _ _)),
        hescape _ _ (List.count_le_length _ _)]

theorem sanitizeMessage_terminates_witness :
    ((replaceRange ['a', Char.ofNat 7, '"'] (findIfNot allowed ['a', Char.ofNat 7, '"']) 1
          [' ']).countP (fun c => !allowed c) + 1 =
        ['a', Char.ofNat 7, '"'].countP (fun c => !allowed c) ∧
      (replaceLoop 1 ['a', Char.ofNat 7, '"'] = ['a', Char.ofNat 7, '"'].map blank ∧
        findIfNot allowed (replaceLoop 1 ['a', Char.ofNat 7, '"']) =
          (replaceLoop 1 ['a', Char.ofNat 7, '"']).length) ∧
      (0 ≤ 2 ∧ 0 < 2 + 2 ∧
        (replaceRange ['a', Char.ofNat 7, '"'] 2 1 ['\\', '"']).drop 2 =
          '\\' :: '"' :: ['a', Char.ofNat 7, '"'].drop (2 + 1) ∧
        (replaceRange ['a', Char.ofNat 7, '"'] 2 1 ['\\', '"']).drop (2 + 2) =
          ['a', Char.ofNat 7, '"'].drop (2 + 1) ∧
        ((replaceRange ['a', Char.ofNat 7, '"'] 2 1 ['\\', '"']).drop (2 + 2)).count '"' + 1 =
          (['a', Char.ofNat 7, '"'].drop 0).count '"') ∧
      escapeLoop 1 ['a', Char.ofNat 7, '"'] 0 = ['a', Char.ofNat 7, '"'].flatMap escaped) ∧
      (replaceLoop 0 ['a', 'b', 'c'] = ['a', 'b', 'c'].map blank ∧
        findIfNot allowed (replaceLoop 0 ['a', 'b', 'c']) =
          (replaceLoop 0 ['a', 'b', 'c']).length) ∧
      escapeLoop 0 ['a', 'b', 'c'] 0 = ['a', 'b', 'c'].flatMap escaped ∧
      sanitizeMessage ['a', 'b', 'c'] true true = ['"', 'a', 'b', 'c', '"'] :=
  ⟨⟨(sanitizeMessage_terminates ['a', Char.ofNat 7, '"']).1 (by decide),
      (sanitizeMessage_terminates ['a', Char.ofNat 7, '"']).2.1 1 (by decide),
      (sanitizeMessage_terminates ['a', Char.ofNat 7, '"']).2.2.1 0 2 (by decide),
      (sanitizeMessage_terminates ['a', Char.ofNat 7, '"']).2.2.2.1 1 (by decide)⟩,
    (sanitizeMessage_terminates ['a', 'b', 'c']).2.1 0 (by decide),
    (sanitizeMessage_terminates ['a', 'b', 'c']).2.2.2.1 0 (by decide),
    (sanitizeMessage_terminates ['a', 'b', 'c']).2.2.2.2.2 true true⟩

/-! ## The count of `waitForExit` -/

/-- When the loops of `waitForExit`, entered at call `k` with the count
`exitedChildren`, return normally, they do so at a call `m` that fails with
`ECHILD`, not before, and the count and the terminations reported by the
calls from `k` up to `m` add up to `numChildren` modulo 256. -/
theorem waitForExitFrom_returns (wait : Nat → WaitResult) (numChildren : Nat) :
    ∀ fuel k exitedChildren, exitedChildren < 256 →
      waitForExitFrom wait numChildren fuel k exitedChildren = some (.ok ()) →
      ∃ m, k ≤ m ∧ m < k + fuel ∧ wait m = .failed ECHILD ∧
        waitForExitFrom wait numChildren (m - k) k exitedChildren = none ∧
        waitForExitFrom wait numChildren (m - k + 1) k exitedChildren = some (.ok ()) ∧
        (exitedChildren +
          (List.range' k (m - k)).countP (fun j => (wait j).isExited)) % 256 =
            numChildren := by
  intro fuel
  induction fuel with
  | zero =>
    intro k e _ h
    cases h
  | succ fuel ih =>
    intro k e he h
    rw [waitForExitFrom] at h
    have hstep : ∀ e', e' < 256 → (wait k).isExited = (decide (e' ≠ e)) →
        (e' + 0) % 256 = (e + (if (wait k).isExited then 1 else 0)) % 256 →
        (∀ f, waitForExitFrom wait numChildren (f + 1) k e =
          waitForExitFrom wait numChildren f (k + 1) e') →
        waitForExitFrom wait numChildren fuel (k + 1) e' = some (.ok ()) →
        ∃ m, k ≤ m ∧ m < k + (fuel + 1) ∧ wait m = .failed ECHILD ∧
          waitForExitFrom wait numChildren (m - k) k e = none ∧
          waitForExitFrom wait numChildren (m - k + 1) k e = some (.ok ()) ∧
          (e + (List.range' k (m - k)).countP (fun j => (wait j).isExited)) % 256 =
            numChildren := by
      intro e' he' _ hcount hunfold hrec
      obtain ⟨m, hkm, hmf, hwm, hnone, hsome, hc⟩ := ih (k + 1) e' he' hrec
      have e1 : m - k = (m - (k + 1)) + 1 := by omega
      refine ⟨m, by omega, by omega, hwm, ?_, ?_, ?_⟩
      · rw [e1, hunfold]
        exact hnone
      · rw [e1, hunfold]
        exact hsome
      · rw [e1, List.range'_succ, List.countP_cons]
        split_ifs at hcount with hex
        · rw [if_pos hex]
          omega
        · rw [if_neg hex]
          omega
    cases hw : wait k with
    | exited pid status =>
      rw [hw] at h
      dsimp only at h
      by_cases hee : (e + 1) % 256 = e
      · omega
      · refine hstep ((e + 1) % 256) (Nat.mod_lt _ (by decide)) ?_ ?_ ?_ h
        · rw [hw]
          simp [WaitResult.isExited, hee]
        · rw [hw]
          simp [WaitResult.isExited]
        · intro f
          rw [waitForExitFrom, hw]
    | noStatus =>
      rw [hw] at h
      dsimp only at h
      refine hstep e he ?_ ?_ ?_ h
      · rw [hw]
        simp [WaitResult.isExited]
      · rw [hw]
        simp [WaitResult.isExited]
      · intro f
        rw [waitForExitFrom, hw]
    | failed errno =>
      rw [hw] at h
      dsimp only at h
      by_cases hch : errno = ECHILD
      · rw [if_pos hch] at h
        by_cases hne : e ≠ numChildren
        · rw [if_pos hne] at h
          refine hstep e he ?_ ?_ ?_ h
          · rw [hw]
            simp [WaitResult.isExited]
          · rw [hw]
            simp [WaitResult.isExited]
          · intro f
            rw [waitForExitFrom, hw]
            dsimp only
            rw [if_pos hch, if_pos hne]
        · have hen : e = numChildren := by
            by_contra hc
            exact hne hc
          refine ⟨k, le_refl k, by omega, by rw [hw, hch], ?_, ?_, ?_⟩
          · rw [Nat.sub_self]
            rfl
          · rw [Nat.sub_self, waitForExitFrom, hw]
            dsimp only
            rw [if_pos hch, if_neg hne]
          · rw [Nat.sub_self]
            simp only [List.range'_zero, List.countP_nil, Nat.add_zero]
            omega
      · rw [if_neg hch] at h
        by_cases hin : errno = EINTR
        · rw [if_pos hin] at h
          refine hstep e he ?_ ?_ ?_ h
          · rw [hw]
            simp [WaitResult.isExited]
          · rw [hw]
            simp [WaitResult.isExited]
          · intro f
            rw [waitForExitFrom, hw]
            dsimp only
            rw [if_neg hch, if_pos hin]
        · rw [if_neg hin] at h
          cases h

/-- A run of `count` calls that all report a terminated child moves the loops
of `waitForExit` on by `count` calls and adds `count` to the `uint8_t`. -/
theorem waitForExitFrom_exits (wait : Nat → WaitResult) (numChildren fuel : Nat) :
    ∀ count k exitedChildren, (∀ j, j < count → (wait (k + j)).isExited = true) →
      waitForExitFrom wait numChildren (fuel + count) k exitedChildren =
        waitForExitFrom wait numChildren fuel (k + count) ((exitedChildren + count) % 256) ∨
      256 ≤ exitedChildren := by
  intro count
  induction count with
  | zero =>
    intro k e _
    by_cases he : e < 256
    · left
      rw [Nat.add_zero, Nat.add_zero, Nat.add_zero, Nat.mod_eq_of_lt he]
    · right
      omega
  | succ count ih =>
    intro k e hall
    by_cases he : e < 256
    · left
      have h0 := hall 0 (by omega)
      rw [Nat.add_zero] at h0
      have hrec := ih (k + 1) ((e + 1) % 256) (fun j hj => by
        have := hall (j + 1) (by omega)
        rwa [show k + (j + 1) = k + 1 + j by omega] at this)
      rcases hrec with hrec | hbig
      · rw [show fuel + (count + 1) = fuel + count + 1 by omega, waitForExitFrom]
        cases hw : wait k with
        | exited pid status =>
          dsimp only
          rw [hrec, show k + 1 + count = k + (count + 1) by omega]
          congr 1
          omega
        | noStatus =>
          rw [hw] at h0
          cases h0
        | failed errno =>
          rw [hw] at h0
          cases h0
      · have := Nat.mod_lt (e + 1) (show 0 < 256 by decide)
        omega
    · right
      omega

/-- C25 as stated fails: with two children expected and 258 terminations
reported before `ECHILD`, `waitForExit` returns normally at the 259th call of
`::wait`, having consumed 258 terminations and not 2. -/
theorem waitForExit_returns_after_258_terminations :
    waitForExit crowdedWait 2 258 = none ∧
      waitForExit crowdedWait 2 259 = some (.ok ()) ∧
      (List.range 259).countP (fun j => (crowdedWait j).isExited) = 258 := by
  have hall : ∀ j, j < 258 → (crowdedWait (0 + j)).isExited = true := by
    intro j hj
    rw [Nat.zero_add]
    unfold crowdedWait
    rw [if_pos hj]
    rfl
  have hrun : ∀ fuel, waitForExitFrom crowdedWait 2 (fuel + 258) 0 0 =
      waitForExitFrom crowdedWait 2 fuel 258 2 := by
    intro fuel
    rcases waitForExitFrom_exits crowdedWait 2 fuel 258 0 0 hall with h | h
    · exact h
    · omega
  refine ⟨?_, ?_, ?_⟩
  · unfold waitForExit
    rw [if_pos (by decide)]
    exact hrun 0
  · unfold waitForExit
    rw [if_pos (by decide)]
    exact hrun 1
  · rw [List.range_succ, List.countP_append]
    have h1 : (List.range 258).countP (fun j => (crowdedWait j).isExited) =
        (List.range 258).length := by
      rw [List.countP_eq_length]
      intro j hj
      have := hall j (List.mem_range.mp hj)
      rwa [Nat.zero_add] at this
    rw [h1, List.length_range]
    rfl

/-- C25 (amended): the count is kept in a `uint8_t`.  Whenever `waitForExit`
returns normally for a `numChildren` below 256, either `numChildren` is 0 and
it returns without a call of `::wait`, or it returns at a call of `::wait` that fails
with `ECHILD` and not before, and the number of terminations the calls before
it reported equals `numChildren` modulo 256; the two are equal when fewer
than 256 terminations were reported. -/
theorem waitForExit_counts_modulo_256 (wait : Nat → WaitResult) (numChildren fuel : Nat)
    (hn : numChildren < 256) (h : waitForExit wait numChildren fuel = some (.ok ())) :
    (numChildren = 0 ∧ waitForExit wait numChildren 0 = some (.ok ())) ∨
      ∃ m, m < fuel ∧ wait m = .failed ECHILD ∧
        waitForExit wait numChildren m = none ∧
        waitForExit wait numChildren (m + 1) = some (.ok ()) ∧
        ((List.range m).countP (fun j => (wait j).isExited)) % 256 = numChildren ∧
        ((List.range m).countP (fun j => (wait j).isExited) < 256 →
          (List.range m).countP (fun j => (wait j).isExited) = numChildren) := by
  by_cases h0 : numChildren = 0
  · left
    refine ⟨h0, ?_⟩
    unfold waitForExit
    rw [if_neg (by omega)]
  · right
    have hne : (0 : Nat) ≠ numChildren := fun hc => h0 hc.symm
    unfold waitForExit at h ⊢
    rw [if_pos hne] at h
    obtain ⟨m, _, hmf, hwm, hnone, hsome, hc⟩ :=
      waitForExitFrom_returns wait numChildren fuel 0 0 (by decide) h
    rw [Nat.sub_zero] at hnone hsome hc
    rw [Nat.zero_add, ← List.range_eq_range'] at hc
    refine ⟨m, by omega, hwm, ?_, ?_, hc, fun hlt => ?_⟩
    · rw [if_pos hne]
      exact hnone
    · rw [if_pos hne]
      exact hsome
    · omega

theorem waitForExit_counts_modulo_256_witness :
    (2 = 0 ∧ waitForExit quietHost.wait 2 0 = some (.ok ())) ∨
      ∃ m, m < 8 ∧ quietHost.wait m = .failed ECHILD ∧
        waitForExit quietHost.wait 2 m = none ∧
        waitForExit quietHost.wait 2 (m + 1) = some (.ok ()) ∧
        ((List.range m).countP (fun j => (quietHost.wait j).isExited)) % 256 = 2 ∧
        ((List.range m).countP (fun j => (quietHost.wait j).isExited) < 256 →
          (List.range m).countP (fun j => (quietHost.wait j).isExited) = 2) :=
  waitForExit_counts_modulo_256 quietHost.wait 2 8 (by decide) rfl

/-! ### An upper bound on the computed partition size -/

/-- A binary32 quotient, rounded up to an integer, exceeds the exact quotient
by at most one part in `2 ^ 23` and one. -/
theorem fceil_fround_le (a b : Nat) (hb : 0 < b) :
    b * fceil (fround a b) ≤ a + a / 2 ^ 23 + b := by
  unfold fround
  split_ifs with h0 h1
  · subst h0
    simp [fceil]
  · show b * ((roundHalfEven a (b * 2 ^ shiftDown 64 a (2 ^ 24 * b)) *
        2 ^ shiftDown 64 a (2 ^ 24 * b) + 1 - 1) / 1) ≤ _
    rw [Nat.div_one, Nat.add_sub_cancel]
    have hP : 0 < 2 ^ shiftDown 64 a (2 ^ 24 * b) := Nat.two_pow_pos _
    have hsmall : 2 ^ 23 * (b * 2 ^ shiftDown 64 a (2 ^ 24 * b)) ≤ a := by
      rcases shiftDown_min 64 a (2 ^ 24 * b) with hz | hmin
      · rw [hz]
        simp only [pow_zero, Nat.mul_one]
        omega
      · rcases Nat.eq_zero_or_pos (shiftDown 64 a (2 ^ 24 * b)) with hz | hs
        · rw [hz]
          simp only [pow_zero, Nat.mul_one]
          omega
        · obtain ⟨s, hs'⟩ : ∃ s, shiftDown 64 a (2 ^ 24 * b) = s + 1 :=
            ⟨shiftDown 64 a (2 ^ 24 * b) - 1, by omega⟩
          rw [hs'] at hmin ⊢
          simp only [Nat.add_sub_cancel] at hmin
          rw [pow_succ 2 s]
          calc 2 ^ 23 * (b * (2 ^ s * 2)) = 2 ^ 24 * b * 2 ^ s := by ring
            _ ≤ a := hmin
    generalize 2 ^ shiftDown 64 a (2 ^ 24 * b) = P at hP hsmall
    have hr := roundHalfEven_le_succ a (b * P)
    have hdiv := Nat.div_mul_le_self a (b * P)
    have h1 : b * (roundHalfEven a (b * P) * P) ≤ (a / (b * P) + 1) * (b * P) := by
      calc b * (roundHalfEven a (b * P) * P) = roundHalfEven a (b * P) * (b * P) := by ring
        _ ≤ (a / (b * P) + 1) * (b * P) := Nat.mul_le_mul_right _ hr
    have h2 : (a / (b * P) + 1) * (b * P) = a / (b * P) * (b * P) + b * P := by ring
    have h3 : b * P ≤ a / 2 ^ 23 := by
      rw [Nat.le_div_iff_mul_le (by positivity)]
      omega
    omega
  · show b * ((roundHalfEven (a * 2 ^ shiftUp 64 a (2 ^ 23 * b)) b +
        2 ^ shiftUp 64 a (2 ^ 23 * b) - 1) / 2 ^ shiftUp 64 a (2 ^ 23 * b)) ≤ _
    have hP : 0 < 2 ^ shiftUp 64 a (2 ^ 23 * b) := Nat.two_pow_pos _
    generalize 2 ^ shiftUp 64 a (2 ^ 23 * b) = P at hP
    have hr := roundHalfEven_le_succ (a * P) b
    have hdiv := Nat.div_mul_le_self (a * P) b
    have hs := Nat.div_mul_le_self (roundHalfEven (a * P) b + P - 1) P
    generalize (roundHalfEven (a * P) b + P - 1) / P = s at hs
    have h1 : b * s * P ≤ b * (a * P / b + P) := by
      calc b * s * P = b * (s * P) := by ring
        _ ≤ b * (a * P / b + P) := Nat.mul_le_mul_left _ (by omega)
    have h2 : b * (a * P / b + P) = a * P / b * b + b * P := by ring
    have h3 : b * s * P ≤ (a + b) * P := by
      have : (a + b) * P = a * P + b * P := by ring
      omega
    have h4 := Nat.le_of_mul_le_mul_right h3 hP
    omega

/-- The partition size `splitSet` computes for `2 ^ 24` items or more. -/
theorem partitionSize_le (len numSets : Nat) (hlen : 2 ^ 24 ≤ len)
    (h0 : 0 < numSets) (h8 : numSets < 2 ^ 8) :
    ∃ X, X ≤ len + len / 2 ^ 23 + 1 ∧
      numSets * partitionSize len numSets ≤ X + X / 2 ^ 23 + numSets := by
  have hden : (toFloat len).den = 1 := by
    unfold toFloat fround
    rw [if_neg (by omega), if_pos (by omega)]
  have hnum : (toFloat len).num ≤ len + len / 2 ^ 23 + 1 := by
    have h := fceil_fround_le len 1 (by decide)
    have e : fceil (fround len 1) = (toFloat len).num := by
      show ((toFloat len).num + (toFloat len).den - 1) / (toFloat len).den = _
      rw [hden, Nat.div_one, Nat.add_sub_cancel]
    rw [e] at h
    omega
  refine ⟨(toFloat len).num, hnum, ?_⟩
  unfold partitionSize fdiv
  rw [toFloat_exact numSets h0 (by omega), hden]
  simp only []
  generalize (toFloat len).num = X
  generalize shiftUp 64 numSets (2 ^ 23 * 1) = j
  have hj : 0 < 2 ^ j := Nat.two_pow_pos _
  rw [show X * 2 ^ j = 2 ^ j * X by ring,
    show 1 * (numSets * 2 ^ j) = 2 ^ j * numSets by ring, fround_scale _ _ _ hj]
  exact fceil_fround_le X numSets h0

/-- Once the guard of `splitSet` is passed, the start of the last slice lies
before the end of the items and no product leaves the 64 bit `size_type`. -/
theorem partitionSize_bounds (len numSets : Nat) (h2 : 2 ≤ numSets) (h8 : numSets ≤ 255)
    (hlen : len ≤ diffMax) (hguard : numSets ≤ partitionSize len numSets) :
    partitionSize len numSets * (numSets - 1) < len ∧
      partitionSize len numSets * numSets < 2 ^ 64 := by
  have hd : diffMax = 2 ^ 63 - 1 := rfl
  obtain ⟨m, rfl⟩ : ∃ m, numSets = m + 1 := ⟨numSets - 1, by omega⟩
  simp only [Nat.add_sub_cancel]
  by_cases hsmall : len < 2 ^ 24
  · rw [partitionSize_exact len (m + 1) hsmall (by omega) (by omega)] at hguard ⊢
    have hdiv := Nat.div_mul_le_self (len + (m + 1) - 1) (m + 1)
    generalize (len + (m + 1) - 1) / (m + 1) = s at hguard hdiv
    have e : s * (m + 1) = s * m + s := by ring
    constructor
    · omega
    · omega
  · obtain ⟨X, hX, hs⟩ := partitionSize_le len (m + 1) (by omega) (by omega) (by omega)
    generalize partitionSize len (m + 1) = s at hguard hs
    have e : (m + 1) * s = s * m + s := by ring
    have e2 : s * (m + 1) = s * m + s := by ring
    constructor
    · by_contra hcon
      have hsle : s ≤ len / 2 ^ 22 + len / 2 ^ 45 + 300 := by omega
      have hprod : s * m ≤ (len / 2 ^ 22 + len / 2 ^ 45 + 300) * 254 :=
        Nat.mul_le_mul hsle (by omega)
      omega
    · omega

/-- The result of `splitSet` for two sets or more, whenever the guard is
passed: the slices of the computed partition size. -/
theorem splitSet_ok_of_guard (items : List Nat) (numSets : Nat) (h2 : 2 ≤ numSets)
    (h8 : numSets ≤ 255) (hlen : items.length ≤ diffMax)
    (hguard : numSets ≤ partitionSize items.length numSets) :
    splitSet items numSets = .ok ((List.range numSets).map (fun j =>
      (items.take (min (partitionSize items.length numSets * (j + 1)) items.length)).drop
        (partitionSize items.length numSets * j))) := by
  obtain ⟨hlast, hwrap⟩ := partitionSize_bounds items.length numSets h2 h8 hlen hguard
  rw [splitSet_eq_loop items numSets h2 hlen hguard]
  generalize partitionSize items.length numSets = c at hlast hwrap
  obtain ⟨sets, hok, hmap, _⟩ := splitSetLoop_ok items c hlen numSets 0
    (fun j hj => by
      have : c * (0 + j) ≤ c * (numSets - 1) := Nat.mul_le_mul_left _ (by omega)
      omega)
    (by rw [Nat.zero_add]; exact hwrap)
  rw [hok, hmap]
  congr 1
  apply List.map_congr_left
  intro j _
  rw [Nat.zero_add]

/-- For two to 255 sets `splitSet` throws exactly when the items are at most
`numSets * (numSets - 1)`. -/
theorem partitionSize_lt_iff (len numSets : Nat) (h2 : 2 ≤ numSets) (h8 : numSets ≤ 255) :
    partitionSize len numSets < numSets ↔ len ≤ numSets * (numSets - 1) := by
  obtain ⟨m, rfl⟩ : ∃ m, numSets = m + 1 := ⟨numSets - 1, by omega⟩
  simp only [Nat.add_sub_cancel]
  have hmm : (m + 1) * m ≤ 255 * 254 := Nat.mul_le_mul h8 (by omega)
  by_cases hsmall : len < 2 ^ 24
  · rw [partitionSize_exact len (m + 1) hsmall (by omega) (by omega),
      Nat.div_lt_iff_lt_mul (by omega)]
    have e : (m + 1) * (m + 1) = (m + 1) * m + m + 1 := by ring
    omega
  · have := partitionSize_large len (m + 1) (by omega) (by omega) (by omega)
    constructor
    · intro h
      omega
    · intro h
      omega

/-! ## Further properties of `splitSet` -/

/-- The two partitions `splitSet` makes of `2 ^ 24 + 1` items. -/
theorem splitSet_two_pow_24_succ_slices (items : List Nat) (hlen : items.length = 16777217) :
    ∃ sets, splitSet items 2 = .ok sets ∧ sets.map List.length = [8388608, 8388608] := by
  have hd : diffMax = 2 ^ 63 - 1 := rfl
  have hsize : partitionSize 16777217 2 = 8388608 := by decide
  have hok := splitSet_ok_of_guard items 2 (by decide) (by decide) (by rw [hlen, hd]; norm_num)
    (by rw [hlen, hsize]; norm_num)
  rw [hlen, hsize] at hok
  refine ⟨_, hok, ?_⟩
  have hr : List.range 2 = [0, 1] := rfl
  rw [hr]
  simp only [List.map_cons, List.map_nil, List.length_drop, List.length_take, hlen]
  norm_num

/-- C23 fails in the code: for `2 ^ 24 + 1` items and two sets `splitSet`
succeeds and `s = ceil(len / numSets)` is 8388609, yet both partitions have
8388608 elements: the first is not the slice up to position `s`, and the
sizes do not add up to the number of items. -/
theorem splitSet_slices_differ_past_float_precision :
    ∃ sets, splitSet (List.range 16777217) 2 = .ok sets ∧
      sets.map List.length = [8388608, 8388608] ∧
      ((List.range 16777217).length + 2 - 1) / 2 = 8388609 ∧
      (List.range 16777217).length - 8388609 * (2 - 1) = 8388608 := by
  obtain ⟨sets, hok, hlens⟩ :=
    splitSet_two_pow_24_succ_slices (List.range 16777217) (List.length_range _)
  refine ⟨sets, hok, hlens, ?_, ?_⟩
  · rw [List.length_range]
  · rw [List.length_range]

/-- C24: for every sequence of items and every number of workers from 1 to
the number of items (and at most 255, the range of `uint8_t`), whenever
`splitSet` returns, every partition it returns is non-empty; for two workers
or more the start of every slice lies strictly before the end of the
items. -/
theorem splitSet_partitions_nonempty (items : List Nat) (numWorkers : Nat)
    (sets : List (List Nat)) (h1 : 1 ≤ numWorkers) (hle : numWorkers ≤ items.length)
    (h8 : numWorkers ≤ 255) (h : splitSet items numWorkers = .ok sets) :
    (∀ set ∈ sets, set ≠ []) ∧
      (2 ≤ numWorkers → items.length ≤ diffMax →
        ∀ i, i < numWorkers → partitionSize items.length numWorkers * i < items.length) := by
  have hne : items ≠ [] := by
    intro hc
    rw [hc] at hle
    simp at hle
    omega
  have hwhole : sets = [items] → ∀ set ∈ sets, set ≠ [] := by
    intro hs set hset
    rw [hs, List.mem_singleton] at hset
    rw [hset]
    exact hne
  by_cases h2 : 2 ≤ numWorkers
  · by_cases hlen : items.length ≤ diffMax
    · have hguard : numWorkers ≤ partitionSize items.length numWorkers := by
        by_contra hc
        have := (splitSet_throws_iff items numWorkers "Too many sets.").mpr
          ⟨h2, hlen, by omega, rfl⟩
        rw [this] at h
        cases h
      obtain ⟨hlast, _⟩ := partitionSize_bounds items.length numWorkers h2 h8 hlen hguard
      have hstart : ∀ i, i < numWorkers →
          partitionSize items.length numWorkers * i < items.length := by
        intro i hi
        have : partitionSize items.length numWorkers * i ≤
            partitionSize items.length numWorkers * (numWorkers - 1) :=
          Nat.mul_le_mul_left _ (by omega)
        omega
      refine ⟨?_, fun _ _ => hstart⟩
      rw [splitSet_ok_of_guard items numWorkers h2 h8 hlen hguard] at h
      injection h with h
      intro set hset
      rw [← h] at hset
      obtain ⟨j, hj, rfl⟩ := List.mem_map.mp hset
      have hjn := hstart j (List.mem_range.mp hj)
      have hstep : partitionSize items.length numWorkers * (j + 1) =
          partitionSize items.length numWorkers * j +
            partitionSize items.length numWorkers := by ring
      intro hc
      have hl := congrArg List.length hc
      rw [List.length_drop, List.length_take, List.length_nil] at hl
      omega
    · refine ⟨hwhole ?_, fun _ hl => absurd hl hlen⟩
      unfold splitSet at h
      rw [if_neg (by omega), if_neg (by omega), if_pos (by omega)] at h
      injection h with h
      exact h.symm
  · refine ⟨hwhole ?_, fun hc => absurd hc h2⟩
    have h1' : numWorkers = 1 := by omega
    subst h1'
    unfold splitSet at h
    rw [if_neg (by decide), if_pos rfl] at h
    injection h with h
    exact h.symm

theorem splitSet_partitions_nonempty_witness :
    (∀ set ∈ ([[0, 1, 2, 3], [4, 5, 6, 7], [8, 9]] : List (List Nat)), set ≠ []) ∧
      (2 ≤ 3 → (List.range 10).length ≤ diffMax →
        ∀ i, i < 3 → partitionSize (List.range 10).length 3 * i < (List.range 10).length) :=
  splitSet_partitions_nonempty (List.range 10) 3 [[0, 1, 2, 3], [4, 5, 6, 7], [8, 9]]
    (by decide) (by decide) (by decide) rfl

/-- C27: for every sequence of items and every number of sets from 2 to 255,
`splitSet` throws exactly when there are at most `numSets * (numSets - 1)`
items and returns exactly when there are at least
`numSets * (numSets - 1) + 1`; so it throws for 10 items and 4 sets although
4 is not more than the number of items. -/
theorem splitSet_throws_iff_few_items (items : List Nat) (numSets : Nat)
    (h2 : 2 ≤ numSets) (h8 : numSets ≤ 255) :
    ((∃ what, splitSet items numSets = .error (.invalidArgument what)) ↔
        items.length ≤ numSets * (numSets - 1)) ∧
      ((∃ sets, splitSet items numSets = .ok sets) ↔
        numSets * (numSets - 1) + 1 ≤ items.length) ∧
      (splitSet (List.range 10) 4 = .error (.invalidArgument "Too many sets.") ∧
        4 ≤ (List.range 10).length ∧ (List.range 10).length ≤ 4 * (4 - 1)) := by
  have hd : diffMax = 2 ^ 63 - 1 := rfl
  have hnn : numSets * (numSets - 1) ≤ 255 * 254 := Nat.mul_le_mul h8 (by omega)
  have hiff := partitionSize_lt_iff items.length numSets h2 h8
  have hthrow : items.length ≤ numSets * (numSets - 1) →
      splitSet items numSets = .error (.invalidArgument "Too many sets.") := by
    intro h
    exact (splitSet_throws_iff items numSets _).mpr ⟨h2, by omega, hiff.mpr h, rfl⟩
  refine ⟨⟨?_, fun h => ⟨_, hthrow h⟩⟩, ⟨?_, ?_⟩, ?_⟩
  · rintro ⟨what, h⟩
    obtain ⟨_, _, hs, _⟩ := (splitSet_throws_iff items numSets what).mp h
    exact hiff.mp hs
  · rintro ⟨sets, h⟩
    by_contra hc
    rw [hthrow (by omega)] at h
    cases h
  · intro h
    by_cases hlen : items.length ≤ diffMax
    · exact ⟨_, splitSet_ok_of_guard items numSets h2 h8 hlen (by
        by_contra hc
        have := hiff.mp (by omega)
        omega)⟩
    · refine ⟨[items], ?_⟩
      unfold splitSet
      rw [if_neg (by omega), if_neg (by omega), if_pos (by omega)]
  · exact ⟨rfl, by decide, by decide⟩

theorem splitSet_throws_iff_few_items_witness :
    ((∃ what, splitSet (List.range 13) 4 = .error (.invalidArgument what)) ↔
        (List.range 13).length ≤ 4 * (4 - 1)) ∧
      ((∃ sets, splitSet (List.range 13) 4 = .ok sets) ↔
        4 * (4 - 1) + 1 ≤ (List.range 13).length) ∧
      (splitSet (List.range 10) 4 = .error (.invalidArgument "Too many sets.") ∧
        4 ≤ (List.range 10).length ∧ (List.range 10).length ≤ 4 * (4 - 1)) :=
  splitSet_throws_iff_few_items (List.range 13) 4 (by decide) (by decide)

end Validation
end PFTIII
